import Mathlib

/-!
CompileTimeRaytracer: intersection routines, rays, scattering and the integrator

A shallow embedding of `Point.hpp`, `Colour.hpp`, `Materials.hpp`, `Objects.hpp`,
`Random.hpp` and of `Reflect`, `Refract`, `Schlick`, `Emit`, `Scatter`, `GetColour` and
`CreateRectangle` of `main.cpp`.

The C++ code computes on `float`.  The embedding is over exact arithmetic: every
definition is generic in a linearly ordered field `F`, and the library functions the code
calls are passed in: `std::sqrt` as a function `sqrt : F → F`, and `std::atan2`,
`std::asin`, pi and `static_cast<int>` as the fields of a `Libm F`.  The theorems assume
of them what holds of the real functions on the arguments the code gives them (`IsSqrt`,
`IsTrunc`, single values of `atan2` and `asin`); `Real.sqrt` and the real functions are
the intended instance.  The roundings of `static_cast<float>` in `random_float` are not
modelled: the drawn integer is divided exactly by `UINT64_MAX`.

The generator state is a natural number, with the shifts taken modulo `2^64`.  The
rejection loop of `RandomPointInUnitSphere` has no bound in the source; here it runs for
at most `fuel` rounds and `Scatter` and `GetColour` return `none` when a loop uses them
up.  References passed to `Scatter` become inputs and fields of its result.
-/

namespace Raytracer

variable {F : Type} [LinearOrderedField F]

/-! ## Point.hpp -/

/-- Point.hpp `struct Point`: three components. -/
@[ext]
structure Point (F : Type) where
  x : F
  y : F
  z : F

/-- The value-initialised `Point{}`: all components zero. -/
def Point.zero : Point F := ⟨0, 0, 0⟩

/-- Point.hpp `operator+(Point, Point)`. -/
def Point.add (lhs rhs : Point F) : Point F :=
  ⟨lhs.x + rhs.x, lhs.y + rhs.y, lhs.z + rhs.z⟩

/-- Point.hpp `operator-(Point, Point)`. -/
def Point.sub (lhs rhs : Point F) : Point F :=
  ⟨lhs.x - rhs.x, lhs.y - rhs.y, lhs.z - rhs.z⟩

/-- Point.hpp `operator*(Point, float)` and `operator*(float, Point)`: both scale each
component by the scalar. -/
def Point.scale (lhs : Point F) (rhs : F) : Point F :=
  ⟨lhs.x * rhs, lhs.y * rhs, lhs.z * rhs⟩

/-- Point.hpp `operator/(Point, float)`. -/
def Point.divScalar (lhs : Point F) (rhs : F) : Point F :=
  ⟨lhs.x / rhs, lhs.y / rhs, lhs.z / rhs⟩

instance : Add (Point F) := ⟨Point.add⟩

instance : Sub (Point F) := ⟨Point.sub⟩

instance : HMul (Point F) F (Point F) := ⟨Point.scale⟩

instance : HMul F (Point F) (Point F) := ⟨fun rhs lhs => Point.scale lhs rhs⟩

instance : HDiv (Point F) F (Point F) := ⟨Point.divScalar⟩

/-- Point.hpp `DotProduct`. -/
def DotProduct (a b : Point F) : F := a.x * b.x + a.y * b.y + a.z * b.z

/-- Point.hpp `LengthSquared`. -/
def LengthSquared (a : Point F) : F := a.x * a.x + a.y * a.y + a.z * a.z

/-- Point.hpp `Length`: `std::sqrt(LengthSquared(point))`. -/
def Length (sqrt : F → F) (point : Point F) : F := sqrt (LengthSquared point)

/-- Point.hpp `Normalize`: `point / Length(point)`. -/
def Normalize (sqrt : F → F) (point : Point F) : Point F := point / Length sqrt point

/-- Point.hpp `CrossProduct`. -/
def CrossProduct (a b : Point F) : Point F :=
  ⟨a.y * b.z - a.z * b.y, a.z * b.x - a.x * b.z, a.x * b.y - a.y * b.x⟩

/-- What the theorems assume of the square root passed to the code: on a non-negative
argument it returns the non-negative number whose square is the argument. -/
def IsSqrt (sqrt : F → F) : Prop := ∀ x : F, 0 ≤ x → 0 ≤ sqrt x ∧ sqrt x * sqrt x = x

/-! ## Colour.hpp and Materials.hpp -/

/-- Colour.hpp `struct Colour`. -/
@[ext]
structure Colour (F : Type) where
  r : F
  g : F
  b : F

/-- Materials.hpp `struct Lambertian`. -/
structure Lambertian (F : Type) where
  albedo : Colour F

/-- Materials.hpp `struct Metal`. -/
structure Metal (F : Type) where
  albedo : Colour F
  fuzz : F

/-- Materials.hpp `struct Dielectric`. -/
structure Dielectric (F : Type) where
  refractiveIndex : F

/-- Materials.hpp `struct Emissive`. -/
structure Emissive (F : Type) where
  albedo : Colour F

/-- Materials.hpp `MaterialT = std::variant<Lambertian, Metal, Dielectric, Emissive>`. -/
inductive MaterialT (F : Type) where
  | lambertian (m : Lambertian F)
  | metal (m : Metal F)
  | dielectric (m : Dielectric F)
  | emissive (m : Emissive F)

/-- main.cpp `Emit`: the visitor returns `m.albedo` on the `Emissive` alternative and
`Colour{0.f, 0.f, 0.f}` on every other alternative. -/
def Emit : MaterialT F → Colour F
  | .emissive m => m.albedo
  | _ => ⟨0, 0, 0⟩

/-! ## Objects.hpp -/

/-- Objects.hpp `struct Ray`: the two stored fields. -/
structure Ray (F : Type) where
  origin : Point F
  direction : Point F

/-- Objects.hpp `Ray(Point origin, Point direction)`: the constructor stores the origin
and the normalised direction. -/
def Ray.new (sqrt : F → F) (origin direction : Point F) : Ray F :=
  { origin := origin, direction := Normalize sqrt direction }

/-- Objects.hpp `struct Sphere`. -/
structure Sphere (F : Type) where
  mat : MaterialT F
  center : Point F
  radius : F

/-- Objects.hpp `struct Rectangle`. -/
structure Rectangle (F : Type) where
  mat : MaterialT F
  origin : Point F
  u : Point F
  v : Point F
  normal : Point F
  u_len_sq : F
  v_len_sq : F

/-- Objects.hpp `ObjectT = std::variant<Sphere, Rectangle>`. -/
inductive ObjectT (F : Type) where
  | sphere (s : Sphere F)
  | rectangle (rect : Rectangle F)

/-- Objects.hpp `struct Environs`: the `std::array` of objects, as the list of its
elements in index order. -/
structure Environs (F : Type) where
  objects : List (ObjectT F)

/-- Objects.hpp `struct HitRecord`. -/
structure HitRecord (F : Type) where
  mat : MaterialT F
  point : Point F
  normal : Point F
  t : F

/-- Objects.hpp `HitRectangle`. -/
def HitRectangle (rect : Rectangle F) (r : Ray F) (tmin tmax : F) : Option (HitRecord F) :=
  let denom := DotProduct r.direction rect.normal
  if |denom| < 1 / 1000000 then none
  else
    let t := DotProduct (rect.origin - r.origin) rect.normal / denom
    if t < tmin ∨ t > tmax then none
    else
      let hit_point := r.origin + t * r.direction
      let hit_vec := hit_point - rect.origin
      let u_proj := DotProduct hit_vec rect.u
      let v_proj := DotProduct hit_vec rect.v
      if u_proj ≥ 0 ∧ u_proj ≤ rect.u_len_sq ∧ v_proj ≥ 0 ∧ v_proj ≤ rect.v_len_sq then
        some { t := t, point := hit_point, mat := rect.mat,
               normal := if denom < 0 then rect.normal else Point.zero - rect.normal }
      else none

/-- Objects.hpp, the lambda `try_hit` inside `HitSphere`: accepts `t` strictly inside
`(tmin, tmax)` and builds the record. -/
def HitSphere.try_hit (s : Sphere F) (r : Ray F) (tmin tmax : F) (t : F) :
    Option (HitRecord F) :=
  if t > tmin ∧ t < tmax then
    let point := r.origin + r.direction * t
    some { t := t, point := point, normal := (point - s.center) / s.radius, mat := s.mat }
  else none

/-- Objects.hpp `HitSphere`. `std::pow(x, 2.f)` is the square of `x`. -/
def HitSphere (sqrt : F → F) (s : Sphere F) (r : Ray F) (tmin tmax : F) :
    Option (HitRecord F) :=
  let oc := r.origin - s.center
  let a := DotProduct r.direction r.direction
  let b := 2 * DotProduct r.direction oc
  let c := DotProduct oc oc - s.radius ^ 2
  let disc := b ^ 2 - 4 * a * c
  if disc ≥ 0 then
    let sqrtd := sqrt disc
    match HitSphere.try_hit s r tmin tmax ((-b - sqrtd) / (2 * a)) with
    | some hit => some hit
    | none =>
      match HitSphere.try_hit s r tmin tmax ((-b + sqrtd) / (2 * a)) with
      | some hit => some hit
      | none => none
  else none

/-- Objects.hpp, the overload set `overloads` inside `HitEnvirons`, visited on one
object: a sphere goes to `HitSphere`, a rectangle to `HitRectangle`, both against
`(tmin, closest)`. -/
def HitEnvirons.visit (sqrt : F → F) (r : Ray F) (tmin closest : F) :
    ObjectT F → Option (HitRecord F)
  | .sphere s => HitSphere sqrt s r tmin closest
  | .rectangle rect => HitRectangle rect r tmin closest

/-- Objects.hpp, the `for` loop of `HitEnvirons` over the remaining objects, with the
loop state `closest` and `res`. -/
def HitEnvirons.loop (sqrt : F → F) (r : Ray F) (tmin : F) :
    List (ObjectT F) → F → Option (HitRecord F) → Option (HitRecord F)
  | [], _, res => res
  | env :: rest, closest, res =>
    match HitEnvirons.visit sqrt r tmin closest env with
    | some hit => HitEnvirons.loop sqrt r tmin rest hit.t (some hit)
    | none => HitEnvirons.loop sqrt r tmin rest closest res

/-- Objects.hpp `HitEnvirons`: start with `closest = tmax` and no result. -/
def HitEnvirons (sqrt : F → F) (environs : Environs F) (r : Ray F) (tmin tmax : F) :
    Option (HitRecord F) :=
  HitEnvirons.loop sqrt r tmin environs.objects tmax none

/-- main.cpp `CreateRectangle`. -/
def CreateRectangle (sqrt : F → F) (mat : MaterialT F) (origin u v : Point F) :
    Rectangle F :=
  let normal := Normalize sqrt (CrossProduct u v)
  { mat := mat, origin := origin, u := u, v := v, normal := normal,
    u_len_sq := LengthSquared u, v_len_sq := LengthSquared v }

/-! ## Colour.hpp: arithmetic -/

/-- Colour.hpp `operator+(Colour, Colour)`. -/
def Colour.add (lhs rhs : Colour F) : Colour F :=
  ⟨lhs.r + rhs.r, lhs.g + rhs.g, lhs.b + rhs.b⟩

/-- Colour.hpp `operator*(Colour, Colour)`: componentwise. -/
def Colour.mul (lhs rhs : Colour F) : Colour F :=
  ⟨lhs.r * rhs.r, lhs.g * rhs.g, lhs.b * rhs.b⟩

instance : Add (Colour F) := ⟨Colour.add⟩

instance : Mul (Colour F) := ⟨Colour.mul⟩

/-! ## Random.hpp -/

/-- Random.hpp `struct CompileTimeRandom`: the 64-bit state, as a natural number. -/
structure CompileTimeRandom where
  state : Nat

/-- The value of `std::numeric_limits<uint64_t>::max()`. -/
def UINT64_MAX : Nat := 2 ^ 64 - 1

/-- Random.hpp `CompileTimeRandom::operator()`: the three xorshift steps on 64 bits; the
value returned is the new state. -/
def CompileTimeRandom.next (rng : CompileTimeRandom) : CompileTimeRandom :=
  let x := rng.state
  let x := x ^^^ ((x <<< 13) % 2 ^ 64)
  let x := x ^^^ (x >>> 7)
  let x := x ^^^ ((x <<< 17) % 2 ^ 64)
  ⟨x⟩

/-- Random.hpp `CompileTimeRandom::random_float`: the drawn value divided by
`UINT64_MAX`, together with the advanced generator. -/
def CompileTimeRandom.random_float (rng : CompileTimeRandom) : F × CompileTimeRandom :=
  ((rng.next.state : F) / (UINT64_MAX : F), rng.next)

/-- Random.hpp `RandomPointInUnitSphere`: the `do ... while (length_squared >= 1.f)` loop,
run for at most `fuel` rounds; `none` when the rounds are used up. -/
def RandomPointInUnitSphere : Nat → CompileTimeRandom → Option (Point F × CompileTimeRandom)
  | 0, _ => none
  | fuel + 1, rng =>
    let fx : F × CompileTimeRandom := rng.random_float
    let x := 2 * fx.1 - 1
    let fy : F × CompileTimeRandom := fx.2.random_float
    let y := 2 * fy.1 - 1
    let fz : F × CompileTimeRandom := fy.2.random_float
    let z := 2 * fz.1 - 1
    let length_squared := x * x + y * y + z * z
    if length_squared ≥ 1 then RandomPointInUnitSphere fuel fz.2
    else some (⟨x, y, z⟩, fz.2)

/-- Random.hpp `RandomPointInUnitSphere`: the candidate `{x, y, z}` that one round of the
loop builds from its three draws, starting from the generator `rng`. -/
def RandomPointInUnitSphere.candidate (rng : CompileTimeRandom) : Point F :=
  ⟨2 * ((rng.next.state : F) / (UINT64_MAX : F)) - 1,
   2 * ((rng.next.next.state : F) / (UINT64_MAX : F)) - 1,
   2 * ((rng.next.next.next.state : F) / (UINT64_MAX : F)) - 1⟩

/-- Random.hpp `CreateSeed`, as a function of the characters of `__TIME__`: the decimal
digits are accumulated on 64 bits, the other characters skipped. -/
def CreateSeed (time_str : List Char) : Nat :=
  time_str.foldl
    (fun seed c =>
      if c ≥ '0' ∧ c ≤ '9' then (seed * 10 + (c.toNat - '0'.toNat)) % 2 ^ 64 else seed)
    0

/-! ## main.cpp: reflection, refraction and scattering -/

/-- main.cpp `Reflect`. -/
def Reflect (rin : Ray F) (n : Point F) : Point F :=
  rin.direction - (2 * DotProduct rin.direction n) * n

/-- main.cpp `Refract`. -/
def Refract (sqrt : F → F) (rin : Ray F) (n : Point F) (niOverDt : F) : Option (Point F) :=
  let rporj := DotProduct rin.direction n
  let costT2 := 1 - (niOverDt * niOverDt) * (1 - (rporj * rporj))
  if costT2 > 0 then
    some (niOverDt * (rin.direction - rporj * n) - sqrt costT2 * n)
  else none

/-- main.cpp `Schlick`. `std::pow(x, 2.f)` and `std::pow(x, 5.f)` are the second and the
fifth power of `x`. -/
def Schlick (cosine refractiveIndex : F) : F :=
  let res := ((1 - refractiveIndex) / (1 + refractiveIndex)) ^ 2
  res + (1 - res) * (1 - cosine) ^ 5

/-- What a call of `Scatter` leaves behind: the returned `bool`, the generator, and the
two reference parameters `attenuation` and `rscattered`. -/
structure ScatterResult (F : Type) where
  continues : Bool
  rng : CompileTimeRandom
  attenuation : Colour F
  rscattered : Ray F

/-- main.cpp `Scatter`, the lambda `visit_lambertian`. -/
def Scatter.visit_lambertian (sqrt : F → F) (fuel : Nat) (rec : HitRecord F)
    (rng : CompileTimeRandom) (mat : Lambertian F) : Option (ScatterResult F) :=
  let n := Normalize sqrt rec.normal
  match (RandomPointInUnitSphere fuel rng : Option (Point F × CompileTimeRandom)) with
  | none => none
  | some (p, rng1) =>
    let dir := n + p
    some { rscattered := Ray.new sqrt rec.point dir, attenuation := mat.albedo,
           rng := rng1, continues := true }

/-- main.cpp `Scatter`, the lambda `visit_metal`. -/
def Scatter.visit_metal (sqrt : F → F) (fuel : Nat) (rin : Ray F) (rec : HitRecord F)
    (rng : CompileTimeRandom) (mat : Metal F) : Option (ScatterResult F) :=
  let n := Normalize sqrt rec.normal
  let reflected := Reflect rin n
  match (RandomPointInUnitSphere fuel rng : Option (Point F × CompileTimeRandom)) with
  | none => none
  | some (p, rng1) =>
    let dir := reflected + mat.fuzz * p
    let rscattered := Ray.new sqrt rec.point dir
    some { rscattered := rscattered, attenuation := mat.albedo, rng := rng1,
           continues := decide (DotProduct rscattered.direction n > 0) }

/-- main.cpp `Scatter`, `visit_dielectric`: the locals `n`, `ni_over_nt` and `cosine`
after the first `if`. -/
def Scatter.dielectric_setup (sqrt : F → F) (rin : Ray F) (rec : HitRecord F)
    (mat : Dielectric F) : Point F × F × F :=
  if DotProduct rin.direction rec.normal > 0 then
    (Point.zero - rec.normal, mat.refractiveIndex,
      mat.refractiveIndex * DotProduct rin.direction rec.normal / Length sqrt rin.direction)
  else
    (rec.normal, 1 / mat.refractiveIndex,
      -DotProduct rin.direction rec.normal / Length sqrt rin.direction)

/-- main.cpp `Scatter`, `visit_dielectric`: the locals `refracted` and `reflect_prob`
after the second `if`; `refracted` keeps its initial value `Point{}` when `Refract` gives
nothing. -/
def Scatter.dielectric_refract (sqrt : F → F) (rin : Ray F) (rec : HitRecord F)
    (mat : Dielectric F) : Point F × F :=
  match Refract sqrt rin (Scatter.dielectric_setup sqrt rin rec mat).1
      (Scatter.dielectric_setup sqrt rin rec mat).2.1 with
  | some ref => (ref, Schlick (Scatter.dielectric_setup sqrt rin rec mat).2.2 mat.refractiveIndex)
  | none => (Point.zero, 1)

/-- main.cpp `Scatter`, the lambda `visit_dielectric`. -/
def Scatter.visit_dielectric (sqrt : F → F) (rin : Ray F) (rec : HitRecord F)
    (rng : CompileTimeRandom) (mat : Dielectric F) : Option (ScatterResult F) :=
  let attenuation : Colour F := ⟨1, 1, 1⟩
  let refracted := (Scatter.dielectric_refract sqrt rin rec mat).1
  let reflect_prob := (Scatter.dielectric_refract sqrt rin rec mat).2
  let f : F × CompileTimeRandom := rng.random_float
  if f.1 < reflect_prob then
    let reflected := Reflect rin rec.normal
    some { rscattered := Ray.new sqrt rec.point reflected, attenuation := attenuation,
           rng := f.2, continues := true }
  else
    some { rscattered := Ray.new sqrt rec.point refracted, attenuation := attenuation,
           rng := f.2, continues := true }

/-- main.cpp `Scatter`: the visit of `rec.mat`.  `attenuation` and `rscattered` are the
values the two reference parameters hold at the call; `visit_emissive` returns `false`
and touches nothing.  `fuel` bounds the rounds of each `RandomPointInUnitSphere` loop. -/
def Scatter (sqrt : F → F) (fuel : Nat) (rin : Ray F) (rec : HitRecord F)
    (rng : CompileTimeRandom) (attenuation : Colour F) (rscattered : Ray F) :
    Option (ScatterResult F) :=
  match rec.mat with
  | .lambertian mat => Scatter.visit_lambertian sqrt fuel rec rng mat
  | .metal mat => Scatter.visit_metal sqrt fuel rin rec rng mat
  | .dielectric mat => Scatter.visit_dielectric sqrt rin rec rng mat
  | .emissive _ =>
    some { continues := false, rng := rng, attenuation := attenuation,
           rscattered := rscattered }

/-! ## main.cpp: the integrator -/

/-- main.cpp `struct Skybox`: the two extents of the texture and the texel read by
`texture[y, x]` (row, then column). -/
structure Skybox (F : Type) where
  width : Nat
  height : Nat
  texture : Int → Int → Colour F

/-- The library functions `GetColour` calls besides `std::sqrt`: `std::atan2`,
`std::asin`, the constant `std::numbers::pi_v<float>`, and the conversion
`static_cast<int>` of a `float`. -/
structure Libm (F : Type) where
  atan2 : F → F → F
  asin : F → F
  pi : F
  toInt : F → Int

/-- main.cpp, the file-level `MAX_DEPTH`. -/
def MAX_DEPTH : Nat := 10

/-- main.cpp, the `MAX_DEPTH` declared inside `GetColour`, which is the bound of its
loop. -/
def GetColour.MAX_DEPTH : Nat := 50

/-- main.cpp `SHADOW_ACHE` of `GetColour`. -/
def GetColour.SHADOW_ACHE : F := 1 / 1000

/-- main.cpp `HUGE_T` of `GetColour`: `std::numeric_limits<float>::max()`, which is
`(2^24 - 1) * 2^104`. -/
def GetColour.HUGE_T : F := (2 ^ 24 - 1) * 2 ^ 104

/-- The value of `extent - 1` computed on `size_t`. -/
def GetColour.extentMinusOne (extent : Nat) : Nat := (extent + (2 ^ 64 - 1)) % 2 ^ 64

/-- main.cpp `GetColour`, the `else` branch: the texel `skybox.texture[y, x]` read for the
ray `r`. -/
def GetColour.texel (sqrt : F → F) (m : Libm F) (skybox : Skybox F) (r : Ray F) : Colour F :=
  let unit_direction := Normalize sqrt r.direction
  let u := 1 / 2 + m.atan2 unit_direction.z unit_direction.x / (2 * m.pi)
  let v := 1 / 2 - m.asin unit_direction.y / m.pi
  let width := skybox.width
  let height := skybox.height
  let x := m.toInt (u * (GetColour.extentMinusOne width : F))
  let y := m.toInt (v * (GetColour.extentMinusOne height : F))
  skybox.texture y x

/-- The variables of `GetColour` that its loop updates. -/
structure GetColour.State (F : Type) where
  attenuation : Colour F
  final_colour : Colour F
  lray : Ray F
  rng : CompileTimeRandom

/-- main.cpp `GetColour`, one run of the loop body from the state `st`; `r` is the
parameter `r` of `GetColour`.  The `Bool` tells whether the loop goes on (`true`) or the
body ended in `break` (`false`). -/
def GetColour.body (sqrt : F → F) (m : Libm F) (fuel : Nat) (environs : Environs F)
    (skybox : Skybox F) (r : Ray F) (st : GetColour.State F) :
    Option (Bool × GetColour.State F) :=
  match HitEnvirons sqrt environs st.lray GetColour.SHADOW_ACHE GetColour.HUGE_T with
  | some rec =>
    let final_colour := st.final_colour + st.attenuation * Emit rec.mat
    match Scatter sqrt fuel st.lray rec st.rng ⟨0, 0, 0⟩ ⟨Point.zero, Point.zero⟩ with
    | none => none
    | some sc =>
      if sc.continues then
        some (true, { attenuation := sc.attenuation * st.attenuation,
                      final_colour := final_colour, lray := sc.rscattered, rng := sc.rng })
      else
        some (false, { attenuation := st.attenuation, final_colour := final_colour,
                       lray := st.lray, rng := sc.rng })
  | none =>
    some (false, { attenuation := st.attenuation,
                   final_colour := st.final_colour +
                     st.attenuation * GetColour.texel sqrt m skybox r,
                   lray := st.lray, rng := st.rng })

/-- main.cpp `GetColour`, the `for` loop with `n` iterations left. -/
def GetColour.loop (sqrt : F → F) (m : Libm F) (fuel : Nat) (environs : Environs F)
    (skybox : Skybox F) (r : Ray F) : Nat → GetColour.State F → Option (GetColour.State F)
  | 0, st => some st
  | n + 1, st =>
    match GetColour.body sqrt m fuel environs skybox r st with
    | none => none
    | some (true, st1) => GetColour.loop sqrt m fuel environs skybox r n st1
    | some (false, st1) => some st1

/-- The number of times the loop of `GetColour` runs its body, with `n` iterations left;
each run of the body makes exactly one `HitEnvirons` query. -/
def GetColour.queries (sqrt : F → F) (m : Libm F) (fuel : Nat) (environs : Environs F)
    (skybox : Skybox F) (r : Ray F) : Nat → GetColour.State F → Option Nat
  | 0, _ => some 0
  | n + 1, st =>
    match GetColour.body sqrt m fuel environs skybox r st with
    | none => none
    | some (true, st1) =>
      (GetColour.queries sqrt m fuel environs skybox r n st1).map (fun k => k + 1)
    | some (false, _) => some 1

/-- The state in which `GetColour` enters its loop. -/
def GetColour.init (r : Ray F) (rng : CompileTimeRandom) : GetColour.State F :=
  { attenuation := ⟨1, 1, 1⟩, final_colour := ⟨0, 0, 0⟩, lray := r, rng := rng }

/-- main.cpp `GetColour`: the returned colour and the generator it leaves. -/
def GetColour (sqrt : F → F) (m : Libm F) (fuel : Nat) (environs : Environs F)
    (skybox : Skybox F) (r : Ray F) (rng : CompileTimeRandom) :
    Option (Colour F × CompileTimeRandom) :=
  (GetColour.loop sqrt m fuel environs skybox r GetColour.MAX_DEPTH
    (GetColour.init r rng)).map (fun st => (st.final_colour, st.rng))

/-! ## Names for the locals of `GetColour` and for what the statements speak of -/

/-- The local `u` of the `else` branch of `GetColour`, for the ray `r`. -/
def GetColour.u (sqrt : F → F) (m : Libm F) (r : Ray F) : F :=
  1 / 2 + m.atan2 (Normalize sqrt r.direction).z (Normalize sqrt r.direction).x / (2 * m.pi)

/-- The local `v` of the `else` branch of `GetColour`, for the ray `r`. -/
def GetColour.v (sqrt : F → F) (m : Libm F) (r : Ray F) : F :=
  1 / 2 - m.asin (Normalize sqrt r.direction).y / m.pi

/-- What the theorems assume of `static_cast<int>` where they need its value: it rounds
towards zero. -/
def IsTrunc (toInt : F → Int) : Prop :=
  ∀ x : F, (0 ≤ x → (toInt x : F) ≤ x ∧ x < (toInt x : F) + 1) ∧
    (x ≤ 0 → x ≤ (toInt x : F) ∧ (toInt x : F) - 1 < x)

/-- The product of the attenuations `a 0, ..., a (k-1)` of the bounces before bounce `k`,
multiplied in the order of the code, starting from white. -/
def GetColour.throughput (a : Nat → Colour F) : Nat → Colour F
  | 0 => ⟨1, 1, 1⟩
  | k + 1 => a k * GetColour.throughput a k

/-- The sum over the bounces `0, ..., k-1` of the product of the attenuations of the
earlier bounces times the emission `e` of the bounce, added in the order of the code,
starting from black. -/
def GetColour.emitted (a e : Nat → Colour F) : Nat → Colour F
  | 0 => ⟨0, 0, 0⟩
  | k + 1 => GetColour.emitted a e k + GetColour.throughput a k * e k

/-! ## Names for the locals of `HitSphere`, `HitRectangle` and `HitEnvirons` -/

/-- The local `a` of `HitSphere`. -/
def HitSphere.a (r : Ray F) : F := DotProduct r.direction r.direction

/-- The local `b` of `HitSphere`. -/
def HitSphere.b (s : Sphere F) (r : Ray F) : F :=
  2 * DotProduct r.direction (r.origin - s.center)

/-- The local `c` of `HitSphere`. -/
def HitSphere.c (s : Sphere F) (r : Ray F) : F :=
  DotProduct (r.origin - s.center) (r.origin - s.center) - s.radius ^ 2

/-- The local `disc` of `HitSphere`. -/
def HitSphere.disc (s : Sphere F) (r : Ray F) : F :=
  HitSphere.b s r ^ 2 - 4 * HitSphere.a r * HitSphere.c s r

/-- The first root `HitSphere` tries, `(-b - sqrtd) / (2a)`. -/
def HitSphere.root1 (sqrt : F → F) (s : Sphere F) (r : Ray F) : F :=
  (-HitSphere.b s r - sqrt (HitSphere.disc s r)) / (2 * HitSphere.a r)

/-- The second root `HitSphere` tries, `(-b + sqrtd) / (2a)`. -/
def HitSphere.root2 (sqrt : F → F) (s : Sphere F) (r : Ray F) : F :=
  (-HitSphere.b s r + sqrt (HitSphere.disc s r)) / (2 * HitSphere.a r)

/-- The record `try_hit` builds for an accepted `t`. -/
def HitSphere.record (s : Sphere F) (r : Ray F) (t : F) : HitRecord F :=
  { t := t, point := r.origin + r.direction * t,
    normal := (r.origin + r.direction * t - s.center) / s.radius, mat := s.mat }

/-- The point of the ray at parameter `t` lies on the sphere:
`|origin + t*direction - center|^2 = radius^2`. -/
def OnSphere (s : Sphere F) (r : Ray F) (t : F) : Prop :=
  LengthSquared (r.origin + t * r.direction - s.center) = s.radius ^ 2

/-- The local `t` of `HitRectangle`: the parameter at which the ray meets the plane. -/
def HitRectangle.t (rect : Rectangle F) (r : Ray F) : F :=
  DotProduct (rect.origin - r.origin) rect.normal / DotProduct r.direction rect.normal

/-- The record `HitRectangle` builds when it accepts. -/
def HitRectangle.record (rect : Rectangle F) (r : Ray F) : HitRecord F :=
  { t := HitRectangle.t rect r, point := r.origin + HitRectangle.t rect r * r.direction,
    mat := rect.mat,
    normal := if DotProduct r.direction rect.normal < 0 then rect.normal
              else Point.zero - rect.normal }

/-- The footprint test of `HitRectangle` at the point where the ray meets the plane. -/
def HitRectangle.inside (rect : Rectangle F) (r : Ray F) : Prop :=
  0 ≤ DotProduct (r.origin + HitRectangle.t rect r * r.direction - rect.origin) rect.u ∧
  DotProduct (r.origin + HitRectangle.t rect r * r.direction - rect.origin) rect.u
    ≤ rect.u_len_sq ∧
  0 ≤ DotProduct (r.origin + HitRectangle.t rect r * r.direction - rect.origin) rect.v ∧
  DotProduct (r.origin + HitRectangle.t rect r * r.direction - rect.origin) rect.v
    ≤ rect.v_len_sq

/-- The value of the loop variable `closest` of `HitEnvirons` as a function of `res`: the
loop sets both together, so `closest` is `res->t` once there is a result and `tmax`
before. -/
def HitEnvirons.closest (tmax : F) : Option (HitRecord F) → F
  | some hit => hit.t
  | none => tmax

/-! ## Concrete inputs -/

/-- The unit square at the origin spanning `u = (1,0,0)`, `v = (0,1,0)`, with normal
`(0,0,1)`, as a stored `Rectangle`. -/
def unitSquare (mat : MaterialT F) : Rectangle F :=
  { mat := mat, origin := ⟨0, 0, 0⟩, u := ⟨1, 0, 0⟩, v := ⟨0, 1, 0⟩, normal := ⟨0, 0, 1⟩,
    u_len_sq := 1, v_len_sq := 1 }

/-- A Lambertian sphere of radius `1/2` centred at `(0,0,-3/2)`: seen from the origin
along `(0,0,-1)` its near side is at distance 1. -/
def tieSphere : Sphere F :=
  { mat := MaterialT.lambertian ⟨⟨1/10, 1/5, 1/2⟩⟩, center := ⟨0, 0, -3/2⟩, radius := 1/2 }

/-- An Emissive unit square in the plane `z = -1`, built by `CreateRectangle`: seen from
the origin along `(0,0,-1)` it is at distance 1 as well. -/
def tieRectangle (sqrt : F → F) : Rectangle F :=
  CreateRectangle sqrt (MaterialT.emissive ⟨⟨15, 15, 15⟩⟩) ⟨-1/2, -1/2, -1⟩ ⟨1, 0, 0⟩ ⟨0, 1, 0⟩

/-- The ray `Ray({0,0,0}, {0,0,-1})`. -/
def tieRay (sqrt : F → F) : Ray F := Ray.new sqrt ⟨0, 0, 0⟩ ⟨0, 0, -1⟩

/-- The record both `tieSphere` and `tieRectangle` give up to the material: `t = 1`, point
`(0,0,-1)`, normal `(0,0,1)`. -/
def tieRecord (mat : MaterialT F) : HitRecord F :=
  { mat := mat, point := ⟨0, 0, -1⟩, normal := ⟨0, 0, 1⟩, t := 1 }

/-- A generator state whose first three draws give a point inside the unit sphere. -/
def sampleSeed : CompileTimeRandom := ⟨10000000000⟩

/-- The point `RandomPointInUnitSphere` returns from `sampleSeed`, in its first round. -/
def samplePoint : Point F :=
  ⟨2 * ((10676934808812843976 : Nat) / (UINT64_MAX : F)) - 1,
   2 * ((12275363894599586863 : Nat) / (UINT64_MAX : F)) - 1,
   2 * ((3711040126931564743 : Nat) / (UINT64_MAX : F)) - 1⟩

/-- The generator state after the three draws from `sampleSeed`. -/
def sampleNext : CompileTimeRandom := ⟨3711040126931564743⟩

/-- The generator state whose next draw is `UINT64_MAX`, all 64 bits set. -/
def allOnesSeed : CompileTimeRandom := ⟨7650297886450228676⟩

/-- A ray of unit direction `(4/5, 0, 3/5)` that travels inside the sphere of radius 1
centred at `(0,0,-1)` and reaches its surface at `(0,0,0)`. -/
def tirRay : Ray F := ⟨⟨-4/5, 0, -3/5⟩, ⟨4/5, 0, 3/5⟩⟩

/-- The hit of `tirRay` on that sphere, of glass with refractive index `3/2`: point
`(0,0,0)`, outward normal `(0,0,1)`, `t = 1`. -/
def tirRecord : HitRecord F :=
  { mat := MaterialT.dielectric ⟨3/2⟩, point := ⟨0, 0, 0⟩, normal := ⟨0, 0, 1⟩, t := 1 }

/-- A ray of direction `(0,0,1)` that leaves the same sphere along its axis. -/
def axisRay : Ray F := ⟨⟨0, 0, -1⟩, ⟨0, 0, 1⟩⟩

/-- The 100x50 skybox whose texel at row `y`, column `x` is the colour `(x, y, 0)`. -/
def gridSky : Skybox F := ⟨100, 50, fun y x => ⟨(x : F), (y : F), 0⟩⟩

/-- A unit square in the plane `z = -1` of a Dielectric with refractive index `-3`, for
which `Schlick` gives a reflect probability of 4 at normal incidence. -/
def hallFloor (sqrt : F → F) : Rectangle F :=
  CreateRectangle sqrt (MaterialT.dielectric ⟨-3⟩) ⟨-1/2, -1/2, -1⟩ ⟨1, 0, 0⟩ ⟨0, 1, 0⟩

/-- The same square in the plane `z = 1`. -/
def hallCeiling (sqrt : F → F) : Rectangle F :=
  CreateRectangle sqrt (MaterialT.dielectric ⟨-3⟩) ⟨-1/2, -1/2, 1⟩ ⟨1, 0, 0⟩ ⟨0, 1, 0⟩

/-- The scene of the two facing squares. -/
def hall (sqrt : F → F) : Environs F :=
  ⟨[ObjectT.rectangle (hallFloor sqrt), ObjectT.rectangle (hallCeiling sqrt)]⟩

/-- The ray that travels between the two squares along their common axis: downwards from
the upper one before an even bounce, upwards from the lower one before an odd bounce. -/
def hallRay (k : Nat) : Ray F :=
  if k % 2 = 0 then ⟨⟨0, 0, 1⟩, ⟨0, 0, -1⟩⟩ else ⟨⟨0, 0, -1⟩, ⟨0, 0, 1⟩⟩

/-- The hit of `hallRay k` in `hall`. -/
def hallRecord (k : Nat) : HitRecord F :=
  if k % 2 = 0 then
    { mat := MaterialT.dielectric ⟨-3⟩, point := ⟨0, 0, -1⟩, normal := ⟨0, 0, 1⟩, t := 2 }
  else
    { mat := MaterialT.dielectric ⟨-3⟩, point := ⟨0, 0, 1⟩, normal := ⟨0, 0, -1⟩, t := 2 }

/-- The generator after `k` draws from `sampleSeed`. -/
def hallRng (k : Nat) : CompileTimeRandom := CompileTimeRandom.next^[k] sampleSeed

/-- What `Scatter` leaves at bounce `k` in `hall`. -/
def hallScatter (k : Nat) : ScatterResult F :=
  { continues := true, rng := hallRng (k + 1), attenuation := ⟨1, 1, 1⟩,
    rscattered := hallRay (k + 1) }

/-- A mirror: a unit square in the plane `z = -1` of Metal with fuzz 0. -/
def mirror (sqrt : F → F) : Rectangle F :=
  CreateRectangle sqrt (MaterialT.metal ⟨⟨4/5, 17/20, 22/25⟩, 0⟩) ⟨-1/2, -1/2, -1⟩
    ⟨1, 0, 0⟩ ⟨0, 1, 0⟩

/-- The scene that holds the mirror only. -/
def mirrorScene (sqrt : F → F) : Environs F := ⟨[ObjectT.rectangle (mirror sqrt)]⟩

/-- The starting ray `Ray({0,0,0}, {0,0,-1})`, which looks straight into the mirror. -/
def cameraRay : Ray F := ⟨⟨0, 0, 0⟩, ⟨0, 0, -1⟩⟩

/-- The ray the mirror sends back: from `(0,0,-1)` along `(0,0,1)`. -/
def mirroredRay : Ray F := ⟨⟨0, 0, -1⟩, ⟨0, 0, 1⟩⟩

/-! ## Component lemmas -/

@[simp]
theorem Point.add_x (a b : Point F) : (a + b).x = a.x + b.x := rfl

@[simp]
theorem Point.add_y (a b : Point F) : (a + b).y = a.y + b.y := rfl

@[simp]
theorem Point.add_z (a b : Point F) : (a + b).z = a.z + b.z := rfl

@[simp]
theorem Point.sub_x (a b : Point F) : (a - b).x = a.x - b.x := rfl

@[simp]
theorem Point.sub_y (a b : Point F) : (a - b).y = a.y - b.y := rfl

@[simp]
theorem Point.sub_z (a b : Point F) : (a - b).z = a.z - b.z := rfl

@[simp]
theorem Point.mul_scalar_x (a : Point F) (k : F) : (a * k).x = a.x * k := rfl

@[simp]
theorem Point.mul_scalar_y (a : Point F) (k : F) : (a * k).y = a.y * k := rfl

@[simp]
theorem Point.mul_scalar_z (a : Point F) (k : F) : (a * k).z = a.z * k := rfl

@[simp]
theorem Point.scalar_mul_x (k : F) (a : Point F) : (k * a).x = a.x * k := rfl

@[simp]
theorem Point.scalar_mul_y (k : F) (a : Point F) : (k * a).y = a.y * k := rfl

@[simp]
theorem Point.scalar_mul_z (k : F) (a : Point F) : (k * a).z = a.z * k := rfl

@[simp]
theorem Point.div_scalar_x (a : Point F) (k : F) : (a / k).x = a.x / k := rfl

@[simp]
theorem Point.div_scalar_y (a : Point F) (k : F) : (a / k).y = a.y / k := rfl

@[simp]
theorem Point.div_scalar_z (a : Point F) (k : F) : (a / k).z = a.z / k := rfl

@[simp]
theorem Point.zero_x : (Point.zero : Point F).x = 0 := rfl

@[simp]
theorem Point.zero_y : (Point.zero : Point F).y = 0 := rfl

@[simp]
theorem Point.zero_z : (Point.zero : Point F).z = 0 := rfl

/-! ## The square root -/

theorem IsSqrt.nonneg {sqrt : F → F} (hs : IsSqrt sqrt) {x : F} (hx : 0 ≤ x) :
    0 ≤ sqrt x := (hs x hx).1

theorem IsSqrt.mul_self {sqrt : F → F} (hs : IsSqrt sqrt) {x : F} (hx : 0 ≤ x) :
    sqrt x * sqrt x = x := (hs x hx).2

theorem IsSqrt.eq_of_mul_self {sqrt : F → F} (hs : IsSqrt sqrt) {x y : F} (hy : 0 ≤ y)
    (hxy : y * y = x) : sqrt x = y := by
  have hx : 0 ≤ x := hxy ▸ mul_nonneg hy hy
  have h1 := hs.nonneg hx
  have h2 := hs.mul_self hx
  exact (mul_self_inj h1 hy).1 (h2.trans hxy.symm)

theorem IsSqrt.one {sqrt : F → F} (hs : IsSqrt sqrt) : sqrt 1 = 1 :=
  hs.eq_of_mul_self zero_le_one (one_mul 1)

theorem IsSqrt.pos {sqrt : F → F} (hs : IsSqrt sqrt) {x : F} (hx : 0 < x) : 0 < sqrt x := by
  rcases (hs.nonneg hx.le).lt_or_eq with h | h
  · exact h
  · have := hs.mul_self hx.le
    rw [← h] at this
    simp at this
    exact absurd this hx.ne

theorem isSqrt_real : IsSqrt Real.sqrt :=
  fun x hx => ⟨Real.sqrt_nonneg x, Real.mul_self_sqrt hx⟩

/-! ## Vectors -/

theorem LengthSquared_nonneg (a : Point F) : 0 ≤ LengthSquared a := by
  unfold LengthSquared
  nlinarith [mul_self_nonneg a.x, mul_self_nonneg a.y, mul_self_nonneg a.z]

theorem LengthSquared_pos {a : Point F} (ha : a ≠ Point.zero) : 0 < LengthSquared a := by
  rcases (LengthSquared_nonneg a).lt_or_eq with h | h
  · exact h
  · exfalso
    apply ha
    unfold LengthSquared at h
    have hx : a.x * a.x = 0 := by
      nlinarith [mul_self_nonneg a.x, mul_self_nonneg a.y, mul_self_nonneg a.z]
    have hy : a.y * a.y = 0 := by
      nlinarith [mul_self_nonneg a.x, mul_self_nonneg a.y, mul_self_nonneg a.z]
    have hz : a.z * a.z = 0 := by
      nlinarith [mul_self_nonneg a.x, mul_self_nonneg a.y, mul_self_nonneg a.z]
    ext
    · simpa using hx
    · simpa using hy
    · simpa using hz

theorem DotProduct_self (a : Point F) : DotProduct a a = LengthSquared a := rfl

theorem Length_pos {sqrt : F → F} (hs : IsSqrt sqrt) {a : Point F} (ha : a ≠ Point.zero) :
    0 < Length sqrt a := hs.pos (LengthSquared_pos ha)

theorem Length_mul_self {sqrt : F → F} (hs : IsSqrt sqrt) (a : Point F) :
    Length sqrt a * Length sqrt a = LengthSquared a := hs.mul_self (LengthSquared_nonneg a)

theorem LengthSquared_Normalize {sqrt : F → F} (hs : IsSqrt sqrt) {a : Point F}
    (ha : a ≠ Point.zero) : LengthSquared (Normalize sqrt a) = 1 := by
  have hL := Length_pos hs ha
  have hLL := Length_mul_self hs a
  simp only [Normalize, LengthSquared, Point.div_scalar_x, Point.div_scalar_y,
    Point.div_scalar_z] at hLL ⊢
  field_simp
  linarith

/-! ## Emission -/

/-- C10: `Emit` returns the configured albedo of an Emissive material unchanged, and the
zero colour `(0,0,0)` for a Lambertian, a Metal and a Dielectric material. -/
theorem Emit_spec :
    (∀ m : Emissive F, Emit (MaterialT.emissive m) = m.albedo) ∧
    (∀ m : Lambertian F, Emit (MaterialT.lambertian m) = ⟨0, 0, 0⟩) ∧
    (∀ m : Metal F, Emit (MaterialT.metal m) = ⟨0, 0, 0⟩) ∧
    (∀ m : Dielectric F, Emit (MaterialT.dielectric m) = ⟨0, 0, 0⟩) :=
  ⟨fun _ => rfl, fun _ => rfl, fun _ => rfl, fun _ => rfl⟩

/-! ## Rays -/

/-- C9: for a non-zero direction `d`, the ray built by `Ray(origin, d)` stores a direction
of length exactly 1 that is a positive multiple of `d`, stores the origin unchanged, and
normalising the stored direction again leaves it unchanged. -/
theorem Ray_new_unit (sqrt : F → F) (hs : IsSqrt sqrt) (origin d : Point F)
    (hd : d ≠ Point.zero) :
    Length sqrt (Ray.new sqrt origin d).direction = 1 ∧
    (∃ k : F, 0 < k ∧ (Ray.new sqrt origin d).direction = k * d) ∧
    (Ray.new sqrt origin d).origin = origin ∧
    Normalize sqrt (Ray.new sqrt origin d).direction = (Ray.new sqrt origin d).direction := by
  have hL := Length_pos hs hd
  have h1 : Length sqrt (Normalize sqrt d) = 1 := by
    unfold Length
    rw [LengthSquared_Normalize hs hd]
    exact hs.one
  refine ⟨h1, ⟨(Length sqrt d)⁻¹, inv_pos.2 hL, ?_⟩, rfl, ?_⟩
  · ext <;> simp [Ray.new, Normalize, div_eq_mul_inv]
  · show Normalize sqrt d / Length sqrt (Normalize sqrt d) = Normalize sqrt d
    rw [h1]
    ext <;> simp

/-- C9 at the ray from `(1,2,3)` with direction `(3,0,4)`. -/
theorem Ray_new_unit_witness :
    IsSqrt Real.sqrt ∧ (⟨3, 0, 4⟩ : Point ℝ) ≠ Point.zero ∧
    Length Real.sqrt (Ray.new Real.sqrt ⟨1, 2, 3⟩ (⟨3, 0, 4⟩ : Point ℝ)).direction = 1 ∧
    (∃ k : ℝ, 0 < k ∧
      (Ray.new Real.sqrt ⟨1, 2, 3⟩ (⟨3, 0, 4⟩ : Point ℝ)).direction = k * (⟨3, 0, 4⟩ : Point ℝ)) ∧
    (Ray.new Real.sqrt ⟨1, 2, 3⟩ (⟨3, 0, 4⟩ : Point ℝ)).origin = ⟨1, 2, 3⟩ ∧
    Normalize Real.sqrt (Ray.new Real.sqrt ⟨1, 2, 3⟩ (⟨3, 0, 4⟩ : Point ℝ)).direction =
      (Ray.new Real.sqrt ⟨1, 2, 3⟩ (⟨3, 0, 4⟩ : Point ℝ)).direction :=
  ⟨isSqrt_real, by simp [Point.zero],
    Ray_new_unit Real.sqrt isSqrt_real ⟨1, 2, 3⟩ ⟨3, 0, 4⟩ (by simp [Point.zero])⟩

/-! ## Rectangles -/

/-- C8: whenever `HitRectangle` reports a hit, the returned normal is the rectangle's
stored normal when `dot(direction, rect.normal) < 0` and its exact negation otherwise, and
in both cases `dot(ray.direction, returned normal) < 0`. -/
theorem HitRectangle_normal_faces_ray (rect : Rectangle F) (r : Ray F) (tmin tmax : F)
    (h : HitRecord F) (hh : HitRectangle rect r tmin tmax = some h) :
    (h.normal = rect.normal ∨ h.normal = Point.zero - rect.normal) ∧
    (DotProduct r.direction rect.normal < 0 → h.normal = rect.normal) ∧
    (¬ DotProduct r.direction rect.normal < 0 → h.normal = Point.zero - rect.normal) ∧
    DotProduct r.direction h.normal < 0 := by
  unfold HitRectangle at hh
  simp only at hh
  split_ifs at hh with h1 h2 h3 h4
  · simp only [Option.some.injEq] at hh
    subst hh
    exact ⟨Or.inl rfl, fun _ => rfl, fun hn => absurd h4 hn, h4⟩
  · simp only [Option.some.injEq] at hh
    subst hh
    refine ⟨Or.inr rfl, fun hn => absurd hn h4, fun _ => rfl, ?_⟩
    have hpos : 0 < DotProduct r.direction rect.normal := by
      rcases lt_or_le 0 (DotProduct r.direction rect.normal) with hp | hp
      · exact hp
      · have h0 : DotProduct r.direction rect.normal = 0 := le_antisymm hp (not_lt.1 h4)
        rw [h0] at h1
        norm_num at h1
    simp only [DotProduct, Point.sub_x, Point.sub_y, Point.sub_z, Point.zero_x, Point.zero_y,
      Point.zero_z] at hpos ⊢
    linarith

theorem unitSquare_hit_from_below (mat : MaterialT ℚ) :
    HitRectangle (unitSquare mat) ⟨⟨1/2, 1/2, -1⟩, ⟨0, 0, 1⟩⟩ 0 10 =
      some { mat := mat, point := ⟨1/2, 1/2, 0⟩, normal := ⟨0, 0, -1⟩, t := 1 } := by
  simp [HitRectangle, unitSquare, DotProduct, Point.ext_iff]
  norm_num

/-- C8 at the unit square, hit from below by the ray from `(1/2, 1/2, -1)` along
`(0,0,1)`: the stored normal `(0,0,1)` is returned negated. -/
theorem HitRectangle_normal_faces_ray_witness :
    HitRectangle (unitSquare (MaterialT.dielectric ⟨3/2⟩))
        (⟨⟨1/2, 1/2, -1⟩, ⟨0, 0, 1⟩⟩ : Ray ℚ) 0 10 =
      some { mat := MaterialT.dielectric ⟨3/2⟩, point := ⟨1/2, 1/2, 0⟩, normal := ⟨0, 0, -1⟩,
             t := 1 } ∧
    DotProduct (⟨0, 0, 1⟩ : Point ℚ) (⟨0, 0, -1⟩ : Point ℚ) < 0 :=
  ⟨unitSquare_hit_from_below _,
    (HitRectangle_normal_faces_ray (unitSquare (MaterialT.dielectric ⟨3/2⟩))
      ⟨⟨1/2, 1/2, -1⟩, ⟨0, 0, 1⟩⟩ 0 10 _ (unitSquare_hit_from_below _)).2.2.2⟩

/-! ## Spheres -/

theorem HitSphere.try_hit_eq (s : Sphere F) (r : Ray F) (tmin tmax t : F) :
    HitSphere.try_hit s r tmin tmax t =
      if tmin < t ∧ t < tmax then some (HitSphere.record s r t) else none := rfl

/-- The control flow of `HitSphere` in terms of its two roots. -/
theorem HitSphere_eq (sqrt : F → F) (s : Sphere F) (r : Ray F) (tmin tmax : F) :
    HitSphere sqrt s r tmin tmax =
      if 0 ≤ HitSphere.disc s r then
        if tmin < HitSphere.root1 sqrt s r ∧ HitSphere.root1 sqrt s r < tmax then
          some (HitSphere.record s r (HitSphere.root1 sqrt s r))
        else if tmin < HitSphere.root2 sqrt s r ∧ HitSphere.root2 sqrt s r < tmax then
          some (HitSphere.record s r (HitSphere.root2 sqrt s r))
        else none
      else none := by
  show (if HitSphere.disc s r ≥ 0 then
      (match HitSphere.try_hit s r tmin tmax (HitSphere.root1 sqrt s r) with
        | some hit => some hit
        | none =>
          match HitSphere.try_hit s r tmin tmax (HitSphere.root2 sqrt s r) with
          | some hit => some hit
          | none => none)
      else none) = _
  simp only [HitSphere.try_hit_eq, ge_iff_le]
  split_ifs <;> rfl

theorem HitSphere.a_pos {r : Ray F} (hd : r.direction ≠ Point.zero) : 0 < HitSphere.a r :=
  LengthSquared_pos hd

theorem HitSphere.a_nonneg (r : Ray F) : 0 ≤ HitSphere.a r :=
  LengthSquared_nonneg r.direction

theorem HitSphere.root1_le_root2 {sqrt : F → F} (hs : IsSqrt sqrt) (s : Sphere F) (r : Ray F)
    (hdisc : 0 ≤ HitSphere.disc s r) :
    HitSphere.root1 sqrt s r ≤ HitSphere.root2 sqrt s r := by
  unfold HitSphere.root1 HitSphere.root2
  apply div_le_div_of_nonneg_right _ (mul_nonneg zero_le_two (HitSphere.a_nonneg r))
  linarith [hs.nonneg hdisc]

/-- The sphere equation along the ray is the quadratic of `HitSphere`. -/
theorem OnSphere_iff_quadratic (s : Sphere F) (r : Ray F) (t : F) :
    OnSphere s r t ↔
      HitSphere.a r * (t * t) + HitSphere.b s r * t + HitSphere.c s r = 0 := by
  unfold OnSphere HitSphere.a HitSphere.b HitSphere.c
  simp only [LengthSquared, DotProduct, Point.sub_x, Point.sub_y, Point.sub_z, Point.add_x,
    Point.add_y, Point.add_z, Point.scalar_mul_x, Point.scalar_mul_y, Point.scalar_mul_z]
  constructor
  · intro h
    linear_combination h
  · intro h
    linear_combination h

theorem OnSphere_iff_root {sqrt : F → F} (hs : IsSqrt sqrt) (s : Sphere F) (r : Ray F)
    (hd : r.direction ≠ Point.zero) (hdisc : 0 ≤ HitSphere.disc s r) (t : F) :
    OnSphere s r t ↔ t = HitSphere.root1 sqrt s r ∨ t = HitSphere.root2 sqrt s r := by
  rw [OnSphere_iff_quadratic]
  have ha : HitSphere.a r ≠ 0 := (HitSphere.a_pos hd).ne.symm
  have hsq : discrim (HitSphere.a r) (HitSphere.b s r) (HitSphere.c s r) =
      sqrt (HitSphere.disc s r) * sqrt (HitSphere.disc s r) := by
    rw [hs.mul_self hdisc]
    rfl
  rw [quadratic_eq_zero_iff ha hsq]
  exact Or.comm

theorem not_OnSphere_of_disc_neg (s : Sphere F) (r : Ray F)
    (hdisc : HitSphere.disc s r < 0) (t : F) : ¬ OnSphere s r t := by
  rw [OnSphere_iff_quadratic]
  apply quadratic_ne_zero_of_discrim_ne_sq
  intro q hq
  have : discrim (HitSphere.a r) (HitSphere.b s r) (HitSphere.c s r) = HitSphere.disc s r := rfl
  rw [this] at hq
  nlinarith [sq_nonneg q]

theorem HitSphere_eq_some_iff (sqrt : F → F) (s : Sphere F) (r : Ray F) (tmin tmax : F)
    (h : HitRecord F) :
    HitSphere sqrt s r tmin tmax = some h ↔
      0 ≤ HitSphere.disc s r ∧
      ((tmin < HitSphere.root1 sqrt s r ∧ HitSphere.root1 sqrt s r < tmax ∧
          h = HitSphere.record s r (HitSphere.root1 sqrt s r)) ∨
       (¬ (tmin < HitSphere.root1 sqrt s r ∧ HitSphere.root1 sqrt s r < tmax) ∧
          tmin < HitSphere.root2 sqrt s r ∧ HitSphere.root2 sqrt s r < tmax ∧
          h = HitSphere.record s r (HitSphere.root2 sqrt s r))) := by
  rw [HitSphere_eq]
  split_ifs with h0 h1 h2
  · simp only [Option.some.injEq, h0, true_and]
    constructor
    · intro e
      exact Or.inl ⟨h1.1, h1.2, e.symm⟩
    · rintro (⟨_, _, e⟩ | ⟨hn, _⟩)
      · exact e.symm
      · exact absurd h1 hn
  · simp only [Option.some.injEq, h0, true_and]
    constructor
    · intro e
      exact Or.inr ⟨h1, h2.1, h2.2, e.symm⟩
    · rintro (⟨ha, hb, _⟩ | ⟨_, _, _, e⟩)
      · exact absurd ⟨ha, hb⟩ h1
      · exact e.symm
  · simp only [h0, true_and, false_iff]
    rintro (⟨ha, hb, _⟩ | ⟨_, ha, hb, _⟩)
    · exact h1 ⟨ha, hb⟩
    · exact h2 ⟨ha, hb⟩
  · simp [h0]

theorem HitSphere_eq_none_iff (sqrt : F → F) (s : Sphere F) (r : Ray F) (tmin tmax : F) :
    HitSphere sqrt s r tmin tmax = none ↔
      (0 ≤ HitSphere.disc s r →
        ¬ (tmin < HitSphere.root1 sqrt s r ∧ HitSphere.root1 sqrt s r < tmax) ∧
        ¬ (tmin < HitSphere.root2 sqrt s r ∧ HitSphere.root2 sqrt s r < tmax)) := by
  rw [HitSphere_eq]
  split_ifs with h0 h1 h2
  · simp [h0, h1]
  · simp [h0, h1, h2]
  · simp only [true_iff]
    exact fun _ => ⟨h1, h2⟩
  · simp [h0]

/-- C3: for a ray with non-zero direction, `HitSphere` returns a hit if and only if some
`t` in the open interval `(tmin, tmax)` satisfies `|origin + t*direction - center|^2 =
radius^2`; the returned `t` is the least such `t`, namely the smaller quadratic root if it
lies in the interval and otherwise the larger one; and a negative discriminant gives no
hit. -/
theorem HitSphere_least_root (sqrt : F → F) (hs : IsSqrt sqrt) (s : Sphere F) (r : Ray F)
    (tmin tmax : F) (hd : r.direction ≠ Point.zero) :
    ((∃ h, HitSphere sqrt s r tmin tmax = some h) ↔
      ∃ t, tmin < t ∧ t < tmax ∧ OnSphere s r t) ∧
    (∀ h, HitSphere sqrt s r tmin tmax = some h →
      tmin < h.t ∧ h.t < tmax ∧ OnSphere s r h.t ∧
      (∀ t, tmin < t → t < tmax → OnSphere s r t → h.t ≤ t) ∧
      h.t = (if tmin < HitSphere.root1 sqrt s r ∧ HitSphere.root1 sqrt s r < tmax
              then HitSphere.root1 sqrt s r else HitSphere.root2 sqrt s r)) ∧
    (HitSphere.disc s r < 0 → HitSphere sqrt s r tmin tmax = none) := by
  refine ⟨⟨?_, ?_⟩, ?_, ?_⟩
  · rintro ⟨h, hh⟩
    rw [HitSphere_eq_some_iff] at hh
    obtain ⟨h0, ⟨ha, hb, _⟩ | ⟨_, ha, hb, _⟩⟩ := hh
    · exact ⟨_, ha, hb, (OnSphere_iff_root hs s r hd h0 _).2 (Or.inl rfl)⟩
    · exact ⟨_, ha, hb, (OnSphere_iff_root hs s r hd h0 _).2 (Or.inr rfl)⟩
  · rintro ⟨t, ha, hb, ht⟩
    have h0 : 0 ≤ HitSphere.disc s r := by
      by_contra hneg
      exact not_OnSphere_of_disc_neg s r (not_le.1 hneg) t ht
    by_cases h1 : tmin < HitSphere.root1 sqrt s r ∧ HitSphere.root1 sqrt s r < tmax
    · exact ⟨_, (HitSphere_eq_some_iff sqrt s r tmin tmax _).2 ⟨h0, Or.inl ⟨h1.1, h1.2, rfl⟩⟩⟩
    · rcases (OnSphere_iff_root hs s r hd h0 t).1 ht with e | e
      · exact absurd ⟨e ▸ ha, e ▸ hb⟩ h1
      · exact ⟨_, (HitSphere_eq_some_iff sqrt s r tmin tmax _).2
          ⟨h0, Or.inr ⟨h1, e ▸ ha, e ▸ hb, rfl⟩⟩⟩
  · intro h hh
    rw [HitSphere_eq_some_iff] at hh
    obtain ⟨h0, ⟨ha, hb, e⟩ | ⟨hn, ha, hb, e⟩⟩ := hh
    · have ht : h.t = HitSphere.root1 sqrt s r := by rw [e]; rfl
      rw [ht, if_pos ⟨ha, hb⟩]
      refine ⟨ha, hb, (OnSphere_iff_root hs s r hd h0 _).2 (Or.inl rfl), ?_, rfl⟩
      intro t _ _ hon
      rcases (OnSphere_iff_root hs s r hd h0 t).1 hon with e' | e'
      · exact e'.ge
      · rw [e']
        exact HitSphere.root1_le_root2 hs s r h0
    · have ht : h.t = HitSphere.root2 sqrt s r := by rw [e]; rfl
      rw [ht, if_neg hn]
      refine ⟨ha, hb, (OnSphere_iff_root hs s r hd h0 _).2 (Or.inr rfl), ?_, rfl⟩
      intro t hta htb hon
      rcases (OnSphere_iff_root hs s r hd h0 t).1 hon with e' | e'
      · exact absurd ⟨e' ▸ hta, e' ▸ htb⟩ hn
      · exact e'.ge
  · intro hneg
    rw [HitSphere_eq_none_iff]
    intro h0
    exact absurd h0 (not_le.2 hneg)

theorem Normalize_ne_zero {sqrt : F → F} (hs : IsSqrt sqrt) {a : Point F}
    (ha : a ≠ Point.zero) : Normalize sqrt a ≠ Point.zero := by
  intro h
  have h1 := LengthSquared_Normalize hs ha
  rw [h] at h1
  simp [LengthSquared, Point.zero] at h1

/-- C3 at the sphere of centre `(0,0,-1)` and radius `1/2`, for the ray from the origin
towards `(0,0,-1)` and the interval `(1/1000, 100)`. -/
theorem HitSphere_least_root_witness :
    IsSqrt Real.sqrt ∧
    (Ray.new Real.sqrt ⟨0, 0, 0⟩ (⟨0, 0, -1⟩ : Point ℝ)).direction ≠ Point.zero ∧
    ((∃ h, HitSphere Real.sqrt ⟨MaterialT.dielectric ⟨3/2⟩, ⟨0, 0, -1⟩, 1/2⟩
        (Ray.new Real.sqrt ⟨0, 0, 0⟩ ⟨0, 0, -1⟩) (1/1000) 100 = some h) ↔
      ∃ t : ℝ, 1/1000 < t ∧ t < 100 ∧
        OnSphere ⟨MaterialT.dielectric ⟨3/2⟩, ⟨0, 0, -1⟩, 1/2⟩
          (Ray.new Real.sqrt ⟨0, 0, 0⟩ ⟨0, 0, -1⟩) t) :=
  ⟨isSqrt_real, Normalize_ne_zero isSqrt_real (by simp [Point.zero]),
    (HitSphere_least_root Real.sqrt isSqrt_real ⟨MaterialT.dielectric ⟨3/2⟩, ⟨0, 0, -1⟩, 1/2⟩
      (Ray.new Real.sqrt ⟨0, 0, 0⟩ ⟨0, 0, -1⟩) (1/1000) 100
      (Normalize_ne_zero isSqrt_real (by simp [Point.zero]))).1⟩

/-- C5: `HitSphere` on the sphere with radius `-rad` reports a hit exactly when it does on
the sphere with radius `rad`, with the same `t`, point and material, and with the normal
exactly negated. -/
theorem HitSphere_neg_radius (sqrt : F → F) (mat : MaterialT F) (center : Point F) (rad : F)
    (r : Ray F) (tmin tmax : F) :
    HitSphere sqrt ⟨mat, center, -rad⟩ r tmin tmax =
      (HitSphere sqrt ⟨mat, center, rad⟩ r tmin tmax).map
        (fun h => { mat := h.mat, point := h.point, normal := Point.zero - h.normal,
                    t := h.t }) := by
  have hdisc : HitSphere.disc ⟨mat, center, -rad⟩ r = HitSphere.disc ⟨mat, center, rad⟩ r := by
    simp [HitSphere.disc, HitSphere.b, HitSphere.c]
  have h1 : HitSphere.root1 sqrt ⟨mat, center, -rad⟩ r =
      HitSphere.root1 sqrt ⟨mat, center, rad⟩ r := by
    simp [HitSphere.root1, hdisc, HitSphere.b]
  have h2 : HitSphere.root2 sqrt ⟨mat, center, -rad⟩ r =
      HitSphere.root2 sqrt ⟨mat, center, rad⟩ r := by
    simp [HitSphere.root2, hdisc, HitSphere.b]
  have hrec : ∀ t, HitSphere.record ⟨mat, center, -rad⟩ r t =
      { mat := (HitSphere.record ⟨mat, center, rad⟩ r t).mat,
        point := (HitSphere.record ⟨mat, center, rad⟩ r t).point,
        normal := Point.zero - (HitSphere.record ⟨mat, center, rad⟩ r t).normal,
        t := (HitSphere.record ⟨mat, center, rad⟩ r t).t } := by
    intro t
    simp [HitSphere.record, Point.ext_iff, div_neg]
  rw [HitSphere_eq, HitSphere_eq, hdisc, h1, h2]
  split_ifs <;> simp [hrec]

/-- C4: for a sphere of radius `rad > 0` and the ray built by `Ray(origin, center - origin)`
from an origin at distance `D > rad` from the centre, if `tmin < D - rad < tmax` then
`HitSphere` reports a hit with `t = D - rad`, `point = origin + t * direction`, and a normal
of unit length equal to `(point - center) / rad`. -/
theorem HitSphere_aimed_at_center (sqrt : F → F) (hs : IsSqrt sqrt) (mat : MaterialT F)
    (center origin : Point F) (rad tmin tmax : F) (hr : 0 < rad)
    (hD : rad < Length sqrt (center - origin))
    (hmin : tmin < Length sqrt (center - origin) - rad)
    (hmax : Length sqrt (center - origin) - rad < tmax) :
    ∃ h, HitSphere sqrt ⟨mat, center, rad⟩ (Ray.new sqrt origin (center - origin)) tmin tmax
        = some h ∧
      h.t = Length sqrt (center - origin) - rad ∧
      h.point = origin + h.t * (Ray.new sqrt origin (center - origin)).direction ∧
      h.normal = (h.point - center) / rad ∧
      Length sqrt h.normal = 1 ∧
      h.mat = mat := by
  have hDD := Length_mul_self hs (center - origin)
  simp only [LengthSquared, Point.sub_x, Point.sub_y, Point.sub_z] at hDD
  have hdir : (Ray.new sqrt origin (center - origin)).direction =
      (center - origin) / Length sqrt (center - origin) := rfl
  have horg : (Ray.new sqrt origin (center - origin)).origin = origin := rfl
  generalize Length sqrt (center - origin) = D at hD hmin hmax hDD hdir ⊢
  generalize Ray.new sqrt origin (center - origin) = ray at hdir horg ⊢
  have hDpos : 0 < D := hr.trans hD
  have hDne : D ≠ 0 := hDpos.ne.symm
  have ha : HitSphere.a ray = 1 := by
    simp only [HitSphere.a, DotProduct, hdir, Point.div_scalar_x, Point.div_scalar_y,
      Point.div_scalar_z, Point.sub_x, Point.sub_y, Point.sub_z]
    field_simp
    linear_combination -hDD
  have hb : HitSphere.b ⟨mat, center, rad⟩ ray = -2 * D := by
    simp only [HitSphere.b, DotProduct, hdir, horg, Point.div_scalar_x, Point.div_scalar_y,
      Point.div_scalar_z, Point.sub_x, Point.sub_y, Point.sub_z]
    field_simp
    linear_combination 2 * hDD
  have hc : HitSphere.c ⟨mat, center, rad⟩ ray = D * D - rad ^ 2 := by
    simp only [HitSphere.c, DotProduct, horg, Point.sub_x, Point.sub_y, Point.sub_z]
    linear_combination -hDD
  have hdisc : HitSphere.disc ⟨mat, center, rad⟩ ray = 4 * rad ^ 2 := by
    rw [HitSphere.disc, ha, hb, hc]
    ring
  have hsqrt : sqrt (HitSphere.disc ⟨mat, center, rad⟩ ray) = 2 * rad := by
    apply hs.eq_of_mul_self (by linarith)
    rw [hdisc]
    ring
  have hroot : HitSphere.root1 sqrt ⟨mat, center, rad⟩ ray = D - rad := by
    rw [HitSphere.root1, hsqrt, ha, hb]
    ring
  have hdisc0 : 0 ≤ HitSphere.disc ⟨mat, center, rad⟩ ray := by
    rw [hdisc]
    positivity
  refine ⟨HitSphere.record ⟨mat, center, rad⟩ ray (D - rad), ?_, rfl, ?_, rfl, ?_, rfl⟩
  · rw [HitSphere_eq_some_iff]
    refine ⟨hdisc0, Or.inl ⟨?_, ?_, ?_⟩⟩
    · rw [hroot]
      exact hmin
    · rw [hroot]
      exact hmax
    · rw [hroot]
  · simp only [HitSphere.record, horg]
    ext <;> simp
  · have hn : LengthSquared (HitSphere.record ⟨mat, center, rad⟩ ray (D - rad)).normal = 1 := by
      simp only [HitSphere.record, LengthSquared, hdir, horg, Point.div_scalar_x,
        Point.div_scalar_y, Point.div_scalar_z, Point.sub_x, Point.sub_y, Point.sub_z,
        Point.add_x, Point.add_y, Point.add_z, Point.mul_scalar_x, Point.mul_scalar_y,
        Point.mul_scalar_z]
      field_simp
      linear_combination (-rad ^ 2) * hDD
    unfold Length
    rw [hn]
    exact hs.one

/-- C4 at the sphere of centre `(0,0,-1)` and radius `1/2` seen from the origin: the hit
is at `t = 1/2` with normal `(0,0,1)`. -/
theorem HitSphere_aimed_at_center_witness :
    ∃ h, HitSphere Real.sqrt ⟨MaterialT.lambertian ⟨⟨1/10, 1/5, 1/2⟩⟩, ⟨0, 0, -1⟩, 1/2⟩
        (Ray.new Real.sqrt ⟨0, 0, 0⟩ (⟨0, 0, -1⟩ - ⟨0, 0, 0⟩)) (1/1000) 100 = some h ∧
      h.t = 1/2 ∧ h.normal = ⟨0, 0, 1⟩ := by
  have hL : Length Real.sqrt ((⟨0, 0, -1⟩ : Point ℝ) - ⟨0, 0, 0⟩) = 1 := by
    simp [Length, LengthSquared]
  obtain ⟨h, h1, h2, h3, h4, _⟩ := HitSphere_aimed_at_center Real.sqrt isSqrt_real
    (MaterialT.lambertian ⟨⟨1/10, 1/5, 1/2⟩⟩) ⟨0, 0, -1⟩ ⟨0, 0, 0⟩ (1/2) (1/1000) 100
    (by norm_num) (by rw [hL]; norm_num) (by rw [hL]; norm_num) (by rw [hL]; norm_num)
  refine ⟨h, h1, ?_, ?_⟩
  · rw [h2, hL]
    norm_num
  · rw [h4, h3, h2, hL]
    simp [Ray.new, Normalize, hL, Point.ext_iff]

theorem HitSphere.dot_record_normal (s : Sphere F) (r : Ray F) (t : F) :
    DotProduct r.direction (HitSphere.record s r t).normal =
      (HitSphere.b s r / 2 + HitSphere.a r * t) / s.radius := by
  simp only [HitSphere.record, HitSphere.a, HitSphere.b, DotProduct, Point.div_scalar_x,
    Point.div_scalar_y, Point.div_scalar_z, Point.sub_x, Point.sub_y, Point.sub_z,
    Point.add_x, Point.add_y, Point.add_z, Point.mul_scalar_x, Point.mul_scalar_y,
    Point.mul_scalar_z]
  ring

theorem HitSphere.dot_record_root1 (sqrt : F → F) (s : Sphere F) (r : Ray F)
    (hd : r.direction ≠ Point.zero) :
    DotProduct r.direction (HitSphere.record s r (HitSphere.root1 sqrt s r)).normal =
      -(sqrt (HitSphere.disc s r) / 2) / s.radius := by
  have ha : HitSphere.a r ≠ 0 := (HitSphere.a_pos hd).ne.symm
  rw [HitSphere.dot_record_normal, HitSphere.root1]
  congr 1
  field_simp
  ring

theorem HitSphere.dot_record_root2 (sqrt : F → F) (s : Sphere F) (r : Ray F)
    (hd : r.direction ≠ Point.zero) :
    DotProduct r.direction (HitSphere.record s r (HitSphere.root2 sqrt s r)).normal =
      sqrt (HitSphere.disc s r) / 2 / s.radius := by
  have ha : HitSphere.a r ≠ 0 := (HitSphere.a_pos hd).ne.symm
  rw [HitSphere.dot_record_normal, HitSphere.root2]
  congr 1
  field_simp
  ring

/-- C6, as the code has it: for a sphere of positive radius and a ray with non-zero
direction, the normal of a reported hit is the outward normal `(point - center) / radius`
and is not re-oriented against the ray.  `dot(direction, normal) <= 0` holds when the
returned `t` is the smaller root; when it is the larger root `dot(direction, normal) >= 0`;
and for a ray that starts strictly inside the sphere with `tmin >= 0` the dot product is
strictly positive. -/
theorem HitSphere_normal_outward (sqrt : F → F) (hs : IsSqrt sqrt) (s : Sphere F) (r : Ray F)
    (tmin tmax : F) (h : HitRecord F) (hrad : 0 < s.radius) (hd : r.direction ≠ Point.zero)
    (hh : HitSphere sqrt s r tmin tmax = some h) :
    h.normal = (h.point - s.center) / s.radius ∧
    (h.t = HitSphere.root1 sqrt s r → DotProduct r.direction h.normal ≤ 0) ∧
    (h.t = HitSphere.root2 sqrt s r → 0 ≤ DotProduct r.direction h.normal) ∧
    (LengthSquared (r.origin - s.center) < s.radius ^ 2 → 0 ≤ tmin →
      0 < DotProduct r.direction h.normal) := by
  rw [HitSphere_eq_some_iff] at hh
  obtain ⟨h0, hcase⟩ := hh
  have hsq := hs.nonneg h0
  have hrec : ∀ t, h = HitSphere.record s r t → h.t = t := fun t e => by rw [e]; rfl
  have hnormal : h.normal = (h.point - s.center) / s.radius := by
    rcases hcase with ⟨_, _, e⟩ | ⟨_, _, _, e⟩ <;> rw [e] <;> rfl
  have hle : ∀ t, h = HitSphere.record s r t → t = HitSphere.root1 sqrt s r →
      DotProduct r.direction h.normal ≤ 0 := by
    intro t e ht
    rw [e, ht, HitSphere.dot_record_root1 sqrt s r hd]
    apply div_nonpos_of_nonpos_of_nonneg _ hrad.le
    linarith
  have hge : ∀ t, h = HitSphere.record s r t → t = HitSphere.root2 sqrt s r →
      0 ≤ DotProduct r.direction h.normal := by
    intro t e ht
    rw [e, ht, HitSphere.dot_record_root2 sqrt s r hd]
    apply div_nonneg _ hrad.le
    linarith
  refine ⟨hnormal, ?_, ?_, ?_⟩
  · intro ht
    rcases hcase with ⟨_, _, e⟩ | ⟨_, _, _, e⟩
    · exact hle _ e rfl
    · exact hle _ e ((hrec _ e).symm.trans ht)
  · intro ht
    rcases hcase with ⟨_, _, e⟩ | ⟨_, _, _, e⟩
    · exact hge _ e ((hrec _ e).symm.trans ht)
    · exact hge _ e rfl
  · intro hin htmin
    have ha := HitSphere.a_pos hd
    have hc : HitSphere.c s r < 0 := by
      have : HitSphere.c s r = LengthSquared (r.origin - s.center) - s.radius ^ 2 := rfl
      rw [this]
      linarith
    have hmul := hs.mul_self h0
    have hdiscb : HitSphere.b s r * HitSphere.b s r < HitSphere.disc s r := by
      have : HitSphere.disc s r =
          HitSphere.b s r ^ 2 - 4 * HitSphere.a r * HitSphere.c s r := rfl
      rw [this]
      nlinarith [mul_pos ha (neg_pos.2 hc)]
    have hspos : 0 < sqrt (HitSphere.disc s r) := by
      apply hs.pos
      nlinarith [mul_self_nonneg (HitSphere.b s r)]
    have hlt : -HitSphere.b s r < sqrt (HitSphere.disc s r) := by
      by_contra hcon
      push_neg at hcon
      nlinarith
    have hroot1 : HitSphere.root1 sqrt s r < 0 := by
      unfold HitSphere.root1
      apply div_neg_of_neg_of_pos
      · linarith
      · linarith
    rcases hcase with ⟨hgt, _, _⟩ | ⟨_, _, _, e⟩
    · exact absurd (htmin.trans_lt hgt) (not_lt.2 hroot1.le)
    · rw [e, HitSphere.dot_record_root2 sqrt s r hd]
      apply div_pos _ hrad
      linarith

/-- The ray from the centre of the sphere of radius `1/2` at the origin along `(1,0,0)`
leaves the sphere at `t = 1/2`, the larger root. -/
theorem HitSphere_from_centre :
    HitSphere Real.sqrt ⟨MaterialT.dielectric ⟨3/2⟩, ⟨0, 0, 0⟩, 1/2⟩
        (Ray.new Real.sqrt ⟨0, 0, 0⟩ ⟨1, 0, 0⟩) (1/1000) 100 =
      some { mat := MaterialT.dielectric ⟨3/2⟩, point := ⟨1/2, 0, 0⟩, normal := ⟨1, 0, 0⟩,
             t := 1/2 } := by
  have hray : Ray.new Real.sqrt ⟨0, 0, 0⟩ ⟨1, 0, 0⟩ = (⟨⟨0, 0, 0⟩, ⟨1, 0, 0⟩⟩ : Ray ℝ) := by
    simp [Ray.new, Normalize, Length, LengthSquared, Point.ext_iff]
  rw [hray]
  have hdisc : HitSphere.disc ⟨MaterialT.dielectric ⟨3/2⟩, ⟨0, 0, 0⟩, (1/2 : ℝ)⟩
      ⟨⟨0, 0, 0⟩, ⟨1, 0, 0⟩⟩ = 1 := by
    simp [HitSphere.disc, HitSphere.a, HitSphere.b, HitSphere.c, DotProduct]
    norm_num
  have h1 : HitSphere.root1 Real.sqrt ⟨MaterialT.dielectric ⟨3/2⟩, ⟨0, 0, 0⟩, (1/2 : ℝ)⟩
      ⟨⟨0, 0, 0⟩, ⟨1, 0, 0⟩⟩ = -1/2 := by
    rw [HitSphere.root1, hdisc, Real.sqrt_one]
    simp [HitSphere.a, HitSphere.b, DotProduct]
  have h2 : HitSphere.root2 Real.sqrt ⟨MaterialT.dielectric ⟨3/2⟩, ⟨0, 0, 0⟩, (1/2 : ℝ)⟩
      ⟨⟨0, 0, 0⟩, ⟨1, 0, 0⟩⟩ = 1/2 := by
    rw [HitSphere.root2, hdisc, Real.sqrt_one]
    simp [HitSphere.a, HitSphere.b, DotProduct]
  rw [HitSphere_eq_some_iff, h1, h2, hdisc]
  refine ⟨zero_le_one, Or.inr ⟨by norm_num, by norm_num, by norm_num, ?_⟩⟩
  simp [HitSphere.record, Point.ext_iff]

/-- C6 fails as stated: the sphere of radius `1/2 > 0` at the origin, hit from its centre
along `(1,0,0)`, reports a hit whose normal `(1,0,0)` has `dot(direction, normal) = 1 > 0`. -/
theorem HitSphere_normal_along_ray_from_inside :
    (0 : ℝ) < 1/2 ∧
    ∃ h, HitSphere Real.sqrt ⟨MaterialT.dielectric ⟨3/2⟩, ⟨0, 0, 0⟩, 1/2⟩
        (Ray.new Real.sqrt ⟨0, 0, 0⟩ ⟨1, 0, 0⟩) (1/1000) 100 = some h ∧
      ¬ DotProduct (Ray.new Real.sqrt ⟨0, 0, 0⟩ (⟨1, 0, 0⟩ : Point ℝ)).direction h.normal ≤ 0 := by
  refine ⟨by norm_num, _, HitSphere_from_centre, ?_⟩
  simp [Ray.new, Normalize, Length, LengthSquared, DotProduct]

/-- C6 as amended, at the same sphere and ray: the ray starts strictly inside, and the
dot product of direction and returned normal is strictly positive. -/
theorem HitSphere_normal_outward_witness :
    (0 : ℝ) < 1/2 ∧
    (Ray.new Real.sqrt ⟨0, 0, 0⟩ (⟨1, 0, 0⟩ : Point ℝ)).direction ≠ Point.zero ∧
    0 < DotProduct (Ray.new Real.sqrt ⟨0, 0, 0⟩ (⟨1, 0, 0⟩ : Point ℝ)).direction
      (⟨1, 0, 0⟩ : Point ℝ) :=
  ⟨by norm_num, Normalize_ne_zero isSqrt_real (by simp [Point.zero]),
    (HitSphere_normal_outward Real.sqrt isSqrt_real
      ⟨MaterialT.dielectric ⟨3/2⟩, ⟨0, 0, 0⟩, 1/2⟩ (Ray.new Real.sqrt ⟨0, 0, 0⟩ ⟨1, 0, 0⟩)
      (1/1000) 100 _ (by norm_num) (Normalize_ne_zero isSqrt_real (by simp [Point.zero]))
      HitSphere_from_centre).2.2.2
      (by simp [Ray.new, LengthSquared]) (by norm_num)⟩

/-! ## Rectangles: the hit test -/

theorem HitRectangle_eq_some_iff (rect : Rectangle F) (r : Ray F) (tmin tmax : F)
    (h : HitRecord F) :
    HitRectangle rect r tmin tmax = some h ↔
      1 / 1000000 ≤ |DotProduct r.direction rect.normal| ∧
      tmin ≤ HitRectangle.t rect r ∧ HitRectangle.t rect r ≤ tmax ∧
      HitRectangle.inside rect r ∧ h = HitRectangle.record rect r := by
  show (if |DotProduct r.direction rect.normal| < 1 / 1000000 then none
    else if HitRectangle.t rect r < tmin ∨ HitRectangle.t rect r > tmax then none
    else if DotProduct (r.origin + HitRectangle.t rect r * r.direction - rect.origin) rect.u ≥ 0 ∧
        DotProduct (r.origin + HitRectangle.t rect r * r.direction - rect.origin) rect.u
          ≤ rect.u_len_sq ∧
        DotProduct (r.origin + HitRectangle.t rect r * r.direction - rect.origin) rect.v ≥ 0 ∧
        DotProduct (r.origin + HitRectangle.t rect r * r.direction - rect.origin) rect.v
          ≤ rect.v_len_sq
      then some (HitRectangle.record rect r) else none) = some h ↔ _
  split_ifs with h1 h2 h3
  · simp only [false_iff, not_and]
    intro h1'
    exact absurd h1 (not_lt.2 h1')
  · simp only [false_iff, not_and]
    intro _ ha hb
    rcases h2 with h2 | h2
    · exact absurd h2 (not_lt.2 ha)
    · exact absurd h2 (not_lt.2 hb)
  · push_neg at h2
    simp only [Option.some.injEq]
    constructor
    · intro e
      exact ⟨not_lt.1 h1, h2.1, h2.2, h3, e.symm⟩
    · intro e
      exact e.2.2.2.2.symm
  · simp only [false_iff, not_and]
    intro _ _ _ hin
    exact absurd hin h3

/-- With a non-zero denominator, the ray meets the plane of the rectangle exactly at the
parameter `HitRectangle` computes. -/
theorem HitRectangle.plane_iff (rect : Rectangle F) (r : Ray F)
    (hden : DotProduct r.direction rect.normal ≠ 0) (t : F) :
    DotProduct (r.origin + t * r.direction - rect.origin) rect.normal = 0 ↔
      t = HitRectangle.t rect r := by
  unfold HitRectangle.t
  rw [eq_div_iff hden]
  simp only [DotProduct, Point.sub_x, Point.sub_y, Point.sub_z, Point.add_x, Point.add_y,
    Point.add_z, Point.scalar_mul_x, Point.scalar_mul_y, Point.scalar_mul_z] at hden ⊢
  constructor
  · intro h
    linear_combination h
  · intro h
    linear_combination h

theorem LengthSquared_CrossProduct (u v : Point F) :
    LengthSquared (CrossProduct u v) =
      LengthSquared u * LengthSquared v - DotProduct u v ^ 2 := by
  simp only [LengthSquared, CrossProduct, DotProduct]
  ring

theorem CrossProduct_ne_zero {u v : Point F} (hu : u ≠ Point.zero) (hv : v ≠ Point.zero)
    (huv : DotProduct u v = 0) : CrossProduct u v ≠ Point.zero := by
  intro h
  have h1 := LengthSquared_CrossProduct u v
  rw [h, huv] at h1
  have h2 := mul_pos (LengthSquared_pos hu) (LengthSquared_pos hv)
  have h3 : LengthSquared (Point.zero : Point F) = 0 := by simp [LengthSquared, Point.zero]
  rw [h3] at h1
  linarith

/-- A vector orthogonal to `u × v`, for orthogonal non-zero `u` and `v`, is the sum of its
projections on `u` and on `v`. -/
theorem decompose_in_plane {u v w : Point F} (hu : u ≠ Point.zero) (hv : v ≠ Point.zero)
    (huv : DotProduct u v = 0) (hw : DotProduct w (CrossProduct u v) = 0) :
    w = (DotProduct w u / LengthSquared u) * u + (DotProduct w v / LengthSquared v) * v := by
  have hu0 : LengthSquared u ≠ 0 := (LengthSquared_pos hu).ne.symm
  have hv0 : LengthSquared v ≠ 0 := (LengthSquared_pos hv).ne.symm
  simp only [DotProduct, LengthSquared, CrossProduct] at huv hw hu0 hv0
  ext
  · simp only [Point.add_x, Point.scalar_mul_x, DotProduct, LengthSquared]
    field_simp
    linear_combination (u.y * v.z - u.z * v.y) * hw +
      ((u.x * v.x + u.y * v.y + u.z * v.z) * w.x - (w.x * v.x + w.y * v.y + w.z * v.z) * u.x
        - (w.x * u.x + w.y * u.y + w.z * u.z) * v.x) * huv
  · simp only [Point.add_y, Point.scalar_mul_y, DotProduct, LengthSquared]
    field_simp
    linear_combination (u.z * v.x - u.x * v.z) * hw +
      ((u.x * v.x + u.y * v.y + u.z * v.z) * w.y - (w.x * v.x + w.y * v.y + w.z * v.z) * u.y
        - (w.x * u.x + w.y * u.y + w.z * u.z) * v.y) * huv
  · simp only [Point.add_z, Point.scalar_mul_z, DotProduct, LengthSquared]
    field_simp
    linear_combination (u.x * v.y - u.y * v.x) * hw +
      ((u.x * v.x + u.y * v.y + u.z * v.z) * w.z - (w.x * v.x + w.y * v.y + w.z * v.z) * u.z
        - (w.x * u.x + w.y * u.y + w.z * u.z) * v.z) * huv

theorem DotProduct_Normalize_eq_zero {sqrt : F → F} (hs : IsSqrt sqrt) {w n : Point F}
    (hn : n ≠ Point.zero) (h : DotProduct w (Normalize sqrt n) = 0) : DotProduct w n = 0 := by
  have hL := (Length_pos hs hn).ne.symm
  simp only [DotProduct, Normalize, Point.div_scalar_x, Point.div_scalar_y,
    Point.div_scalar_z] at h ⊢
  field_simp at h
  linarith

/-- C7: for a rectangle built by `CreateRectangle` from non-zero, mutually orthogonal edges
`u` and `v`, and a ray with `|dot(direction, normal)| >= 1e-6`, `HitRectangle` reports a hit
if and only if the ray meets the plane of the rectangle at a parameter `t` with
`tmin <= t <= tmax` and the meeting point equals `origin + a*u + b*v` for some `a`, `b` in
`[0,1]`; the record then carries that `t` and that point. -/
theorem HitRectangle_iff_meets_footprint (sqrt : F → F) (hs : IsSqrt sqrt) (mat : MaterialT F)
    (origin u v : Point F) (r : Ray F) (tmin tmax : F)
    (hu : u ≠ Point.zero) (hv : v ≠ Point.zero) (huv : DotProduct u v = 0)
    (hden : 1 / 1000000 ≤
      |DotProduct r.direction (CreateRectangle sqrt mat origin u v).normal|) :
    ((∃ h, HitRectangle (CreateRectangle sqrt mat origin u v) r tmin tmax = some h) ↔
      ∃ t a b : F, tmin ≤ t ∧ t ≤ tmax ∧ 0 ≤ a ∧ a ≤ 1 ∧ 0 ≤ b ∧ b ≤ 1 ∧
        DotProduct (r.origin + t * r.direction - origin)
          (CreateRectangle sqrt mat origin u v).normal = 0 ∧
        r.origin + t * r.direction = origin + a * u + b * v) ∧
    (∀ h, HitRectangle (CreateRectangle sqrt mat origin u v) r tmin tmax = some h →
      ∀ t, DotProduct (r.origin + t * r.direction - origin)
          (CreateRectangle sqrt mat origin u v).normal = 0 →
        h.t = t ∧ h.point = r.origin + t * r.direction) := by
  have hden0 : DotProduct r.direction (CreateRectangle sqrt mat origin u v).normal ≠ 0 := by
    intro h0
    rw [h0] at hden
    norm_num at hden
  have hplane := HitRectangle.plane_iff (CreateRectangle sqrt mat origin u v) r hden0
  have hcross := CrossProduct_ne_zero hu hv huv
  have hu0 := LengthSquared_pos hu
  have hv0 := LengthSquared_pos hv
  have huv' := huv
  simp only [DotProduct] at huv'
  refine ⟨⟨?_, ?_⟩, ?_⟩
  · rintro ⟨h, hh⟩
    rw [HitRectangle_eq_some_iff] at hh
    obtain ⟨_, ha, hb, ⟨hu1, hu2, hv1, hv2⟩, _⟩ := hh
    have hpl := (hplane (HitRectangle.t (CreateRectangle sqrt mat origin u v) r)).2 rfl
    have hperp := DotProduct_Normalize_eq_zero hs hcross hpl
    have hdec := decompose_in_plane hu hv huv hperp
    have hO : (CreateRectangle sqrt mat origin u v).origin = origin := rfl
    simp only [hO] at hdec
    refine ⟨HitRectangle.t (CreateRectangle sqrt mat origin u v) r,
      DotProduct (r.origin + HitRectangle.t (CreateRectangle sqrt mat origin u v) r *
        r.direction - origin) u / LengthSquared u,
      DotProduct (r.origin + HitRectangle.t (CreateRectangle sqrt mat origin u v) r *
        r.direction - origin) v / LengthSquared v,
      ha, hb, div_nonneg hu1 hu0.le, (div_le_one hu0).2 hu2,
      div_nonneg hv1 hv0.le, (div_le_one hv0).2 hv2, hpl, ?_⟩
    have hx := congrArg Point.x hdec
    have hy := congrArg Point.y hdec
    have hz := congrArg Point.z hdec
    simp only [Point.add_x, Point.add_y, Point.add_z, Point.sub_x, Point.sub_y,
      Point.sub_z] at hx hy hz
    ext
    · simp only [Point.add_x]
      linear_combination hx
    · simp only [Point.add_y]
      linear_combination hy
    · simp only [Point.add_z]
      linear_combination hz
  · rintro ⟨t, a, b, ha, hb, ha0, ha1, hb0, hb1, hpl, heq⟩
    have ht := (hplane t).1 hpl
    refine ⟨_, (HitRectangle_eq_some_iff _ r tmin tmax _).2
      ⟨hden, ht ▸ ha, ht ▸ hb, ?_, rfl⟩⟩
    rw [HitRectangle.inside, ← ht, heq]
    have hpu : DotProduct (origin + a * u + b * v - origin) u = a * LengthSquared u := by
      simp only [DotProduct, LengthSquared, Point.add_x, Point.add_y, Point.add_z, Point.sub_x,
        Point.sub_y, Point.sub_z, Point.scalar_mul_x, Point.scalar_mul_y, Point.scalar_mul_z]
      linear_combination b * huv'
    have hpv : DotProduct (origin + a * u + b * v - origin) v = b * LengthSquared v := by
      simp only [DotProduct, LengthSquared, Point.add_x, Point.add_y, Point.add_z, Point.sub_x,
        Point.sub_y, Point.sub_z, Point.scalar_mul_x, Point.scalar_mul_y, Point.scalar_mul_z]
      linear_combination a * huv'
    show 0 ≤ DotProduct (origin + a * u + b * v - origin) u ∧
      DotProduct (origin + a * u + b * v - origin) u ≤ LengthSquared u ∧
      0 ≤ DotProduct (origin + a * u + b * v - origin) v ∧
      DotProduct (origin + a * u + b * v - origin) v ≤ LengthSquared v
    rw [hpu, hpv]
    exact ⟨mul_nonneg ha0 hu0.le, mul_le_of_le_one_left hu0.le ha1,
      mul_nonneg hb0 hv0.le, mul_le_of_le_one_left hv0.le hb1⟩
  · intro h hh t hpl
    rw [HitRectangle_eq_some_iff] at hh
    have ht := (hplane t).1 hpl
    rw [hh.2.2.2.2, ht]
    exact ⟨rfl, rfl⟩

theorem CreateRectangle_unit_normal (mat : MaterialT ℝ) :
    (CreateRectangle Real.sqrt mat ⟨0, 0, 0⟩ ⟨1, 0, 0⟩ ⟨0, 1, 0⟩).normal = ⟨0, 0, 1⟩ := by
  simp [CreateRectangle, Normalize, CrossProduct, Length, LengthSquared, Point.ext_iff]

theorem Ray_new_down (o : Point ℝ) :
    Ray.new Real.sqrt o ⟨0, 0, -1⟩ = ⟨o, ⟨0, 0, -1⟩⟩ := by
  simp [Ray.new, Normalize, Length, LengthSquared, Point.ext_iff]

/-- C7 at the unit square `u = (1,0,0)`, `v = (0,1,0)`: the ray from `(1/2, 1/2, 1)` along
`(0,0,-1)` hits at `t = 1`, point `(1/2, 1/2, 0)`; the ray from `(2,2,1)` along `(0,0,-1)`
misses. -/
theorem HitRectangle_iff_meets_footprint_witness :
    (∃ h, HitRectangle
        (CreateRectangle Real.sqrt (MaterialT.lambertian ⟨⟨1/2, 1/2, 1/2⟩⟩)
          ⟨0, 0, 0⟩ ⟨1, 0, 0⟩ ⟨0, 1, 0⟩)
        (Ray.new Real.sqrt ⟨1/2, 1/2, 1⟩ ⟨0, 0, -1⟩) 0 10 = some h ∧
      h.t = 1 ∧ h.point = ⟨1/2, 1/2, 0⟩) ∧
    HitRectangle
        (CreateRectangle Real.sqrt (MaterialT.lambertian ⟨⟨1/2, 1/2, 1/2⟩⟩)
          ⟨0, 0, 0⟩ ⟨1, 0, 0⟩ ⟨0, 1, 0⟩)
        (Ray.new Real.sqrt ⟨2, 2, 1⟩ ⟨0, 0, -1⟩) 0 10 = none := by
  have hu : (⟨1, 0, 0⟩ : Point ℝ) ≠ Point.zero := by simp [Point.zero]
  have hv : (⟨0, 1, 0⟩ : Point ℝ) ≠ Point.zero := by simp [Point.zero]
  have huv : DotProduct (⟨1, 0, 0⟩ : Point ℝ) ⟨0, 1, 0⟩ = 0 := by simp [DotProduct]
  have hden : ∀ o : Point ℝ, 1 / 1000000 ≤ |DotProduct (Ray.new Real.sqrt o ⟨0, 0, -1⟩).direction
      (CreateRectangle Real.sqrt (MaterialT.lambertian ⟨⟨1/2, 1/2, 1/2⟩⟩)
        ⟨0, 0, 0⟩ ⟨1, 0, 0⟩ ⟨0, 1, 0⟩).normal| := by
    intro o
    rw [CreateRectangle_unit_normal, Ray_new_down]
    norm_num [DotProduct]
  constructor
  · have T := HitRectangle_iff_meets_footprint Real.sqrt isSqrt_real
      (MaterialT.lambertian ⟨⟨1/2, 1/2, 1/2⟩⟩) ⟨0, 0, 0⟩ ⟨1, 0, 0⟩ ⟨0, 1, 0⟩
      (Ray.new Real.sqrt ⟨1/2, 1/2, 1⟩ ⟨0, 0, -1⟩) 0 10 hu hv huv (hden _)
    have hplane : DotProduct ((Ray.new Real.sqrt ⟨1/2, 1/2, 1⟩ ⟨0, 0, -1⟩).origin +
        (1 : ℝ) * (Ray.new Real.sqrt ⟨1/2, 1/2, 1⟩ ⟨0, 0, -1⟩).direction - ⟨0, 0, 0⟩)
        (CreateRectangle Real.sqrt (MaterialT.lambertian ⟨⟨1/2, 1/2, 1/2⟩⟩)
          ⟨0, 0, 0⟩ ⟨1, 0, 0⟩ ⟨0, 1, 0⟩).normal = 0 := by
      rw [CreateRectangle_unit_normal, Ray_new_down]
      norm_num [DotProduct]
    have hpoint : (Ray.new Real.sqrt ⟨1/2, 1/2, 1⟩ ⟨0, 0, -1⟩).origin +
        (1 : ℝ) * (Ray.new Real.sqrt ⟨1/2, 1/2, 1⟩ ⟨0, 0, -1⟩).direction =
        (⟨1/2, 1/2, 0⟩ : Point ℝ) := by
      rw [Ray_new_down]
      simp [Point.ext_iff]
    obtain ⟨h, hh⟩ := T.1.2 ⟨1, 1/2, 1/2, by norm_num, by norm_num, by norm_num, by norm_num,
      by norm_num, by norm_num, hplane, by rw [hpoint]; simp [Point.ext_iff]⟩
    obtain ⟨e1, e2⟩ := T.2 h hh 1 hplane
    exact ⟨h, hh, e1, e2.trans hpoint⟩
  · have T := HitRectangle_iff_meets_footprint Real.sqrt isSqrt_real
      (MaterialT.lambertian ⟨⟨1/2, 1/2, 1/2⟩⟩) ⟨0, 0, 0⟩ ⟨1, 0, 0⟩ ⟨0, 1, 0⟩
      (Ray.new Real.sqrt ⟨2, 2, 1⟩ ⟨0, 0, -1⟩) 0 10 hu hv huv (hden _)
    by_contra hne
    obtain ⟨h, hh⟩ := Option.ne_none_iff_exists'.1 hne
    obtain ⟨t, a, b, _, _, _, ha1, _, _, _, heq⟩ := T.1.1 ⟨h, hh⟩
    rw [Ray_new_down] at heq
    have hx := congrArg Point.x heq
    simp at hx
    linarith

/-! ## The closest-hit scan -/

theorem HitSphere.record_t (s : Sphere F) (r : Ray F) (t : F) :
    (HitSphere.record s r t).t = t := rfl

/-- Shrinking the upper bound of `HitSphere` from `tmax` to `closest` keeps exactly the
hits with `t < closest`. -/
theorem HitSphere_shrink {sqrt : F → F} (hs : IsSqrt sqrt) (s : Sphere F) (r : Ray F)
    (tmin tmax closest : F) (hc : closest ≤ tmax) (h : HitRecord F) :
    HitSphere sqrt s r tmin closest = some h ↔
      HitSphere sqrt s r tmin tmax = some h ∧ h.t < closest := by
  rw [HitSphere_eq_some_iff, HitSphere_eq_some_iff]
  constructor
  · rintro ⟨h0, ⟨ha, hb, e⟩ | ⟨hn, ha, hb, e⟩⟩
    · exact ⟨⟨h0, Or.inl ⟨ha, hb.trans_le hc, e⟩⟩, by rw [e]; exact hb⟩
    · refine ⟨⟨h0, Or.inr ⟨?_, ha, hb.trans_le hc, e⟩⟩, by rw [e]; exact hb⟩
      rintro ⟨h1, _⟩
      exact hn ⟨h1, (HitSphere.root1_le_root2 hs s r h0).trans_lt hb⟩
  · rintro ⟨⟨h0, ⟨ha, _, e⟩ | ⟨hn, ha, _, e⟩⟩, hlt⟩
    · rw [e, HitSphere.record_t] at hlt
      exact ⟨h0, Or.inl ⟨ha, hlt, e⟩⟩
    · rw [e, HitSphere.record_t] at hlt
      refine ⟨h0, Or.inr ⟨?_, ha, hlt, e⟩⟩
      rintro ⟨h1, h2⟩
      exact hn ⟨h1, h2.trans_le hc⟩

/-- Shrinking the upper bound of `HitRectangle` from `tmax` to `closest` keeps exactly the
hits with `t <= closest`. -/
theorem HitRectangle_shrink (rect : Rectangle F) (r : Ray F) (tmin tmax closest : F)
    (hc : closest ≤ tmax) (h : HitRecord F) :
    HitRectangle rect r tmin closest = some h ↔
      HitRectangle rect r tmin tmax = some h ∧ h.t ≤ closest := by
  rw [HitRectangle_eq_some_iff, HitRectangle_eq_some_iff]
  constructor
  · rintro ⟨h1, h2, h3, h4, e⟩
    exact ⟨⟨h1, h2, h3.trans hc, h4, e⟩, by rw [e]; exact h3⟩
  · rintro ⟨⟨h1, h2, _, h4, e⟩, hle⟩
    rw [e] at hle
    exact ⟨h1, h2, hle, h4, e⟩

theorem HitSphere_t_lt {sqrt : F → F} {s : Sphere F} {r : Ray F} {tmin tmax : F}
    {h : HitRecord F} (hh : HitSphere sqrt s r tmin tmax = some h) : h.t < tmax := by
  rw [HitSphere_eq_some_iff] at hh
  rcases hh with ⟨_, ⟨_, hb, e⟩ | ⟨_, _, hb, e⟩⟩ <;> rw [e] <;> exact hb

theorem HitRectangle_t_le {rect : Rectangle F} {r : Ray F} {tmin tmax : F}
    {h : HitRecord F} (hh : HitRectangle rect r tmin tmax = some h) : h.t ≤ tmax := by
  rw [HitRectangle_eq_some_iff] at hh
  rw [hh.2.2.2.2]
  exact hh.2.2.1

/-- A hit accepted against `(tmin, closest)` is the hit the object reports on its own
against `(tmin, tmax)`, and lies at or before `closest`. -/
theorem HitEnvirons.visit_some {sqrt : F → F} (hs : IsSqrt sqrt) (r : Ray F)
    (tmin tmax closest : F) (hc : closest ≤ tmax) (o : ObjectT F) (h : HitRecord F)
    (hv : HitEnvirons.visit sqrt r tmin closest o = some h) :
    HitEnvirons.visit sqrt r tmin tmax o = some h ∧ h.t ≤ closest := by
  cases o with
  | sphere s =>
    have := (HitSphere_shrink hs s r tmin tmax closest hc h).1 hv
    exact ⟨this.1, this.2.le⟩
  | rectangle rect => exact (HitRectangle_shrink rect r tmin tmax closest hc h).1 hv

/-- A hit reported on its own strictly before `closest` is accepted against
`(tmin, closest)`. -/
theorem HitEnvirons.visit_of_lt {sqrt : F → F} (hs : IsSqrt sqrt) (r : Ray F)
    (tmin tmax closest : F) (hc : closest ≤ tmax) (o : ObjectT F) (h : HitRecord F)
    (hv : HitEnvirons.visit sqrt r tmin tmax o = some h) (hlt : h.t < closest) :
    HitEnvirons.visit sqrt r tmin closest o = some h := by
  cases o with
  | sphere s => exact (HitSphere_shrink hs s r tmin tmax closest hc h).2 ⟨hv, hlt⟩
  | rectangle rect => exact (HitRectangle_shrink rect r tmin tmax closest hc h).2 ⟨hv, hlt.le⟩

theorem HitEnvirons.visit_none {sqrt : F → F} (hs : IsSqrt sqrt) (r : Ray F)
    (tmin tmax closest : F) (hc : closest ≤ tmax) (o : ObjectT F)
    (hv : HitEnvirons.visit sqrt r tmin closest o = none) (h : HitRecord F)
    (ho : HitEnvirons.visit sqrt r tmin tmax o = some h) : closest ≤ h.t := by
  by_contra hlt
  rw [HitEnvirons.visit_of_lt hs r tmin tmax closest hc o h ho (not_le.1 hlt)] at hv
  exact Option.noConfusion hv

theorem HitEnvirons.closest_le {tmax : F} {res : Option (HitRecord F)}
    (hres : ∀ h, res = some h → h.t ≤ tmax) : HitEnvirons.closest tmax res ≤ tmax := by
  cases res with
  | none => exact le_refl _
  | some h => exact hres h rfl

theorem HitEnvirons.loop_cons_some {sqrt : F → F} {r : Ray F} {tmin closest : F}
    {o : ObjectT F} {hit : HitRecord F} (rest : List (ObjectT F)) (res : Option (HitRecord F))
    (hv : HitEnvirons.visit sqrt r tmin closest o = some hit) :
    HitEnvirons.loop sqrt r tmin (o :: rest) closest res =
      HitEnvirons.loop sqrt r tmin rest hit.t (some hit) := by
  rw [HitEnvirons.loop, hv]

theorem HitEnvirons.loop_cons_none {sqrt : F → F} {r : Ray F} {tmin closest : F}
    {o : ObjectT F} (rest : List (ObjectT F)) (res : Option (HitRecord F))
    (hv : HitEnvirons.visit sqrt r tmin closest o = none) :
    HitEnvirons.loop sqrt r tmin (o :: rest) closest res =
      HitEnvirons.loop sqrt r tmin rest closest res := by
  rw [HitEnvirons.loop, hv]

/-- The loop of `HitEnvirons`, started in a state where `closest` belongs to `res`: it ends
without a result exactly when it started without one and no object reports a hit on its
own; a result is the starting one or a hit some object reports on its own, and its `t` is
at most `closest` and at most the `t` of every hit an object reports on its own. -/
theorem HitEnvirons.loop_spec {sqrt : F → F} (hs : IsSqrt sqrt) (r : Ray F) (tmin tmax : F) :
    ∀ (objs : List (ObjectT F)) (res : Option (HitRecord F)),
      (∀ h, res = some h → h.t ≤ tmax) →
      (HitEnvirons.loop sqrt r tmin objs (HitEnvirons.closest tmax res) res = none ↔
        res = none ∧ ∀ o ∈ objs, HitEnvirons.visit sqrt r tmin tmax o = none) ∧
      (∀ h, HitEnvirons.loop sqrt r tmin objs (HitEnvirons.closest tmax res) res = some h →
        (res = some h ∨ ∃ o ∈ objs, HitEnvirons.visit sqrt r tmin tmax o = some h) ∧
        h.t ≤ HitEnvirons.closest tmax res ∧
        ∀ o ∈ objs, ∀ h', HitEnvirons.visit sqrt r tmin tmax o = some h' → h.t ≤ h'.t) := by
  intro objs
  induction objs with
  | nil =>
    intro res _
    refine ⟨by simp [HitEnvirons.loop], ?_⟩
    intro h hh
    have hres : res = some h := hh
    refine ⟨Or.inl hres, ?_, by simp⟩
    rw [hres]
    exact le_refl _
  | cons o rest ih =>
    intro res hres
    have hc := HitEnvirons.closest_le hres
    cases hv : HitEnvirons.visit sqrt r tmin (HitEnvirons.closest tmax res) o with
    | none =>
      rw [HitEnvirons.loop_cons_none rest res hv]
      obtain ⟨ih1, ih2⟩ := ih res hres
      constructor
      · rw [ih1]
        constructor
        · rintro ⟨hn, hall⟩
          refine ⟨hn, ?_⟩
          intro o' ho'
          rcases List.mem_cons.1 ho' with e | e
          · rw [hn] at hv
            rw [e]
            exact hv
          · exact hall o' e
        · rintro ⟨hn, hall⟩
          exact ⟨hn, fun o' ho' => hall o' (List.mem_cons_of_mem _ ho')⟩
      · intro h hh
        obtain ⟨hsrc, hle, hmin⟩ := ih2 h hh
        refine ⟨?_, hle, ?_⟩
        · rcases hsrc with e | ⟨o', ho', e⟩
          · exact Or.inl e
          · exact Or.inr ⟨o', List.mem_cons_of_mem _ ho', e⟩
        · intro o' ho' h' hh'
          rcases List.mem_cons.1 ho' with e | e
          · rw [e] at hh'
            exact hle.trans (HitEnvirons.visit_none hs r tmin tmax _ hc o hv h' hh')
          · exact hmin o' e h' hh'
    | some hit =>
      rw [HitEnvirons.loop_cons_some rest res hv]
      obtain ⟨hown, hhit⟩ := HitEnvirons.visit_some hs r tmin tmax _ hc o hit hv
      have hres' : ∀ h, some hit = some h → h.t ≤ tmax := by
        intro h e
        rw [← Option.some.inj e]
        exact hhit.trans hc
      obtain ⟨ih1, ih2⟩ := ih (some hit) hres'
      have hcl : HitEnvirons.closest tmax (some hit) = hit.t := rfl
      rw [hcl] at ih1 ih2
      constructor
      · constructor
        · intro hn
          exact absurd (ih1.1 hn).1 (Option.some_ne_none hit)
        · rintro ⟨_, hall⟩
          rw [hall o (List.mem_cons_self _ _)] at hown
          exact Option.noConfusion hown
      · intro h hh
        obtain ⟨hsrc, hle, hmin⟩ := ih2 h hh
        refine ⟨Or.inr ?_, hle.trans hhit, ?_⟩
        · rcases hsrc with e | ⟨o', ho', e⟩
          · rw [← Option.some.inj e]
            exact ⟨o, List.mem_cons_self _ _, hown⟩
          · exact ⟨o', List.mem_cons_of_mem _ ho', e⟩
        · intro o' ho' h' hh'
          rcases List.mem_cons.1 ho' with e | e
          · rw [e, hown] at hh'
            rw [← Option.some.inj hh']
            exact hle
          · exact hmin o' e h' hh'

/-- C1: `HitEnvirons` returns a hit if and only if at least one primitive on its own
reports a hit against `(tmin, tmax)`; the returned record is one that a primitive reports
on its own, and its `t` is the minimum of the distances the primitives report
individually; so the returned `t` is the same for every permutation of the primitives of
the scene.  Over exact arithmetic this needs neither the non-zero direction nor
`tmin < tmax`, so it holds in particular for the rays and bounds of the claim. -/
theorem HitEnvirons_closest (sqrt : F → F) (hs : IsSqrt sqrt) (environs : Environs F)
    (r : Ray F) (tmin tmax : F) :
    ((∃ h, HitEnvirons sqrt environs r tmin tmax = some h) ↔
      ∃ o ∈ environs.objects, ∃ h, HitEnvirons.visit sqrt r tmin tmax o = some h) ∧
    (∀ h, HitEnvirons sqrt environs r tmin tmax = some h →
      (∃ o ∈ environs.objects, HitEnvirons.visit sqrt r tmin tmax o = some h) ∧
      ∀ o ∈ environs.objects, ∀ h', HitEnvirons.visit sqrt r tmin tmax o = some h' →
        h.t ≤ h'.t) ∧
    (∀ environs' : Environs F, environs'.objects.Perm environs.objects →
      (HitEnvirons sqrt environs' r tmin tmax).map (fun h => h.t) =
        (HitEnvirons sqrt environs r tmin tmax).map (fun h => h.t)) := by
  have hnone : ∀ h : HitRecord F, (none : Option (HitRecord F)) = some h → h.t ≤ tmax :=
    fun h e => Option.noConfusion e
  have spec : ∀ e : Environs F,
      (HitEnvirons sqrt e r tmin tmax = none ↔
        ∀ o ∈ e.objects, HitEnvirons.visit sqrt r tmin tmax o = none) ∧
      (∀ h, HitEnvirons sqrt e r tmin tmax = some h →
        (∃ o ∈ e.objects, HitEnvirons.visit sqrt r tmin tmax o = some h) ∧
        ∀ o ∈ e.objects, ∀ h', HitEnvirons.visit sqrt r tmin tmax o = some h' →
          h.t ≤ h'.t) := by
    intro e
    obtain ⟨h1, h2⟩ := HitEnvirons.loop_spec hs r tmin tmax e.objects none hnone
    refine ⟨?_, ?_⟩
    · show HitEnvirons.loop sqrt r tmin e.objects tmax none = none ↔ _
      have : HitEnvirons.closest tmax (none : Option (HitRecord F)) = tmax := rfl
      rw [this] at h1
      rw [h1]
      simp
    · intro h hh
      obtain ⟨hsrc, _, hmin⟩ := h2 h hh
      refine ⟨?_, hmin⟩
      rcases hsrc with e' | e'
      · exact Option.noConfusion e'
      · exact e'
  refine ⟨?_, (spec environs).2, ?_⟩
  · constructor
    · rintro ⟨h, hh⟩
      obtain ⟨o, ho, e⟩ := ((spec environs).2 h hh).1
      exact ⟨o, ho, h, e⟩
    · rintro ⟨o, ho, h, e⟩
      apply Option.ne_none_iff_exists'.1
      intro hn
      rw [((spec environs).1.1 hn) o ho] at e
      exact Option.noConfusion e
  · intro environs' hperm
    cases h1 : HitEnvirons sqrt environs r tmin tmax with
    | none =>
      have hall := (spec environs).1.1 h1
      have : HitEnvirons sqrt environs' r tmin tmax = none :=
        (spec environs').1.2 (fun o ho => hall o (hperm.mem_iff.1 ho))
      rw [this]
    | some h =>
      cases h2 : HitEnvirons sqrt environs' r tmin tmax with
      | none =>
        have hall := (spec environs').1.1 h2
        obtain ⟨o, ho, e⟩ := ((spec environs).2 h h1).1
        rw [hall o (hperm.mem_iff.2 ho)] at e
        exact Option.noConfusion e
      | some h' =>
        obtain ⟨⟨o, ho, e⟩, hmin⟩ := (spec environs).2 h h1
        obtain ⟨⟨o', ho', e'⟩, hmin'⟩ := (spec environs').2 h' h2
        have le1 : h.t ≤ h'.t := hmin o' (hperm.mem_iff.1 ho') h' e'
        have le2 : h'.t ≤ h.t := hmin' o (hperm.mem_iff.2 ho) h e
        simp only [Option.map_some']
        rw [le_antisymm le2 le1]

/-! ## Equal distances -/

theorem HitEnvirons.loop_append (sqrt : F → F) (r : Ray F) (tmin tmax : F) :
    ∀ (l1 l2 : List (ObjectT F)) (res : Option (HitRecord F)),
      HitEnvirons.loop sqrt r tmin (l1 ++ l2) (HitEnvirons.closest tmax res) res =
        HitEnvirons.loop sqrt r tmin l2
          (HitEnvirons.closest tmax
            (HitEnvirons.loop sqrt r tmin l1 (HitEnvirons.closest tmax res) res))
          (HitEnvirons.loop sqrt r tmin l1 (HitEnvirons.closest tmax res) res) := by
  intro l1
  induction l1 with
  | nil =>
    intro l2 res
    simp [HitEnvirons.loop]
  | cons o l1 ih =>
    intro l2 res
    cases hv : HitEnvirons.visit sqrt r tmin (HitEnvirons.closest tmax res) o with
    | none =>
      rw [List.cons_append, HitEnvirons.loop_cons_none _ res hv,
        HitEnvirons.loop_cons_none _ res hv]
      exact ih l2 res
    | some hit =>
      rw [List.cons_append, HitEnvirons.loop_cons_some _ res hv,
        HitEnvirons.loop_cons_some _ res hv]
      exact ih l2 (some hit)

theorem HitEnvirons.loop_keep {sqrt : F → F} (r : Ray F) (tmin closest : F)
    (res : Option (HitRecord F)) :
    ∀ post : List (ObjectT F),
      (∀ p ∈ post, HitEnvirons.visit sqrt r tmin closest p = none) →
      HitEnvirons.loop sqrt r tmin post closest res = res := by
  intro post
  induction post with
  | nil =>
    intro _
    rfl
  | cons p post ih =>
    intro hall
    rw [HitEnvirons.loop_cons_none post res (hall p (List.mem_cons_self _ _))]
    exact ih (fun q hq => hall q (List.mem_cons_of_mem _ hq))

/-- The scan of `pre ++ o :: post` returns the record of `o` once `o` is accepted in the
state the scan of `pre` leaves and nothing of `post` is accepted against that record. -/
theorem HitEnvirons.loop_split {sqrt : F → F} (r : Ray F) (tmin tmax : F)
    (pre post : List (ObjectT F)) (o : ObjectT F) (h : HitRecord F)
    (hacc : HitEnvirons.visit sqrt r tmin
      (HitEnvirons.closest tmax (HitEnvirons.loop sqrt r tmin pre tmax none)) o = some h)
    (hpost : ∀ p ∈ post, HitEnvirons.visit sqrt r tmin h.t p = none) :
    HitEnvirons sqrt ⟨pre ++ o :: post⟩ r tmin tmax = some h := by
  have happ := HitEnvirons.loop_append sqrt r tmin tmax pre (o :: post) none
  have hcl : HitEnvirons.closest tmax (none : Option (HitRecord F)) = tmax := rfl
  rw [hcl] at happ
  show HitEnvirons.loop sqrt r tmin (pre ++ o :: post) tmax none = some h
  rw [happ, HitEnvirons.loop_cons_some post _ hacc]
  exact HitEnvirons.loop_keep r tmin h.t (some h) post hpost

/-- A list with an element satisfying `P` splits at the last such element. -/
theorem exists_last_split {α : Type} (P : α → Prop) :
    ∀ l : List α, (∃ x ∈ l, P x) →
      ∃ pre x post, l = pre ++ x :: post ∧ P x ∧ ∀ y ∈ post, ¬ P y := by
  intro l
  induction l with
  | nil =>
    rintro ⟨x, hx, _⟩
    exact absurd hx (List.not_mem_nil x)
  | cons a l ih =>
    intro hex
    by_cases hl : ∃ x ∈ l, P x
    · obtain ⟨pre, x, post, e, hx, hpost⟩ := ih hl
      exact ⟨a :: pre, x, post, by rw [e, List.cons_append], hx, hpost⟩
    · obtain ⟨x, hx, hP⟩ := hex
      rcases List.mem_cons.1 hx with rfl | hx
      · exact ⟨[], x, l, rfl, hP, fun y hy hPy => hl ⟨y, hy, hPy⟩⟩
      · exact absurd ⟨x, hx, hP⟩ hl

/-- A list with an element satisfying `P` splits at the first such element. -/
theorem exists_first_split {α : Type} (P : α → Prop) :
    ∀ l : List α, (∃ x ∈ l, P x) →
      ∃ pre x post, l = pre ++ x :: post ∧ P x ∧ ∀ y ∈ pre, ¬ P y := by
  intro l
  induction l with
  | nil =>
    rintro ⟨x, hx, _⟩
    exact absurd hx (List.not_mem_nil x)
  | cons a l ih =>
    intro hex
    by_cases ha : P a
    · exact ⟨[], a, l, rfl, ha, fun y hy => absurd hy (List.not_mem_nil y)⟩
    · have hl : ∃ x ∈ l, P x := by
        obtain ⟨x, hx, hP⟩ := hex
        rcases List.mem_cons.1 hx with rfl | hx
        · exact absurd hP ha
        · exact ⟨x, hx, hP⟩
      obtain ⟨pre, x, post, e, hx, hpre⟩ := ih hl
      refine ⟨a :: pre, x, post, by rw [e, List.cons_append], hx, ?_⟩
      intro y hy
      rcases List.mem_cons.1 hy with rfl | hy
      · exact ha
      · exact hpre y hy

/-- Against the record of a primitive whose `t` is the closest of `post`, nothing of `post`
is accepted unless it is a rectangle reporting that same `t`. -/
theorem HitEnvirons.tie_rest {sqrt : F → F} (hs : IsSqrt sqrt) (r : Ray F) (tmin tmax : F)
    (post : List (ObjectT F)) (h : HitRecord F) (htmax : h.t ≤ tmax)
    (hpost : ∀ p ∈ post, ∀ h', HitEnvirons.visit sqrt r tmin tmax p = some h' → h.t ≤ h'.t)
    (hrect : ∀ rect, ObjectT.rectangle rect ∈ post →
      ∀ h', HitRectangle rect r tmin tmax = some h' → h'.t ≠ h.t) :
    ∀ p ∈ post, HitEnvirons.visit sqrt r tmin h.t p = none := by
  intro p hp
  cases hv : HitEnvirons.visit sqrt r tmin h.t p with
  | none => rfl
  | some h2 =>
    exfalso
    cases p with
    | sphere s =>
      obtain ⟨e, hlt⟩ := (HitSphere_shrink hs s r tmin tmax h.t htmax h2).1 hv
      exact absurd (hpost _ hp h2 e) (not_le.2 hlt)
    | rectangle rect =>
      obtain ⟨e, hle⟩ := (HitRectangle_shrink rect r tmin tmax h.t htmax h2).1 hv
      exact hrect rect hp h2 e (le_antisymm hle (hpost _ hp h2 e))

/-- The first primitive to report the closest `t` keeps the result when no later rectangle
reports that `t`. -/
theorem HitEnvirons.tie_first {sqrt : F → F} (hs : IsSqrt sqrt) (r : Ray F) (tmin tmax : F)
    (pre post : List (ObjectT F)) (o : ObjectT F) (h : HitRecord F)
    (ho : HitEnvirons.visit sqrt r tmin tmax o = some h)
    (hpre : ∀ p ∈ pre, ∀ h', HitEnvirons.visit sqrt r tmin tmax p = some h' → h.t ≤ h'.t)
    (hpost : ∀ p ∈ post, ∀ h', HitEnvirons.visit sqrt r tmin tmax p = some h' → h.t ≤ h'.t)
    (hfirst : ∀ p ∈ pre, ∀ h', HitEnvirons.visit sqrt r tmin tmax p = some h' → h'.t ≠ h.t)
    (hrect : ∀ rect, ObjectT.rectangle rect ∈ post →
      ∀ h', HitRectangle rect r tmin tmax = some h' → h'.t ≠ h.t) :
    HitEnvirons sqrt ⟨pre ++ o :: post⟩ r tmin tmax = some h := by
  have hnone : ∀ h : HitRecord F, (none : Option (HitRecord F)) = some h → h.t ≤ tmax :=
    fun h e => Option.noConfusion e
  have hcl : HitEnvirons.closest tmax (none : Option (HitRecord F)) = tmax := rfl
  have htmax : h.t ≤ tmax := (HitEnvirons.visit_some hs r tmin tmax tmax (le_refl _) o h ho).2
  have hspec := (HitEnvirons.loop_spec hs r tmin tmax pre none hnone).2
  rw [hcl] at hspec
  apply HitEnvirons.loop_split r tmin tmax pre post o h _
    (HitEnvirons.tie_rest hs r tmin tmax post h htmax hpost hrect)
  cases e1 : HitEnvirons.loop sqrt r tmin pre tmax none with
  | none => exact ho
  | some h1 =>
    obtain ⟨hsrc, hle, _⟩ := hspec h1 e1
    rcases hsrc with e | ⟨p, hp, e⟩
    · exact Option.noConfusion e
    · exact HitEnvirons.visit_of_lt hs r tmin tmax h1.t hle o h ho
        (lt_of_le_of_ne (hpre p hp h1 e) (hfirst p hp h1 e).symm)

/-- A rectangle reporting the closest `t` takes the result, whatever was reported before
it, when no later rectangle reports that `t`. -/
theorem HitEnvirons.tie_last_rectangle {sqrt : F → F} (hs : IsSqrt sqrt) (r : Ray F)
    (tmin tmax : F) (pre post : List (ObjectT F)) (rect : Rectangle F) (h : HitRecord F)
    (ho : HitRectangle rect r tmin tmax = some h)
    (hpre : ∀ p ∈ pre, ∀ h', HitEnvirons.visit sqrt r tmin tmax p = some h' → h.t ≤ h'.t)
    (hpost : ∀ p ∈ post, ∀ h', HitEnvirons.visit sqrt r tmin tmax p = some h' → h.t ≤ h'.t)
    (hrect : ∀ rect', ObjectT.rectangle rect' ∈ post →
      ∀ h', HitRectangle rect' r tmin tmax = some h' → h'.t ≠ h.t) :
    HitEnvirons sqrt ⟨pre ++ ObjectT.rectangle rect :: post⟩ r tmin tmax = some h := by
  have hnone : ∀ h : HitRecord F, (none : Option (HitRecord F)) = some h → h.t ≤ tmax :=
    fun h e => Option.noConfusion e
  have hcl : HitEnvirons.closest tmax (none : Option (HitRecord F)) = tmax := rfl
  have htmax : h.t ≤ tmax :=
    (HitEnvirons.visit_some hs r tmin tmax tmax (le_refl _) (ObjectT.rectangle rect) h ho).2
  have hspec := (HitEnvirons.loop_spec hs r tmin tmax pre none hnone).2
  rw [hcl] at hspec
  apply HitEnvirons.loop_split r tmin tmax pre post _ h _
    (HitEnvirons.tie_rest hs r tmin tmax post h htmax hpost hrect)
  cases e1 : HitEnvirons.loop sqrt r tmin pre tmax none with
  | none => exact ho
  | some h1 =>
    obtain ⟨hsrc, hle, _⟩ := hspec h1 e1
    rcases hsrc with e | ⟨p, hp, e⟩
    · exact Option.noConfusion e
    · exact (HitRectangle_shrink rect r tmin tmax h1.t hle h).2 ⟨ho, hpre p hp h1 e⟩

/-- C2, as the code has it: let `o` report on its own a hit `h` whose `t` is the closest in
the scene `pre ++ o :: post`.  (1) If `o` is the first primitive to report that `t` and
every later primitive reporting the same `t` is a sphere, `HitEnvirons` returns the record
of `o`: the first wins over later spheres.  (2) If `o` is a rectangle and no later
rectangle reports the same `t`, `HitEnvirons` returns the record of `o`, whatever earlier
primitives and later spheres report that `t`: the last rectangle reporting the closest `t`
wins.  (3) One of the two cases always applies: the scene splits at a primitive `o'` that
reports the closest `t` and whose record `HitEnvirons` returns, no rectangle after `o'`
reports that `t`, and `o'` is a rectangle or the first primitive to report that `t`. -/
theorem HitEnvirons_tie_break (sqrt : F → F) (hs : IsSqrt sqrt) (r : Ray F) (tmin tmax : F)
    (pre post : List (ObjectT F)) (o : ObjectT F) (h : HitRecord F)
    (ho : HitEnvirons.visit sqrt r tmin tmax o = some h)
    (hpre : ∀ p ∈ pre, ∀ h', HitEnvirons.visit sqrt r tmin tmax p = some h' → h.t ≤ h'.t)
    (hpost : ∀ p ∈ post, ∀ h', HitEnvirons.visit sqrt r tmin tmax p = some h' → h.t ≤ h'.t) :
    ((∀ p ∈ pre, ∀ h', HitEnvirons.visit sqrt r tmin tmax p = some h' → h'.t ≠ h.t) →
      (∀ rect, ObjectT.rectangle rect ∈ post →
        ∀ h', HitRectangle rect r tmin tmax = some h' → h'.t ≠ h.t) →
      HitEnvirons sqrt ⟨pre ++ o :: post⟩ r tmin tmax = some h) ∧
    ((∃ rect, o = ObjectT.rectangle rect) →
      (∀ rect, ObjectT.rectangle rect ∈ post →
        ∀ h', HitRectangle rect r tmin tmax = some h' → h'.t ≠ h.t) →
      HitEnvirons sqrt ⟨pre ++ o :: post⟩ r tmin tmax = some h) ∧
    (∃ (pre' : List (ObjectT F)) (o' : ObjectT F) (post' : List (ObjectT F))
        (h' : HitRecord F),
      pre ++ o :: post = pre' ++ o' :: post' ∧
      HitEnvirons.visit sqrt r tmin tmax o' = some h' ∧ h'.t = h.t ∧
      HitEnvirons sqrt ⟨pre ++ o :: post⟩ r tmin tmax = some h' ∧
      (∀ rect, ObjectT.rectangle rect ∈ post' →
        ∀ h2, HitRectangle rect r tmin tmax = some h2 → h2.t ≠ h.t) ∧
      ((∃ rect, o' = ObjectT.rectangle rect) ∨
        ∀ p ∈ pre', ∀ h2, HitEnvirons.visit sqrt r tmin tmax p = some h2 → h2.t ≠ h.t)) := by
  refine ⟨fun hfirst hrect => HitEnvirons.tie_first hs r tmin tmax pre post o h ho hpre hpost
    hfirst hrect, ?_, ?_⟩
  · rintro ⟨rect, rfl⟩ hrect
    exact HitEnvirons.tie_last_rectangle hs r tmin tmax pre post rect h ho hpre hpost hrect
  -- the closest `t` over the whole scene
  have hmin : ∀ p ∈ pre ++ o :: post, ∀ h',
      HitEnvirons.visit sqrt r tmin tmax p = some h' → h.t ≤ h'.t := by
    intro p hp h' e
    rcases List.mem_append.1 hp with hp | hp
    · exact hpre p hp h' e
    · rcases List.mem_cons.1 hp with rfl | hp
      · rw [ho] at e
        rw [Option.some.inj e]
      · exact hpost p hp h' e
  by_cases hex : ∃ p ∈ pre ++ o :: post, ∃ rect h', p = ObjectT.rectangle rect ∧
      HitRectangle rect r tmin tmax = some h' ∧ h'.t = h.t
  · -- some rectangle reports the closest `t`: the last of them
    obtain ⟨pre', o', post', e, ⟨rect, h', rfl, hv, ht⟩, hlast⟩ :=
      exists_last_split (fun p : ObjectT F => ∃ rect h', p = ObjectT.rectangle rect ∧
        HitRectangle rect r tmin tmax = some h' ∧ h'.t = h.t) _ hex
    have hrect : ∀ rect', ObjectT.rectangle rect' ∈ post' →
        ∀ h2, HitRectangle rect' r tmin tmax = some h2 → h2.t ≠ h.t :=
      fun rect' hmem h2 e2 hne => hlast _ hmem ⟨rect', h2, rfl, e2, hne⟩
    refine ⟨pre', ObjectT.rectangle rect, post', h', e, hv, ht, ?_, hrect, Or.inl ⟨rect, rfl⟩⟩
    rw [e]
    apply HitEnvirons.tie_last_rectangle hs r tmin tmax pre' post' rect h' hv
    · intro p hp h2 e2
      rw [ht]
      exact hmin p (by rw [e]; exact List.mem_append_left _ hp) h2 e2
    · intro p hp h2 e2
      rw [ht]
      exact hmin p (by rw [e]; exact List.mem_append_right _ (List.mem_cons_of_mem _ hp)) h2 e2
    · rw [ht]
      exact hrect
  · -- no rectangle reports the closest `t`: the first primitive that does
    obtain ⟨pre', o', post', e, ⟨h', hv, ht⟩, hfirst⟩ :=
      exists_first_split (fun p : ObjectT F => ∃ h',
        HitEnvirons.visit sqrt r tmin tmax p = some h' ∧ h'.t = h.t) (pre ++ o :: post)
        ⟨o, List.mem_append_right _ (List.mem_cons_self _ _), h, ho, rfl⟩
    have hrect : ∀ rect', ObjectT.rectangle rect' ∈ post' →
        ∀ h2, HitRectangle rect' r tmin tmax = some h2 → h2.t ≠ h.t :=
      fun rect' hmem h2 e2 hne =>
        hex ⟨_, by rw [e]; exact List.mem_append_right _ (List.mem_cons_of_mem _ hmem),
          rect', h2, rfl, e2, hne⟩
    have hfirst' : ∀ p ∈ pre', ∀ h2,
        HitEnvirons.visit sqrt r tmin tmax p = some h2 → h2.t ≠ h.t :=
      fun p hp h2 e2 hne => hfirst p hp ⟨h2, e2, hne⟩
    refine ⟨pre', o', post', h', e, hv, ht, ?_, hrect, Or.inr hfirst'⟩
    rw [e]
    apply HitEnvirons.tie_first hs r tmin tmax pre' post' o' h' hv
    · intro p hp h2 e2
      rw [ht]
      exact hmin p (by rw [e]; exact List.mem_append_left _ hp) h2 e2
    · intro p hp h2 e2
      rw [ht]
      exact hmin p (by rw [e]; exact List.mem_append_right _ (List.mem_cons_of_mem _ hp)) h2 e2
    · rw [ht]
      exact hfirst'
    · rw [ht]
      exact hrect

theorem tieRay_eq : tieRay Real.sqrt = ⟨⟨0, 0, 0⟩, ⟨0, 0, -1⟩⟩ := Ray_new_down _

theorem tieRectangle_eq :
    tieRectangle Real.sqrt =
      { mat := MaterialT.emissive ⟨⟨15, 15, 15⟩⟩, origin := ⟨-1/2, -1/2, -1⟩, u := ⟨1, 0, 0⟩,
        v := ⟨0, 1, 0⟩, normal := ⟨0, 0, 1⟩, u_len_sq := 1, v_len_sq := 1 } := by
  simp [tieRectangle, CreateRectangle, Normalize, CrossProduct, Length, LengthSquared,
    Point.ext_iff]

/-- On its own `tieSphere` reports the hit at `t = 1`, for every upper bound above 1. -/
theorem tieSphere_hit (tmax : ℝ) (h : 1 < tmax) :
    HitSphere Real.sqrt tieSphere (tieRay Real.sqrt) (1/1000) tmax =
      some (tieRecord (MaterialT.lambertian ⟨⟨1/10, 1/5, 1/2⟩⟩)) := by
  rw [tieRay_eq]
  have hdisc : HitSphere.disc (tieSphere : Sphere ℝ) ⟨⟨0, 0, 0⟩, ⟨0, 0, -1⟩⟩ = 1 := by
    simp [HitSphere.disc, HitSphere.a, HitSphere.b, HitSphere.c, DotProduct, tieSphere]
    norm_num
  have h1 : HitSphere.root1 Real.sqrt (tieSphere : Sphere ℝ) ⟨⟨0, 0, 0⟩, ⟨0, 0, -1⟩⟩ = 1 := by
    rw [HitSphere.root1, hdisc, Real.sqrt_one]
    simp [HitSphere.a, HitSphere.b, DotProduct, tieSphere]
    norm_num
  rw [HitSphere_eq_some_iff, h1, hdisc]
  refine ⟨zero_le_one, Or.inl ⟨by norm_num, h, ?_⟩⟩
  simp [HitSphere.record, tieRecord, tieSphere, Point.ext_iff]
  norm_num

/-- On its own `tieRectangle` reports the hit at `t = 1`, for every upper bound from 1
on. -/
theorem tieRectangle_hit (tmax : ℝ) (h : 1 ≤ tmax) :
    HitRectangle (tieRectangle Real.sqrt) (tieRay Real.sqrt) (1/1000) tmax =
      some (tieRecord (MaterialT.emissive ⟨⟨15, 15, 15⟩⟩)) := by
  rw [tieRay_eq, tieRectangle_eq]
  have ht : HitRectangle.t
      ({ mat := MaterialT.emissive ⟨⟨15, 15, 15⟩⟩, origin := ⟨-1/2, -1/2, -1⟩, u := ⟨1, 0, 0⟩,
         v := ⟨0, 1, 0⟩, normal := ⟨0, 0, 1⟩, u_len_sq := 1, v_len_sq := 1 } : Rectangle ℝ)
      ⟨⟨0, 0, 0⟩, ⟨0, 0, -1⟩⟩ = 1 := by
    simp [HitRectangle.t, DotProduct]
  rw [HitRectangle_eq_some_iff, HitRectangle.inside, ht]
  refine ⟨by norm_num [DotProduct], by norm_num, h, ?_, ?_⟩
  · norm_num [DotProduct]
  · simp [HitRectangle.record, ht, tieRecord, DotProduct, Point.ext_iff]

/-- C2 fails as stated: `tieSphere` and `tieRectangle` both report `t = 1` on their own,
the sphere comes first in the scene, and `HitEnvirons` returns the record of the
rectangle, with the Emissive material. -/
theorem HitEnvirons_later_rectangle_replaces_sphere :
    HitEnvirons.visit Real.sqrt (tieRay Real.sqrt) (1/1000) 100 (ObjectT.sphere tieSphere) =
      some (tieRecord (MaterialT.lambertian ⟨⟨1/10, 1/5, 1/2⟩⟩)) ∧
    HitEnvirons.visit Real.sqrt (tieRay Real.sqrt) (1/1000) 100
        (ObjectT.rectangle (tieRectangle Real.sqrt)) =
      some (tieRecord (MaterialT.emissive ⟨⟨15, 15, 15⟩⟩)) ∧
    (tieRecord (MaterialT.lambertian ⟨⟨1/10, 1/5, 1/2⟩⟩) : HitRecord ℝ).t =
      (tieRecord (MaterialT.emissive ⟨⟨15, 15, 15⟩⟩) : HitRecord ℝ).t ∧
    HitEnvirons Real.sqrt
        ⟨[ObjectT.sphere tieSphere, ObjectT.rectangle (tieRectangle Real.sqrt)]⟩
        (tieRay Real.sqrt) (1/1000) 100 =
      some (tieRecord (MaterialT.emissive ⟨⟨15, 15, 15⟩⟩)) ∧
    HitEnvirons Real.sqrt
        ⟨[ObjectT.sphere tieSphere, ObjectT.rectangle (tieRectangle Real.sqrt)]⟩
        (tieRay Real.sqrt) (1/1000) 100 ≠
      some (tieRecord (MaterialT.lambertian ⟨⟨1/10, 1/5, 1/2⟩⟩)) := by
  have hA := tieSphere_hit 100 (by norm_num)
  have hB := tieRectangle_hit 100 (by norm_num)
  have hB1 := tieRectangle_hit 1 (le_refl _)
  have hE : HitEnvirons Real.sqrt
      ⟨[ObjectT.sphere tieSphere, ObjectT.rectangle (tieRectangle Real.sqrt)]⟩
      (tieRay Real.sqrt) (1/1000) 100 =
      some (tieRecord (MaterialT.emissive ⟨⟨15, 15, 15⟩⟩)) := by
    show HitEnvirons.loop Real.sqrt (tieRay Real.sqrt) (1/1000)
      [ObjectT.sphere tieSphere, ObjectT.rectangle (tieRectangle Real.sqrt)] 100 none = _
    rw [HitEnvirons.loop_cons_some _ _ (show HitEnvirons.visit Real.sqrt (tieRay Real.sqrt)
      (1/1000) 100 (ObjectT.sphere tieSphere) = _ from hA)]
    rw [HitEnvirons.loop_cons_some _ _ (show HitEnvirons.visit Real.sqrt (tieRay Real.sqrt)
      (1/1000) (tieRecord (MaterialT.lambertian ⟨⟨1/10, 1/5, 1/2⟩⟩)).t
      (ObjectT.rectangle (tieRectangle Real.sqrt)) = _ from hB1)]
    rfl
  refine ⟨hA, hB, rfl, hE, ?_⟩
  rw [hE]
  simp [tieRecord]

/-- On its own `tieSphere` reports no hit closer than `t = 1`. -/
theorem tieSphere_not_closer :
    ∀ p ∈ [ObjectT.sphere (tieSphere : Sphere ℝ)], ∀ h',
      HitEnvirons.visit Real.sqrt (tieRay Real.sqrt) (1/1000) 100 p = some h' →
      (tieRecord (MaterialT.emissive ⟨⟨15, 15, 15⟩⟩) : HitRecord ℝ).t ≤ h'.t := by
  intro p hp h' hh'
  rw [List.mem_singleton.1 hp] at hh'
  have hA : HitEnvirons.visit Real.sqrt (tieRay Real.sqrt) (1/1000) 100
      (ObjectT.sphere tieSphere) = _ := tieSphere_hit 100 (by norm_num)
  rw [hA] at hh'
  rw [← Option.some.inj hh']
  exact le_refl _

/-- C2 as amended, at two scenes where every primitive reports `t = 1`: with the rectangle
first and the sphere second, the rectangle, first in the scene, keeps the result; with the
rectangle between two spheres, the rectangle, the last rectangle to report `t = 1`, takes
the result from the sphere before it and keeps it against the sphere after it. -/
theorem HitEnvirons_tie_break_witness :
    IsSqrt Real.sqrt ∧
    HitEnvirons Real.sqrt
        ⟨[] ++ ObjectT.rectangle (tieRectangle Real.sqrt) :: [ObjectT.sphere tieSphere]⟩
        (tieRay Real.sqrt) (1/1000) 100 =
      some (tieRecord (MaterialT.emissive ⟨⟨15, 15, 15⟩⟩)) ∧
    HitEnvirons Real.sqrt
        ⟨[ObjectT.sphere tieSphere] ++
          ObjectT.rectangle (tieRectangle Real.sqrt) :: [ObjectT.sphere tieSphere]⟩
        (tieRay Real.sqrt) (1/1000) 100 =
      some (tieRecord (MaterialT.emissive ⟨⟨15, 15, 15⟩⟩)) :=
  ⟨isSqrt_real,
    (HitEnvirons_tie_break Real.sqrt isSqrt_real (tieRay Real.sqrt)
      (1/1000) 100 [] [ObjectT.sphere tieSphere] (ObjectT.rectangle (tieRectangle Real.sqrt))
      (tieRecord (MaterialT.emissive ⟨⟨15, 15, 15⟩⟩)) (tieRectangle_hit 100 (by norm_num))
      (by simp) tieSphere_not_closer).1 (by simp) (by simp),
    (HitEnvirons_tie_break Real.sqrt isSqrt_real (tieRay Real.sqrt)
      (1/1000) 100 [ObjectT.sphere tieSphere] [ObjectT.sphere tieSphere]
      (ObjectT.rectangle (tieRectangle Real.sqrt))
      (tieRecord (MaterialT.emissive ⟨⟨15, 15, 15⟩⟩)) (tieRectangle_hit 100 (by norm_num))
      tieSphere_not_closer tieSphere_not_closer).2.1 ⟨_, rfl⟩ (by simp)⟩

/-- C1 at the scene of `tieSphere` and `tieRectangle`: listing the two primitives in the
other order gives the same distance. -/
theorem HitEnvirons_closest_witness :
    IsSqrt Real.sqrt ∧
    (HitEnvirons Real.sqrt
        ⟨[ObjectT.rectangle (tieRectangle Real.sqrt), ObjectT.sphere tieSphere]⟩
        (tieRay Real.sqrt) (1/1000) 100).map (fun h => h.t) =
      (HitEnvirons Real.sqrt
        ⟨[ObjectT.sphere tieSphere, ObjectT.rectangle (tieRectangle Real.sqrt)]⟩
        (tieRay Real.sqrt) (1/1000) 100).map (fun h => h.t) :=
  ⟨isSqrt_real, (HitEnvirons_closest Real.sqrt isSqrt_real
    ⟨[ObjectT.sphere tieSphere, ObjectT.rectangle (tieRectangle Real.sqrt)]⟩
    (tieRay Real.sqrt) (1/1000) 100).2.2
    ⟨[ObjectT.rectangle (tieRectangle Real.sqrt), ObjectT.sphere tieSphere]⟩
    (List.Perm.swap _ _ _)⟩

/-! ## Scattering: emissive and dielectric materials -/

@[simp]
theorem Colour.add_r (a b : Colour F) : (a + b).r = a.r + b.r := rfl

@[simp]
theorem Colour.add_g (a b : Colour F) : (a + b).g = a.g + b.g := rfl

@[simp]
theorem Colour.add_b (a b : Colour F) : (a + b).b = a.b + b.b := rfl

@[simp]
theorem Colour.mul_r (a b : Colour F) : (a * b).r = a.r * b.r := rfl

@[simp]
theorem Colour.mul_g (a b : Colour F) : (a * b).g = a.g * b.g := rfl

@[simp]
theorem Colour.mul_b (a b : Colour F) : (a * b).b = a.b * b.b := rfl

/-- C11: on a hit record whose material is Emissive, `Scatter` returns `false` and leaves
the generator, the attenuation output and the outgoing-ray output exactly as they were
before the call, for every incoming ray and every bound on the sampling rounds. -/
theorem Scatter_emissive (sqrt : F → F) (fuel : Nat) (rin : Ray F) (mat : Emissive F)
    (point normal : Point F) (t : F) (rng : CompileTimeRandom) (attenuation : Colour F)
    (rscattered : Ray F) :
    Scatter sqrt fuel rin ⟨MaterialT.emissive mat, point, normal, t⟩ rng attenuation
        rscattered =
      some { continues := false, rng := rng, attenuation := attenuation,
             rscattered := rscattered } := by
  simp only [Scatter]

theorem Scatter_dielectric_eq (sqrt : F → F) (fuel : Nat) (rin : Ray F) (mat : Dielectric F)
    (point normal : Point F) (t : F) (rng : CompileTimeRandom) (attenuation : Colour F)
    (rscattered : Ray F) :
    Scatter sqrt fuel rin ⟨MaterialT.dielectric mat, point, normal, t⟩ rng attenuation
        rscattered =
      some { continues := true, rng := rng.next, attenuation := ⟨1, 1, 1⟩,
             rscattered :=
               if (rng.next.state : F) / (UINT64_MAX : F) <
                   (Scatter.dielectric_refract sqrt rin
                     ⟨MaterialT.dielectric mat, point, normal, t⟩ mat).2 then
                 Ray.new sqrt point (Reflect rin normal)
               else
                 Ray.new sqrt point (Scatter.dielectric_refract sqrt rin
                   ⟨MaterialT.dielectric mat, point, normal, t⟩ mat).1 } := by
  simp only [Scatter, Scatter.visit_dielectric, CompileTimeRandom.random_float]
  split_ifs <;> rfl

/-- C12: on a hit record whose material is Dielectric, whatever the refractive index, the
incoming ray and the generator state, `Scatter` returns `true` with the attenuation
exactly white `(1,1,1)`, and the outgoing ray is the reflected one or the refracted one:
both branches give the same `bool` and the same attenuation. -/
theorem Scatter_dielectric_white (sqrt : F → F) (fuel : Nat) (rin : Ray F)
    (mat : Dielectric F) (point normal : Point F) (t : F) (rng : CompileTimeRandom)
    (attenuation : Colour F) (rscattered : Ray F) :
    ∃ res, Scatter sqrt fuel rin ⟨MaterialT.dielectric mat, point, normal, t⟩ rng
        attenuation rscattered = some res ∧
      res.continues = true ∧ res.attenuation = ⟨1, 1, 1⟩ ∧
      (res.rscattered = Ray.new sqrt point (Reflect rin normal) ∨
        res.rscattered = Ray.new sqrt point (Scatter.dielectric_refract sqrt rin
          ⟨MaterialT.dielectric mat, point, normal, t⟩ mat).1) := by
  refine ⟨_, Scatter_dielectric_eq sqrt fuel rin mat point normal t rng attenuation
    rscattered, rfl, rfl, ?_⟩
  simp only
  split_ifs
  · exact Or.inl rfl
  · exact Or.inr rfl

/-! ## Refraction -/

theorem Refract_eq (sqrt : F → F) (rin : Ray F) (n : Point F) (k : F) :
    Refract sqrt rin n k =
      if 0 < 1 - k * k * (1 - DotProduct rin.direction n * DotProduct rin.direction n) then
        some (k * (rin.direction - DotProduct rin.direction n * n) -
          sqrt (1 - k * k * (1 - DotProduct rin.direction n * DotProduct rin.direction n)) * n)
      else none := rfl

theorem LengthSquared_eq_one_of_Length {sqrt : F → F} (hs : IsSqrt sqrt) {a : Point F}
    (h : Length sqrt a = 1) : LengthSquared a = 1 := by
  have := Length_mul_self hs a
  rw [h] at this
  linarith

/-- C20: for a ray of unit direction `d`, a unit vector `n` and a ratio `k`, `Refract`
returns no direction if and only if `1 - k^2 * (1 - dot(d,n)^2) <= 0`; otherwise the
returned vector `r` has its component perpendicular to `n` equal to `k` times the
component of `d` perpendicular to `n`, `dot(r,n) = -sqrt(1 - k^2 * (1 - dot(d,n)^2))`, and
length exactly 1; at normal incidence `d = -n` the returned vector is `d`. -/
theorem Refract_snell (sqrt : F → F) (hs : IsSqrt sqrt) (rin : Ray F) (n : Point F) (k : F)
    (hd : Length sqrt rin.direction = 1) (hn : Length sqrt n = 1) :
    (Refract sqrt rin n k = none ↔
      1 - k ^ 2 * (1 - DotProduct rin.direction n ^ 2) ≤ 0) ∧
    (∀ r, Refract sqrt rin n k = some r →
      r - DotProduct r n * n = k * (rin.direction - DotProduct rin.direction n * n) ∧
      DotProduct r n = -sqrt (1 - k ^ 2 * (1 - DotProduct rin.direction n ^ 2)) ∧
      LengthSquared r = 1 ∧ Length sqrt r = 1) ∧
    (rin.direction = Point.zero - n → Refract sqrt rin n k = some rin.direction) := by
  have hd2 := LengthSquared_eq_one_of_Length hs hd
  have hn2 := LengthSquared_eq_one_of_Length hs hn
  have hcos : 1 - k ^ 2 * (1 - DotProduct rin.direction n ^ 2) =
      1 - k * k * (1 - DotProduct rin.direction n * DotProduct rin.direction n) := by ring
  rw [hcos, Refract_eq]
  refine ⟨?_, ?_, ?_⟩
  · split_ifs with h
    · simp only [false_iff, not_le]
      exact h
    · simp only [true_iff]
      exact not_lt.1 h
  · intro r hr
    split_ifs at hr with h
    have hr' := (Option.some.inj hr).symm
    have hsq := hs.mul_self h.le
    generalize sqrt (1 - k * k * (1 - DotProduct rin.direction n * DotProduct rin.direction n))
      = c at hr' hsq
    simp only [LengthSquared] at hd2 hn2
    have hdot : DotProduct r n = -c := by
      rw [hr']
      simp only [DotProduct, Point.sub_x, Point.sub_y, Point.sub_z, Point.scalar_mul_x,
        Point.scalar_mul_y, Point.scalar_mul_z]
      linear_combination (-k * (rin.direction.x * n.x + rin.direction.y * n.y + rin.direction.z * n.z) - c) * hn2
    have hlen : LengthSquared r = 1 := by
      rw [hr']
      simp only [DotProduct] at hsq
      simp only [LengthSquared, DotProduct, Point.sub_x, Point.sub_y, Point.sub_z,
        Point.scalar_mul_x, Point.scalar_mul_y, Point.scalar_mul_z]
      linear_combination k ^ 2 * hd2 + (k ^ 2 * (rin.direction.x * n.x + rin.direction.y * n.y + rin.direction.z * n.z) ^ 2 + 2 * k * c * (rin.direction.x * n.x + rin.direction.y * n.y + rin.direction.z * n.z) + c ^ 2) * hn2 + hsq
    refine ⟨?_, hdot, hlen, ?_⟩
    · rw [hdot, hr']
      ext <;> simp only [Point.sub_x, Point.sub_y, Point.sub_z, Point.scalar_mul_x,
        Point.scalar_mul_y, Point.scalar_mul_z] <;> ring
    · unfold Length
      rw [hlen]
      exact hs.one
  · intro hdn
    have hdot : DotProduct rin.direction n = -1 := by
      rw [hdn]
      simp only [LengthSquared] at hn2
      simp only [DotProduct, Point.sub_x, Point.sub_y, Point.sub_z, Point.zero_x, Point.zero_y,
        Point.zero_z]
      linear_combination -hn2
    rw [hdot]
    have h1 : (1 : F) - k * k * (1 - -1 * -1) = 1 := by ring
    rw [h1, if_pos zero_lt_one, hs.one, hdn]
    congr 1
    ext <;> simp

/-- C20 at normal incidence: the ray along `(0,0,-1)` meets the surface of normal
`(0,0,1)` with ratio `2/3` and passes undeviated. -/
theorem Refract_snell_witness :
    IsSqrt Real.sqrt ∧
    Length Real.sqrt (⟨0, 0, -1⟩ : Point ℝ) = 1 ∧ Length Real.sqrt (⟨0, 0, 1⟩ : Point ℝ) = 1 ∧
    Refract Real.sqrt (⟨⟨0, 0, 0⟩, ⟨0, 0, -1⟩⟩ : Ray ℝ) ⟨0, 0, 1⟩ (2/3) = some ⟨0, 0, -1⟩ :=
  ⟨isSqrt_real, by simp [Length, LengthSquared], by simp [Length, LengthSquared],
    (Refract_snell Real.sqrt isSqrt_real ⟨⟨0, 0, 0⟩, ⟨0, 0, -1⟩⟩ ⟨0, 0, 1⟩ (2/3)
      (by simp [Length, LengthSquared]) (by simp [Length, LengthSquared])).2.2
      (by simp [Point.ext_iff])⟩

/-! ## Scattering: the unit-sphere sample, metal and Lambertian materials -/

theorem RandomPointInUnitSphere_succ (fuel : Nat) (rng : CompileTimeRandom) :
    (RandomPointInUnitSphere (fuel + 1) rng : Option (Point F × CompileTimeRandom)) =
      if LengthSquared (⟨2 * ((rng.next.state : F) / (UINT64_MAX : F)) - 1,
          2 * ((rng.next.next.state : F) / (UINT64_MAX : F)) - 1,
          2 * ((rng.next.next.next.state : F) / (UINT64_MAX : F)) - 1⟩ : Point F) ≥ 1 then
        RandomPointInUnitSphere fuel rng.next.next.next
      else
        some (⟨2 * ((rng.next.state : F) / (UINT64_MAX : F)) - 1,
          2 * ((rng.next.next.state : F) / (UINT64_MAX : F)) - 1,
          2 * ((rng.next.next.next.state : F) / (UINT64_MAX : F)) - 1⟩,
          rng.next.next.next) := rfl

/-- A point that `RandomPointInUnitSphere` returns has squared length strictly below 1. -/
theorem RandomPointInUnitSphere_inside :
    ∀ (fuel : Nat) (rng : CompileTimeRandom) (p : Point F) (rng1 : CompileTimeRandom),
      RandomPointInUnitSphere fuel rng = some (p, rng1) → LengthSquared p < 1 := by
  intro fuel
  induction fuel with
  | zero =>
    intro rng p rng1 h
    exact Option.noConfusion h
  | succ fuel ih =>
    intro rng p rng1 h
    rw [RandomPointInUnitSphere_succ] at h
    split_ifs at h with hge
    · exact ih _ p rng1 h
    · have hp := (Prod.mk.inj (Option.some.inj h)).1
      rw [← hp]
      exact not_le.1 hge

theorem sampleSeed_draws :
    sampleSeed.next = ⟨10676934808812843976⟩ ∧
    CompileTimeRandom.next ⟨10676934808812843976⟩ = ⟨12275363894599586863⟩ ∧
    CompileTimeRandom.next ⟨12275363894599586863⟩ = sampleNext := ⟨rfl, rfl, rfl⟩

/-- From `sampleSeed` the first round of `RandomPointInUnitSphere` is accepted. -/
theorem RandomPointInUnitSphere_sampleSeed :
    (RandomPointInUnitSphere 1 sampleSeed : Option (Point ℝ × CompileTimeRandom)) =
      some (samplePoint, sampleNext) := by
  rw [RandomPointInUnitSphere_succ, sampleSeed_draws.1, sampleSeed_draws.2.1,
    sampleSeed_draws.2.2]
  rw [if_neg]
  · rfl
  · simp only [LengthSquared, UINT64_MAX, sampleNext]
    norm_num

theorem Scatter_metal_eq (sqrt : F → F) (fuel : Nat) (rin : Ray F) (mat : Metal F)
    (point normal : Point F) (t : F) (rng : CompileTimeRandom) (attenuation : Colour F)
    (rscattered : Ray F) (p : Point F) (rng1 : CompileTimeRandom)
    (hp : RandomPointInUnitSphere fuel rng = some (p, rng1)) :
    Scatter sqrt fuel rin ⟨MaterialT.metal mat, point, normal, t⟩ rng attenuation rscattered =
      some { continues := decide
               (DotProduct (Ray.new sqrt point
                 (Reflect rin (Normalize sqrt normal) + mat.fuzz * p)).direction
                 (Normalize sqrt normal) > 0),
             rng := rng1, attenuation := mat.albedo,
             rscattered := Ray.new sqrt point
               (Reflect rin (Normalize sqrt normal) + mat.fuzz * p) } := by
  simp only [Scatter, Scatter.visit_metal, hp]

/-- C14: on a hit record whose material is Metal, from a generator state from which the
unit-sphere sample `p` is obtained, `Scatter` sets the attenuation to the albedo of the
metal, sets the outgoing ray to `Ray(hit point, Reflect(incoming, n) + fuzz * p)` with `n`
the normalised hit normal, leaves the generator as the sampling left it, and returns
`true` if and only if `dot(outgoing direction, n) > 0`. -/
theorem Scatter_metal (sqrt : F → F) (fuel : Nat) (rin : Ray F) (mat : Metal F)
    (point normal : Point F) (t : F) (rng : CompileTimeRandom) (attenuation : Colour F)
    (rscattered : Ray F) (p : Point F) (rng1 : CompileTimeRandom)
    (hp : RandomPointInUnitSphere fuel rng = some (p, rng1)) :
    ∃ res, Scatter sqrt fuel rin ⟨MaterialT.metal mat, point, normal, t⟩ rng attenuation
        rscattered = some res ∧
      res.attenuation = mat.albedo ∧
      res.rscattered =
        Ray.new sqrt point (Reflect rin (Normalize sqrt normal) + mat.fuzz * p) ∧
      res.rng = rng1 ∧
      (res.continues = true ↔
        DotProduct res.rscattered.direction (Normalize sqrt normal) > 0) := by
  refine ⟨_, Scatter_metal_eq sqrt fuel rin mat point normal t rng attenuation rscattered
    p rng1 hp, rfl, rfl, rfl, ?_⟩
  simp only [decide_eq_true_eq]

/-- C14 at a mirror of albedo `(4/5, 17/20, 22/25)` and fuzz 0 with normal `(0,0,2)`, hit
at `(0,0,-1)` by the ray along `(0,0,-1)`, with the generator at `sampleSeed`. -/
theorem Scatter_metal_witness :
    (RandomPointInUnitSphere 1 sampleSeed : Option (Point ℝ × CompileTimeRandom)) =
      some (samplePoint, sampleNext) ∧
    ∃ res, Scatter Real.sqrt 1 ⟨⟨0, 0, 0⟩, ⟨0, 0, -1⟩⟩
        ⟨MaterialT.metal ⟨⟨4/5, 17/20, 22/25⟩, 0⟩, ⟨0, 0, -1⟩, ⟨0, 0, 2⟩, 1⟩ sampleSeed
        ⟨0, 0, 0⟩ ⟨Point.zero, Point.zero⟩ = some res ∧
      res.attenuation = ⟨4/5, 17/20, 22/25⟩ ∧
      res.rscattered = Ray.new Real.sqrt ⟨0, 0, -1⟩
        (Reflect ⟨⟨0, 0, 0⟩, ⟨0, 0, -1⟩⟩ (Normalize Real.sqrt ⟨0, 0, 2⟩) + (0 : ℝ) * (samplePoint : Point ℝ)) ∧
      res.rng = sampleNext ∧
      (res.continues = true ↔
        DotProduct res.rscattered.direction (Normalize Real.sqrt ⟨0, 0, 2⟩) > 0) :=
  ⟨RandomPointInUnitSphere_sampleSeed,
    Scatter_metal Real.sqrt 1 ⟨⟨0, 0, 0⟩, ⟨0, 0, -1⟩⟩ ⟨⟨4/5, 17/20, 22/25⟩, 0⟩ ⟨0, 0, -1⟩
      ⟨0, 0, 2⟩ 1 sampleSeed ⟨0, 0, 0⟩ ⟨Point.zero, Point.zero⟩ samplePoint sampleNext
      RandomPointInUnitSphere_sampleSeed⟩

theorem add_ne_zero_of_unit_of_inside {n p : Point F} (hn : LengthSquared n = 1)
    (hp : LengthSquared p < 1) : n + p ≠ Point.zero := by
  intro h
  have hx := congrArg Point.x h
  have hy := congrArg Point.y h
  have hz := congrArg Point.z h
  simp only [Point.add_x, Point.add_y, Point.add_z, Point.zero_x, Point.zero_y,
    Point.zero_z] at hx hy hz
  have hpx : p.x = -n.x := by linarith
  have hpy : p.y = -n.y := by linarith
  have hpz : p.z = -n.z := by linarith
  simp only [LengthSquared] at hn hp
  rw [hpx, hpy, hpz] at hp
  linarith

/-- C15: on a hit record whose material is Lambertian with a non-zero normal, from a
generator state from which `RandomPointInUnitSphere` returns a point `p`: `p` has squared
length strictly below 1; `Scatter` returns `true` with the attenuation equal to the
albedo and the generator as the sampling left it; the outgoing ray starts at the hit point
with direction `Normalize(n + p)`, `n` the normalised hit normal; `n + p` is not zero, and
the outgoing direction has length exactly 1. -/
theorem Scatter_lambertian (sqrt : F → F) (hs : IsSqrt sqrt) (fuel : Nat) (rin : Ray F)
    (mat : Lambertian F) (point normal : Point F) (t : F) (rng : CompileTimeRandom)
    (attenuation : Colour F) (rscattered : Ray F) (p : Point F) (rng1 : CompileTimeRandom)
    (hN : normal ≠ Point.zero)
    (hp : RandomPointInUnitSphere fuel rng = some (p, rng1)) :
    LengthSquared p < 1 ∧
    Scatter sqrt fuel rin ⟨MaterialT.lambertian mat, point, normal, t⟩ rng attenuation
        rscattered =
      some { continues := true, rng := rng1, attenuation := mat.albedo,
             rscattered := Ray.new sqrt point (Normalize sqrt normal + p) } ∧
    (Ray.new sqrt point (Normalize sqrt normal + p)).origin = point ∧
    (Ray.new sqrt point (Normalize sqrt normal + p)).direction =
      Normalize sqrt (Normalize sqrt normal + p) ∧
    Normalize sqrt normal + p ≠ Point.zero ∧
    Length sqrt (Ray.new sqrt point (Normalize sqrt normal + p)).direction = 1 := by
  have hin := RandomPointInUnitSphere_inside fuel rng p rng1 hp
  have hne := add_ne_zero_of_unit_of_inside (LengthSquared_Normalize hs hN) hin
  refine ⟨hin, ?_, rfl, rfl, hne, ?_⟩
  · simp only [Scatter, Scatter.visit_lambertian, hp]
  · show Length sqrt (Normalize sqrt (Normalize sqrt normal + p)) = 1
    unfold Length
    rw [LengthSquared_Normalize hs hne]
    exact hs.one

/-- C15 at a Lambertian surface of albedo `(1/2, 1/2, 1/2)` with normal `(0,0,2)`, hit at
`(0,0,-1)`, with the generator at `sampleSeed`. -/
theorem Scatter_lambertian_witness :
    IsSqrt Real.sqrt ∧ (⟨0, 0, 2⟩ : Point ℝ) ≠ Point.zero ∧
    (RandomPointInUnitSphere 1 sampleSeed : Option (Point ℝ × CompileTimeRandom)) =
      some (samplePoint, sampleNext) ∧
    Scatter Real.sqrt 1 ⟨⟨0, 0, 0⟩, ⟨0, 0, -1⟩⟩
        ⟨MaterialT.lambertian ⟨⟨1/2, 1/2, 1/2⟩⟩, ⟨0, 0, -1⟩, ⟨0, 0, 2⟩, 1⟩ sampleSeed
        ⟨0, 0, 0⟩ ⟨Point.zero, Point.zero⟩ =
      some { continues := true, rng := sampleNext, attenuation := ⟨1/2, 1/2, 1/2⟩,
             rscattered := Ray.new Real.sqrt ⟨0, 0, -1⟩
               (Normalize Real.sqrt ⟨0, 0, 2⟩ + samplePoint) } ∧
    Length Real.sqrt (Ray.new Real.sqrt ⟨0, 0, -1⟩
      (Normalize Real.sqrt ⟨0, 0, 2⟩ + samplePoint)).direction = 1 :=
  ⟨isSqrt_real, by simp [Point.zero], RandomPointInUnitSphere_sampleSeed,
    (Scatter_lambertian Real.sqrt isSqrt_real 1 ⟨⟨0, 0, 0⟩, ⟨0, 0, -1⟩⟩ ⟨⟨1/2, 1/2, 1/2⟩⟩
      ⟨0, 0, -1⟩ ⟨0, 0, 2⟩ 1 sampleSeed ⟨0, 0, 0⟩ ⟨Point.zero, Point.zero⟩ samplePoint
      sampleNext (by simp [Point.zero]) RandomPointInUnitSphere_sampleSeed).2.1,
    (Scatter_lambertian Real.sqrt isSqrt_real 1 ⟨⟨0, 0, 0⟩, ⟨0, 0, -1⟩⟩ ⟨⟨1/2, 1/2, 1/2⟩⟩
      ⟨0, 0, -1⟩ ⟨0, 0, 2⟩ 1 sampleSeed ⟨0, 0, 0⟩ ⟨Point.zero, Point.zero⟩ samplePoint
      sampleNext (by simp [Point.zero]) RandomPointInUnitSphere_sampleSeed).2.2.2.2.2⟩

/-! ## Scattering: total internal reflection and the reflect probability -/

theorem allOnesSeed_next : allOnesSeed.next = ⟨UINT64_MAX⟩ := rfl

theorem tir_setup :
    Scatter.dielectric_setup Real.sqrt (tirRay : Ray ℝ) tirRecord ⟨3/2⟩ =
      (Point.zero - ⟨0, 0, 1⟩, 3/2, 3/2 * (3/5) / 1) := by
  have hL : Length Real.sqrt (tirRay : Ray ℝ).direction = 1 := by
    apply isSqrt_real.eq_of_mul_self zero_le_one
    simp only [LengthSquared, tirRay]
    norm_num
  have hdot : DotProduct (tirRay : Ray ℝ).direction (tirRecord : HitRecord ℝ).normal = 3/5 := by
    simp [DotProduct, tirRay, tirRecord]
  rw [Scatter.dielectric_setup, hdot, hL, if_pos (by norm_num)]
  rfl

/-- For `tirRay` at `tirRecord` no refracted direction exists: `Refract` returns nothing,
and `visit_dielectric` leaves `refracted` at `Point{}` and sets `reflect_prob` to 1. -/
theorem tir_refract :
    Refract Real.sqrt (tirRay : Ray ℝ) (Point.zero - ⟨0, 0, 1⟩) (3/2) = none ∧
    Scatter.dielectric_refract Real.sqrt (tirRay : Ray ℝ) tirRecord ⟨3/2⟩ = (Point.zero, 1) := by
  have h : Refract Real.sqrt (tirRay : Ray ℝ) (Point.zero - ⟨0, 0, 1⟩) (3/2) = none := by
    rw [Refract_eq, if_neg]
    simp [DotProduct, tirRay]
    norm_num
  refine ⟨h, ?_⟩
  rw [Scatter.dielectric_refract, tir_setup]
  simp only [h]

/-- C13 fails on the code at the generator state `allOnesSeed`: `tirRay` meets `tirRecord`
in total internal reflection, the draw is `UINT64_MAX`, `random_float` returns exactly 1,
the test `1 < reflect_prob = 1` fails, and `Scatter` sends out `Ray(point, Point{})`, whose
direction is built from the zero vector and not from the mirror reflection
`(4/5, 0, -3/5)`. -/
theorem Scatter_total_internal_reflection_all_ones :
    Refract Real.sqrt (tirRay : Ray ℝ) (Point.zero - ⟨0, 0, 1⟩) (3/2) = none ∧
    Scatter Real.sqrt 0 (tirRay : Ray ℝ) tirRecord allOnesSeed ⟨0, 0, 0⟩
        ⟨Point.zero, Point.zero⟩ =
      some { continues := true, rng := ⟨UINT64_MAX⟩, attenuation := ⟨1, 1, 1⟩,
             rscattered := Ray.new Real.sqrt ⟨0, 0, 0⟩ Point.zero } ∧
    (Ray.new Real.sqrt ⟨0, 0, 0⟩ Point.zero : Ray ℝ).direction = Point.zero ∧
    Normalize Real.sqrt (Reflect (tirRay : Ray ℝ) (tirRecord : HitRecord ℝ).normal) =
      ⟨4/5, 0, -3/5⟩ ∧
    (Ray.new Real.sqrt ⟨0, 0, 0⟩ Point.zero : Ray ℝ) ≠
      Ray.new Real.sqrt ⟨0, 0, 0⟩ (Reflect (tirRay : Ray ℝ) (tirRecord : HitRecord ℝ).normal) := by
  have hrefl : Normalize Real.sqrt (Reflect (tirRay : Ray ℝ) (tirRecord : HitRecord ℝ).normal) =
      ⟨4/5, 0, -3/5⟩ := by
    have hR : Reflect (tirRay : Ray ℝ) (tirRecord : HitRecord ℝ).normal = ⟨4/5, 0, -3/5⟩ := by
      simp [Reflect, DotProduct, tirRay, tirRecord, Point.ext_iff]
      norm_num
    have hL : Length Real.sqrt (⟨4/5, 0, -3/5⟩ : Point ℝ) = 1 := by
      apply isSqrt_real.eq_of_mul_self zero_le_one
      simp only [LengthSquared]
      norm_num
    rw [hR, Normalize, hL]
    simp [Point.ext_iff]
  have hzero : (Ray.new Real.sqrt ⟨0, 0, 0⟩ Point.zero : Ray ℝ).direction = Point.zero := by
    simp [Ray.new, Normalize, Point.ext_iff, Point.zero]
  refine ⟨tir_refract.1, ?_, hzero, hrefl, ?_⟩
  · show Scatter Real.sqrt 0 (tirRay : Ray ℝ) ⟨MaterialT.dielectric ⟨3/2⟩, ⟨0, 0, 0⟩,
      ⟨0, 0, 1⟩, 1⟩ allOnesSeed ⟨0, 0, 0⟩ ⟨Point.zero, Point.zero⟩ = _
    rw [Scatter_dielectric_eq, allOnesSeed_next]
    have h2 := tir_refract.2
    rw [show (tirRecord : HitRecord ℝ) = ⟨MaterialT.dielectric ⟨3/2⟩, ⟨0, 0, 0⟩,
      ⟨0, 0, 1⟩, 1⟩ from rfl] at h2
    rw [h2]
    have hne : ((UINT64_MAX : ℕ) : ℝ) ≠ 0 := by
      simp [UINT64_MAX]
    simp only [div_self hne, lt_irrefl, if_false]
  · intro h
    have hd := congrArg Ray.direction h
    rw [hzero] at hd
    have : (Ray.new Real.sqrt ⟨0, 0, 0⟩
        (Reflect (tirRay : Ray ℝ) (tirRecord : HitRecord ℝ).normal)).direction =
        ⟨4/5, 0, -3/5⟩ := hrefl
    rw [this] at hd
    have hx := congrArg Point.x hd
    simp only [Point.zero] at hx
    norm_num at hx

/-- In total internal reflection every draw other than `UINT64_MAX` gives the reflected
ray: with a state of 64 bits whose next draw is below `UINT64_MAX`, `random_float` is
below `reflect_prob = 1` and `Scatter` sends out `Ray(point, Reflect(rin, normal))`. -/
theorem Scatter_total_internal_reflection_reflects (sqrt : F → F) (fuel : Nat) (rin : Ray F)
    (mat : Dielectric F) (point normal : Point F) (t : F) (rng : CompileTimeRandom)
    (attenuation : Colour F) (rscattered : Ray F)
    (htir : Refract sqrt rin
      (Scatter.dielectric_setup sqrt rin ⟨MaterialT.dielectric mat, point, normal, t⟩ mat).1
      (Scatter.dielectric_setup sqrt rin ⟨MaterialT.dielectric mat, point, normal, t⟩ mat).2.1
        = none)
    (hdraw : rng.next.state < UINT64_MAX) :
    Scatter sqrt fuel rin ⟨MaterialT.dielectric mat, point, normal, t⟩ rng attenuation
        rscattered =
      some { continues := true, rng := rng.next, attenuation := ⟨1, 1, 1⟩,
             rscattered := Ray.new sqrt point (Reflect rin normal) } := by
  have hprob : (Scatter.dielectric_refract sqrt rin
      ⟨MaterialT.dielectric mat, point, normal, t⟩ mat).2 = 1 := by
    rw [Scatter.dielectric_refract]
    simp only [htir]
  have hpos : (0 : F) < (UINT64_MAX : F) := by
    have : 0 < UINT64_MAX := by
      unfold UINT64_MAX
      norm_num
    exact_mod_cast this
  have hlt : (rng.next.state : F) / (UINT64_MAX : F) < 1 := by
    rw [div_lt_one hpos]
    exact_mod_cast hdraw
  rw [Scatter_dielectric_eq, hprob, if_pos hlt]

theorem DotProduct_sq_le (a b : Point F) :
    DotProduct a b ^ 2 ≤ LengthSquared a * LengthSquared b := by
  have h := LengthSquared_CrossProduct a b
  have h0 := LengthSquared_nonneg (CrossProduct a b)
  linarith

theorem DotProduct_bounds_of_unit {a b : Point F} (ha : LengthSquared a = 1)
    (hb : LengthSquared b = 1) : -1 ≤ DotProduct a b ∧ DotProduct a b ≤ 1 := by
  have h := DotProduct_sq_le a b
  rw [ha, hb] at h
  constructor <;> nlinarith

theorem Schlick_eq (cosine refractiveIndex : F) :
    Schlick cosine refractiveIndex =
      ((1 - refractiveIndex) / (1 + refractiveIndex)) ^ 2 +
        (1 - ((1 - refractiveIndex) / (1 + refractiveIndex)) ^ 2) * (1 - cosine) ^ 5 := rfl

/-- For a refractive index `n > 0`, `r0 = ((1 - n) / (1 + n))^2` is at most 1. -/
theorem r0_le_one {n : F} (hn : 0 < n) : ((1 - n) / (1 + n)) ^ 2 ≤ 1 := by
  have h1 : (0 : F) < 1 + n := by linarith
  rw [div_pow, div_le_one (pow_pos h1 2)]
  nlinarith

/-- C19 fails as stated: `axisRay` leaves glass of index `3/2` along the normal, so
`dot(d, N) = 1 > 0`, both vectors are unit vectors and refraction succeeds; the claimed
probability is `r0 + (1 - r0) * (1 - 1)^5 = r0 = 1/25`, but `Scatter` uses `1/100`, which
is below `r0`. -/
theorem Scatter_reflect_prob_exiting_below_r0 :
    Length Real.sqrt (axisRay : Ray ℝ).direction = 1 ∧
    Length Real.sqrt (tirRecord : HitRecord ℝ).normal = 1 ∧
    DotProduct (axisRay : Ray ℝ).direction (tirRecord : HitRecord ℝ).normal = 1 ∧
    Refract Real.sqrt (axisRay : Ray ℝ)
        (Scatter.dielectric_setup Real.sqrt (axisRay : Ray ℝ) tirRecord ⟨3/2⟩).1
        (Scatter.dielectric_setup Real.sqrt (axisRay : Ray ℝ) tirRecord ⟨3/2⟩).2.1 =
      some ⟨0, 0, 1⟩ ∧
    (Scatter.dielectric_refract Real.sqrt (axisRay : Ray ℝ) tirRecord ⟨3/2⟩).2 = 1/100 ∧
    ((1 - 3/2) / (1 + 3/2) : ℝ) ^ 2 + (1 - ((1 - 3/2) / (1 + 3/2) : ℝ) ^ 2) *
      (1 - |DotProduct (axisRay : Ray ℝ).direction (tirRecord : HitRecord ℝ).normal|) ^ 5
      = 1/25 ∧
    ¬ (((1 - 3/2) / (1 + 3/2) : ℝ) ^ 2 ≤
      (Scatter.dielectric_refract Real.sqrt (axisRay : Ray ℝ) tirRecord ⟨3/2⟩).2) := by
  have hL : Length Real.sqrt (axisRay : Ray ℝ).direction = 1 := by
    simp [Length, LengthSquared, axisRay]
  have hLN : Length Real.sqrt (tirRecord : HitRecord ℝ).normal = 1 := by
    simp [Length, LengthSquared, tirRecord]
  have hdot : DotProduct (axisRay : Ray ℝ).direction (tirRecord : HitRecord ℝ).normal = 1 := by
    simp [DotProduct, axisRay, tirRecord]
  have hsetup : Scatter.dielectric_setup Real.sqrt (axisRay : Ray ℝ) tirRecord ⟨3/2⟩ =
      (Point.zero - ⟨0, 0, 1⟩, 3/2, 3/2 * 1 / 1) := by
    rw [Scatter.dielectric_setup, hdot, hL, if_pos zero_lt_one]
    rfl
  have href : Refract Real.sqrt (axisRay : Ray ℝ) (Point.zero - ⟨0, 0, 1⟩) (3/2) =
      some ⟨0, 0, 1⟩ := by
    have hd : DotProduct (axisRay : Ray ℝ).direction (Point.zero - ⟨0, 0, 1⟩) = -1 := by
      simp [DotProduct, axisRay]
    rw [Refract_eq, hd]
    have h1 : (1 : ℝ) - 3/2 * (3/2) * (1 - -1 * -1) = 1 := by norm_num
    rw [h1, if_pos zero_lt_one, Real.sqrt_one]
    simp [axisRay, Point.ext_iff]
  have hprob : (Scatter.dielectric_refract Real.sqrt (axisRay : Ray ℝ) tirRecord ⟨3/2⟩).2 =
      1/100 := by
    rw [Scatter.dielectric_refract, hsetup]
    simp only [href, Schlick_eq]
    norm_num
  refine ⟨hL, hLN, hdot, ?_, hprob, ?_, ?_⟩
  · rw [hsetup]
    exact href
  · rw [hdot]
    norm_num
  · rw [hprob]
    norm_num

/-- C19, as the code has it: for a Dielectric hit with unit incoming direction `d`, unit
hit normal `N` and refractive index `n > 0` for which refraction succeeds, the reflect
probability `Scatter` compares the draw with is, in the entering case `dot(d,N) <= 0`,
`r0 + (1 - r0) * (1 - cos)^5` with `r0 = ((1 - n)/(1 + n))^2` and `cos = |dot(d,N)|`, and
lies in `[r0, 1]`; in the exiting case `dot(d,N) > 0` it is
`r0 + (1 - r0) * (1 - n * dot(d,N))^5`, the cosine being multiplied by the index. -/
theorem Scatter_reflect_prob (sqrt : F → F) (hs : IsSqrt sqrt) (fuel : Nat) (rin : Ray F)
    (mat : Dielectric F) (point normal : Point F) (t : F) (rng : CompileTimeRandom)
    (attenuation : Colour F) (rscattered : Ray F)
    (hd : Length sqrt rin.direction = 1) (hN : Length sqrt normal = 1)
    (hn : 0 < mat.refractiveIndex)
    (href : ∃ r, Refract sqrt rin
      (Scatter.dielectric_setup sqrt rin ⟨MaterialT.dielectric mat, point, normal, t⟩ mat).1
      (Scatter.dielectric_setup sqrt rin ⟨MaterialT.dielectric mat, point, normal, t⟩ mat).2.1
        = some r) :
    (∃ res, Scatter sqrt fuel rin ⟨MaterialT.dielectric mat, point, normal, t⟩ rng
        attenuation rscattered = some res ∧
      (rng.random_float.1 <
          (Scatter.dielectric_refract sqrt rin
            ⟨MaterialT.dielectric mat, point, normal, t⟩ mat).2 →
        res.rscattered = Ray.new sqrt point (Reflect rin normal)) ∧
      (¬ rng.random_float.1 <
          (Scatter.dielectric_refract sqrt rin
            ⟨MaterialT.dielectric mat, point, normal, t⟩ mat).2 →
        res.rscattered = Ray.new sqrt point (Scatter.dielectric_refract sqrt rin
          ⟨MaterialT.dielectric mat, point, normal, t⟩ mat).1)) ∧
    (DotProduct rin.direction normal ≤ 0 →
      (Scatter.dielectric_refract sqrt rin
          ⟨MaterialT.dielectric mat, point, normal, t⟩ mat).2 =
        ((1 - mat.refractiveIndex) / (1 + mat.refractiveIndex)) ^ 2 +
          (1 - ((1 - mat.refractiveIndex) / (1 + mat.refractiveIndex)) ^ 2) *
            (1 - |DotProduct rin.direction normal|) ^ 5 ∧
      ((1 - mat.refractiveIndex) / (1 + mat.refractiveIndex)) ^ 2 ≤
        (Scatter.dielectric_refract sqrt rin
          ⟨MaterialT.dielectric mat, point, normal, t⟩ mat).2 ∧
      (Scatter.dielectric_refract sqrt rin
          ⟨MaterialT.dielectric mat, point, normal, t⟩ mat).2 ≤ 1) ∧
    (DotProduct rin.direction normal > 0 →
      (Scatter.dielectric_refract sqrt rin
          ⟨MaterialT.dielectric mat, point, normal, t⟩ mat).2 =
        ((1 - mat.refractiveIndex) / (1 + mat.refractiveIndex)) ^ 2 +
          (1 - ((1 - mat.refractiveIndex) / (1 + mat.refractiveIndex)) ^ 2) *
            (1 - mat.refractiveIndex * DotProduct rin.direction normal) ^ 5) := by
  obtain ⟨r, hr⟩ := href
  have hprob : (Scatter.dielectric_refract sqrt rin
      ⟨MaterialT.dielectric mat, point, normal, t⟩ mat).2 =
      Schlick (Scatter.dielectric_setup sqrt rin
        ⟨MaterialT.dielectric mat, point, normal, t⟩ mat).2.2 mat.refractiveIndex := by
    rw [Scatter.dielectric_refract]
    simp only [hr]
  refine ⟨⟨_, Scatter_dielectric_eq sqrt fuel rin mat point normal t rng attenuation
    rscattered, ?_, ?_⟩, ?_, ?_⟩
  · intro h
    exact if_pos h
  · intro h
    exact if_neg h
  · intro hle
    have hcos : (Scatter.dielectric_setup sqrt rin
        ⟨MaterialT.dielectric mat, point, normal, t⟩ mat).2.2 =
        |DotProduct rin.direction normal| := by
      rw [Scatter.dielectric_setup, if_neg (not_lt.2 hle), hd, abs_of_nonpos hle]
      simp
    rw [hprob, hcos, Schlick_eq]
    have hb := DotProduct_bounds_of_unit (LengthSquared_eq_one_of_Length hs hd)
      (LengthSquared_eq_one_of_Length hs hN)
    have habs0 : 0 ≤ |DotProduct rin.direction normal| := abs_nonneg _
    have habs1 : |DotProduct rin.direction normal| ≤ 1 := abs_le.2 hb
    have hx0 : 0 ≤ (1 - |DotProduct rin.direction normal|) ^ 5 :=
      pow_nonneg (by linarith) 5
    have hx1 : (1 - |DotProduct rin.direction normal|) ^ 5 ≤ 1 :=
      pow_le_one₀ (by linarith) (by linarith)
    have hr0 := r0_le_one hn
    refine ⟨rfl, ?_, ?_⟩
    · nlinarith [mul_nonneg (sub_nonneg.2 hr0) hx0]
    · nlinarith [mul_nonneg (sub_nonneg.2 hr0) (sub_nonneg.2 hx1)]
  · intro hgt
    have hcos : (Scatter.dielectric_setup sqrt rin
        ⟨MaterialT.dielectric mat, point, normal, t⟩ mat).2.2 =
        mat.refractiveIndex * DotProduct rin.direction normal := by
      rw [Scatter.dielectric_setup, if_pos hgt, hd]
      simp
    rw [hprob, hcos, Schlick_eq]

theorem entering_refract_succeeds :
    ∃ r, Refract Real.sqrt (⟨⟨0, 0, 0⟩, ⟨0, 0, -1⟩⟩ : Ray ℝ)
      (Scatter.dielectric_setup Real.sqrt ⟨⟨0, 0, 0⟩, ⟨0, 0, -1⟩⟩
        ⟨MaterialT.dielectric ⟨3/2⟩, ⟨0, 0, -1⟩, ⟨0, 0, 1⟩, 1⟩ ⟨3/2⟩).1
      (Scatter.dielectric_setup Real.sqrt ⟨⟨0, 0, 0⟩, ⟨0, 0, -1⟩⟩
        ⟨MaterialT.dielectric ⟨3/2⟩, ⟨0, 0, -1⟩, ⟨0, 0, 1⟩, 1⟩ ⟨3/2⟩).2.1 = some r := by
  have hdot : DotProduct (⟨0, 0, -1⟩ : Point ℝ) ⟨0, 0, 1⟩ = -1 := by simp [DotProduct]
  have hsetup : (Scatter.dielectric_setup Real.sqrt (⟨⟨0, 0, 0⟩, ⟨0, 0, -1⟩⟩ : Ray ℝ)
      ⟨MaterialT.dielectric ⟨3/2⟩, ⟨0, 0, -1⟩, ⟨0, 0, 1⟩, 1⟩ ⟨3/2⟩) =
      (⟨0, 0, 1⟩, 1 / (3/2), - -1 / Length Real.sqrt ⟨0, 0, -1⟩) := by
    simp only [Scatter.dielectric_setup, hdot]
    rw [if_neg (by norm_num)]
  rw [hsetup, Refract_eq]
  simp only [hdot]
  rw [if_pos (by norm_num)]
  exact ⟨_, rfl⟩

/-- C19 as amended, for the ray along `(0,0,-1)` entering glass of index `3/2` through a
surface of normal `(0,0,1)`: the reflect probability lies between `r0` and 1. -/
theorem Scatter_reflect_prob_witness :
    IsSqrt Real.sqrt ∧
    Length Real.sqrt (⟨0, 0, -1⟩ : Point ℝ) = 1 ∧ Length Real.sqrt (⟨0, 0, 1⟩ : Point ℝ) = 1 ∧
    (0 : ℝ) < 3/2 ∧
    DotProduct (⟨0, 0, -1⟩ : Point ℝ) ⟨0, 0, 1⟩ ≤ 0 ∧
    ((1 - 3/2) / (1 + 3/2) : ℝ) ^ 2 ≤
      (Scatter.dielectric_refract Real.sqrt (⟨⟨0, 0, 0⟩, ⟨0, 0, -1⟩⟩ : Ray ℝ)
        ⟨MaterialT.dielectric ⟨3/2⟩, ⟨0, 0, -1⟩, ⟨0, 0, 1⟩, 1⟩ ⟨3/2⟩).2 ∧
    (Scatter.dielectric_refract Real.sqrt (⟨⟨0, 0, 0⟩, ⟨0, 0, -1⟩⟩ : Ray ℝ)
        ⟨MaterialT.dielectric ⟨3/2⟩, ⟨0, 0, -1⟩, ⟨0, 0, 1⟩, 1⟩ ⟨3/2⟩).2 ≤ 1 :=
  ⟨isSqrt_real, by simp [Length, LengthSquared], by simp [Length, LengthSquared],
    by norm_num, by simp [DotProduct],
    ((Scatter_reflect_prob Real.sqrt isSqrt_real 0 ⟨⟨0, 0, 0⟩, ⟨0, 0, -1⟩⟩ ⟨3/2⟩ ⟨0, 0, -1⟩
      ⟨0, 0, 1⟩ 1 sampleSeed ⟨0, 0, 0⟩ ⟨Point.zero, Point.zero⟩
      (by simp [Length, LengthSquared]) (by simp [Length, LengthSquared]) (by norm_num)
      entering_refract_succeeds).2.1 (by simp [DotProduct])).2⟩

/-! ## The integrator: a ray that misses the scene -/

theorem GetColour.texel_eq (sqrt : F → F) (m : Libm F) (skybox : Skybox F) (r : Ray F) :
    GetColour.texel sqrt m skybox r =
      skybox.texture
        (m.toInt (GetColour.v sqrt m r * (GetColour.extentMinusOne skybox.height : F)))
        (m.toInt (GetColour.u sqrt m r * (GetColour.extentMinusOne skybox.width : F))) := rfl

theorem GetColour.extentMinusOne_eq {extent : Nat} (h1 : 1 ≤ extent) (h2 : extent < 2 ^ 64) :
    GetColour.extentMinusOne extent = extent - 1 := by
  unfold GetColour.extentMinusOne
  norm_num at h2 ⊢
  omega

theorem GetColour.body_miss (sqrt : F → F) (m : Libm F) (fuel : Nat) (environs : Environs F)
    (skybox : Skybox F) (r : Ray F) (st : GetColour.State F)
    (hmiss : HitEnvirons sqrt environs st.lray GetColour.SHADOW_ACHE GetColour.HUGE_T = none) :
    GetColour.body sqrt m fuel environs skybox r st =
      some (false, { attenuation := st.attenuation,
                     final_colour := st.final_colour +
                       st.attenuation * GetColour.texel sqrt m skybox r,
                     lray := st.lray, rng := st.rng }) := by
  simp only [GetColour.body, hmiss]

theorem GetColour.loop_break (sqrt : F → F) (m : Libm F) (fuel : Nat) (environs : Environs F)
    (skybox : Skybox F) (r : Ray F) (n : Nat) (st st1 : GetColour.State F)
    (h : GetColour.body sqrt m fuel environs skybox r st = some (false, st1)) :
    GetColour.loop sqrt m fuel environs skybox r (n + 1) st = some st1 := by
  simp only [GetColour.loop, h]

theorem GetColour.loop_continue (sqrt : F → F) (m : Libm F) (fuel : Nat)
    (environs : Environs F) (skybox : Skybox F) (r : Ray F) (n : Nat)
    (st st1 : GetColour.State F)
    (h : GetColour.body sqrt m fuel environs skybox r st = some (true, st1)) :
    GetColour.loop sqrt m fuel environs skybox r (n + 1) st =
      GetColour.loop sqrt m fuel environs skybox r n st1 := by
  simp only [GetColour.loop, h]

theorem Colour.black_add_white_mul (c : Colour F) :
    (⟨0, 0, 0⟩ : Colour F) + (⟨1, 1, 1⟩ : Colour F) * c = c := by
  ext <;> simp

/-- A starting ray that misses the scene: `GetColour` returns the texel read for that ray
and leaves the generator as it was. -/
theorem GetColour_of_miss (sqrt : F → F) (m : Libm F) (fuel : Nat) (environs : Environs F)
    (skybox : Skybox F) (r : Ray F) (rng : CompileTimeRandom)
    (hmiss : HitEnvirons sqrt environs r GetColour.SHADOW_ACHE GetColour.HUGE_T = none) :
    GetColour sqrt m fuel environs skybox r rng =
      some (GetColour.texel sqrt m skybox r, rng) := by
  have hb := GetColour.body_miss sqrt m fuel environs skybox r (GetColour.init r rng) hmiss
  show (GetColour.loop sqrt m fuel environs skybox r (49 + 1) (GetColour.init r rng)).map _ = _
  rw [GetColour.loop_break sqrt m fuel environs skybox r 49 _ _ hb]
  simp only [Option.map_some', GetColour.init, Colour.black_add_white_mul]

theorem toInt_half_99 {toInt : F → Int} (ht : IsTrunc toInt) : toInt (1 / 2 * (99 : Nat)) = 49 := by
  obtain ⟨h1, h2⟩ := (ht (1 / 2 * (99 : Nat))).1 (by positivity)
  have h3 : ((toInt (1 / 2 * (99 : Nat)) : Int) : F) < ((50 : Int) : F) := by
    push_cast at h1 ⊢
    linarith
  have h4 : ((48 : Int) : F) < ((toInt (1 / 2 * (99 : Nat)) : Int) : F) := by
    push_cast at h2 ⊢
    linarith
  have h5 := Int.cast_lt.1 h3
  have h6 := Int.cast_lt.1 h4
  omega

theorem toInt_half_49 {toInt : F → Int} (ht : IsTrunc toInt) : toInt (1 / 2 * (49 : Nat)) = 24 := by
  obtain ⟨h1, h2⟩ := (ht (1 / 2 * (49 : Nat))).1 (by positivity)
  have h3 : ((toInt (1 / 2 * (49 : Nat)) : Int) : F) < ((25 : Int) : F) := by
    push_cast at h1 ⊢
    linarith
  have h4 : ((23 : Int) : F) < ((toInt (1 / 2 * (49 : Nat)) : Int) : F) := by
    push_cast at h2 ⊢
    linarith
  have h5 := Int.cast_lt.1 h3
  have h6 := Int.cast_lt.1 h4
  omega

/-- C18: for a scene that the ray misses and a skybox of width `W` and height `H` (both at
least 1), `GetColour` for a starting ray with direction exactly `(1,0,0)` computes
`u = 1/2` and `v = 1/2`, returns exactly the texel at column `toInt(1/2 * (W-1))` and row
`toInt(1/2 * (H-1))`, which is column 49, row 24 for the 100x50 grid, and leaves the
generator state unchanged.  Of the library it uses `atan2(0,1) = 0` and `asin(0) = 0`. -/
theorem GetColour_miss_along_x (sqrt : F → F) (hs : IsSqrt sqrt) (m : Libm F) (fuel : Nat)
    (environs : Environs F) (skybox : Skybox F) (r : Ray F) (rng : CompileTimeRandom)
    (hdir : r.direction = ⟨1, 0, 0⟩)
    (hmiss : HitEnvirons sqrt environs r GetColour.SHADOW_ACHE GetColour.HUGE_T = none)
    (hatan : m.atan2 0 1 = 0) (hasin : m.asin 0 = 0)
    (hW : 1 ≤ skybox.width ∧ skybox.width < 2 ^ 64)
    (hH : 1 ≤ skybox.height ∧ skybox.height < 2 ^ 64) :
    GetColour.u sqrt m r = 1 / 2 ∧ GetColour.v sqrt m r = 1 / 2 ∧
    GetColour sqrt m fuel environs skybox r rng =
      some (skybox.texture (m.toInt (1 / 2 * ((skybox.height - 1 : Nat) : F)))
        (m.toInt (1 / 2 * ((skybox.width - 1 : Nat) : F))), rng) ∧
    (IsTrunc m.toInt → skybox.width = 100 → skybox.height = 50 →
      GetColour sqrt m fuel environs skybox r rng = some (skybox.texture 24 49, rng)) := by
  have hnorm : Normalize sqrt r.direction = ⟨1, 0, 0⟩ := by
    have hL : Length sqrt r.direction = 1 := by
      apply hs.eq_of_mul_self zero_le_one
      rw [hdir]
      simp [LengthSquared]
    rw [Normalize, hL, hdir]
    ext <;> simp
  have hu : GetColour.u sqrt m r = 1 / 2 := by
    rw [GetColour.u, hnorm]
    simp [hatan]
  have hv : GetColour.v sqrt m r = 1 / 2 := by
    rw [GetColour.v, hnorm]
    simp [hasin]
  have hget : GetColour sqrt m fuel environs skybox r rng =
      some (skybox.texture (m.toInt (1 / 2 * ((skybox.height - 1 : Nat) : F)))
        (m.toInt (1 / 2 * ((skybox.width - 1 : Nat) : F))), rng) := by
    rw [GetColour_of_miss sqrt m fuel environs skybox r rng hmiss, GetColour.texel_eq, hu, hv,
      GetColour.extentMinusOne_eq hW.1 hW.2, GetColour.extentMinusOne_eq hH.1 hH.2]
  refine ⟨hu, hv, hget, ?_⟩
  intro ht h100 h50
  rw [hget, h100, h50]
  have e1 : ((100 - 1 : Nat) : F) = ((99 : Nat) : F) := by norm_num
  have e2 : ((50 - 1 : Nat) : F) = ((49 : Nat) : F) := by norm_num
  rw [e1, e2, toInt_half_99 ht, toInt_half_49 ht]

theorem isTrunc_real : IsTrunc (fun x : ℝ => if 0 ≤ x then ⌊x⌋ else ⌈x⌉) := by
  intro x
  constructor
  · intro h0
    simp only [if_pos h0]
    exact ⟨Int.floor_le x, Int.lt_floor_add_one x⟩
  · intro h0
    by_cases h : 0 ≤ x
    · have hx : x = 0 := le_antisymm h0 h
      simp [hx]
    · simp only [if_neg h]
      have := Int.ceil_lt_add_one x
      exact ⟨Int.le_ceil x, by linarith⟩

theorem arg_one_zero : Complex.arg ⟨1, 0⟩ = 0 := by
  have h : (⟨1, 0⟩ : ℂ) = 1 := rfl
  rw [h, Complex.arg_one]

/-- C18 over the reals, with `atan2(z, x)` the argument of `x + z i`, `asin` the arcsine,
`pi` the number pi and the rounding towards zero: on the empty scene and the 100x50 grid
whose texel at row `y`, column `x` is the colour `(x, y, 0)`, the ray along `(1,0,0)`
returns the texel of column 49 and row 24. -/
theorem GetColour_miss_along_x_witness :
    GetColour Real.sqrt
        ⟨fun z x => Complex.arg ⟨x, z⟩, Real.arcsin, Real.pi,
          fun x => if 0 ≤ x then ⌊x⌋ else ⌈x⌉⟩
        0 ⟨[]⟩ ⟨100, 50, fun y x => ⟨(x : ℝ), (y : ℝ), 0⟩⟩ ⟨⟨0, 0, 0⟩, ⟨1, 0, 0⟩⟩ sampleSeed =
      some (⟨49, 24, 0⟩, sampleSeed) := by
  have T := (GetColour_miss_along_x Real.sqrt isSqrt_real
    ⟨fun z x => Complex.arg ⟨x, z⟩, Real.arcsin, Real.pi,
      fun x => if 0 ≤ x then ⌊x⌋ else ⌈x⌉⟩
    0 ⟨[]⟩ ⟨100, 50, fun y x => ⟨(x : ℝ), (y : ℝ), 0⟩⟩ ⟨⟨0, 0, 0⟩, ⟨1, 0, 0⟩⟩ sampleSeed
    rfl rfl arg_one_zero Real.arcsin_zero ⟨by norm_num, by norm_num⟩
    ⟨by norm_num, by norm_num⟩).2.2.2 isTrunc_real rfl rfl
  rw [T]
  norm_num

/-! ## The integrator: the depth limit -/

theorem GetColour.body_hit_continue (sqrt : F → F) (m : Libm F) (fuel : Nat)
    (environs : Environs F) (skybox : Skybox F) (r : Ray F) (st : GetColour.State F)
    (rec : HitRecord F) (sc : ScatterResult F)
    (hhit : HitEnvirons sqrt environs st.lray GetColour.SHADOW_ACHE GetColour.HUGE_T = some rec)
    (hsc : Scatter sqrt fuel st.lray rec st.rng ⟨0, 0, 0⟩ ⟨Point.zero, Point.zero⟩ = some sc)
    (hcont : sc.continues = true) :
    GetColour.body sqrt m fuel environs skybox r st =
      some (true, { attenuation := sc.attenuation * st.attenuation,
                    final_colour := st.final_colour + st.attenuation * Emit rec.mat,
                    lray := sc.rscattered, rng := sc.rng }) := by
  simp only [GetColour.body, hhit, hsc, hcont, if_true]

/-- The loop of `GetColour` runs its body at most as often as it has iterations left, and
whenever the loop returns the count of its queries is defined. -/
theorem GetColour.queries_le (sqrt : F → F) (m : Libm F) (fuel : Nat) (environs : Environs F)
    (skybox : Skybox F) (r : Ray F) :
    ∀ (n : Nat) (st : GetColour.State F),
      (∀ k, GetColour.queries sqrt m fuel environs skybox r n st = some k → k ≤ n) ∧
      (∀ res, GetColour.loop sqrt m fuel environs skybox r n st = some res →
        ∃ k, GetColour.queries sqrt m fuel environs skybox r n st = some k) := by
  intro n
  induction n with
  | zero =>
    intro st
    refine ⟨?_, fun _ _ => ⟨0, rfl⟩⟩
    intro k hk
    simp only [GetColour.queries, Option.some.injEq] at hk
    omega
  | succ n ih =>
    intro st
    cases hb : GetColour.body sqrt m fuel environs skybox r st with
    | none =>
      simp only [GetColour.queries, GetColour.loop, hb]
      exact ⟨fun k hk => Option.noConfusion hk, fun res hres => Option.noConfusion hres⟩
    | some bst =>
      obtain ⟨b, st1⟩ := bst
      cases b with
      | false =>
        simp only [GetColour.queries, GetColour.loop, hb]
        refine ⟨?_, fun _ _ => ⟨1, rfl⟩⟩
        intro k hk
        simp only [Option.some.injEq] at hk
        omega
      | true =>
        simp only [GetColour.queries, GetColour.loop, hb]
        obtain ⟨ih1, ih2⟩ := ih st1
        constructor
        · intro k hk
          cases hq : GetColour.queries sqrt m fuel environs skybox r n st1 with
          | none =>
            rw [hq] at hk
            exact Option.noConfusion hk
          | some j =>
            rw [hq] at hk
            simp only [Option.map_some', Option.some.injEq] at hk
            have := ih1 j hq
            omega
        · intro res hres
          obtain ⟨j, hj⟩ := ih2 res hres
          exact ⟨j + 1, by rw [hj]; rfl⟩

/-- The loop of `GetColour` along a path on which every query hits and every `Scatter`
continues: after `n` further bounces the attenuation is the product of the attenuations
so far and the colour is the sum of the emitted terms so far. -/
theorem GetColour.loop_all_continue (sqrt : F → F) (m : Libm F) (fuel : Nat)
    (environs : Environs F) (skybox : Skybox F) (r : Ray F)
    (recs : Nat → HitRecord F) (scs : Nat → ScatterResult F) (rays : Nat → Ray F)
    (rngs : Nat → CompileTimeRandom) :
    ∀ (n k : Nat),
      (∀ j, k ≤ j → j < k + n →
        HitEnvirons sqrt environs (rays j) GetColour.SHADOW_ACHE GetColour.HUGE_T =
          some (recs j) ∧
        Scatter sqrt fuel (rays j) (recs j) (rngs j) ⟨0, 0, 0⟩ ⟨Point.zero, Point.zero⟩ =
          some (scs j) ∧
        (scs j).continues = true ∧ rays (j + 1) = (scs j).rscattered ∧
        rngs (j + 1) = (scs j).rng) →
      GetColour.loop sqrt m fuel environs skybox r n
          { attenuation := GetColour.throughput (fun i => (scs i).attenuation) k,
            final_colour := GetColour.emitted (fun i => (scs i).attenuation)
              (fun i => Emit (recs i).mat) k,
            lray := rays k, rng := rngs k } =
        some { attenuation := GetColour.throughput (fun i => (scs i).attenuation) (k + n),
               final_colour := GetColour.emitted (fun i => (scs i).attenuation)
                 (fun i => Emit (recs i).mat) (k + n),
               lray := rays (k + n), rng := rngs (k + n) } ∧
      GetColour.queries sqrt m fuel environs skybox r n
          { attenuation := GetColour.throughput (fun i => (scs i).attenuation) k,
            final_colour := GetColour.emitted (fun i => (scs i).attenuation)
              (fun i => Emit (recs i).mat) k,
            lray := rays k, rng := rngs k } = some n := by
  intro n
  induction n with
  | zero =>
    intro k _
    exact ⟨rfl, rfl⟩
  | succ n ih =>
    intro k hstep
    obtain ⟨hhit, hsc, hcont, hray, hrng⟩ := hstep k (le_refl k) (by omega)
    have hb := GetColour.body_hit_continue sqrt m fuel environs skybox r
      { attenuation := GetColour.throughput (fun i => (scs i).attenuation) k,
        final_colour := GetColour.emitted (fun i => (scs i).attenuation)
          (fun i => Emit (recs i).mat) k,
        lray := rays k, rng := rngs k } (recs k) (scs k) hhit hsc hcont
    simp only [← hray, ← hrng] at hb
    obtain ⟨ih1, ih2⟩ := ih (k + 1) (fun j h1 h2 => hstep j (by omega) (by omega))
    have hk : k + 1 + n = k + (n + 1) := by omega
    rw [hk] at ih1
    constructor
    · rw [GetColour.loop_continue sqrt m fuel environs skybox r n _ _ hb]
      exact ih1
    · simp only [GetColour.queries, hb]
      have ih2' : GetColour.queries sqrt m fuel environs skybox r n
          { attenuation := (scs k).attenuation *
              GetColour.throughput (fun i => (scs i).attenuation) k,
            final_colour := GetColour.emitted (fun i => (scs i).attenuation)
              (fun i => Emit (recs i).mat) k +
              GetColour.throughput (fun i => (scs i).attenuation) k * Emit (recs k).mat,
            lray := rays (k + 1), rng := rngs (k + 1) } = some n := ih2
      rw [ih2']
      rfl

/-- C16: `GetColour` makes at most 50 closest-hit queries, the bound being the `MAX_DEPTH`
declared inside it and not the file-level one of 10; and when each of the 50 queries hits
and each `Scatter` continues, it makes exactly 50 queries and returns exactly the sum,
over those 50 bounces, of the product of the attenuations of the earlier bounces times
`Emit` of the material of the bounce, with no background term. -/
theorem GetColour_depth_exhausted (sqrt : F → F) (m : Libm F) (fuel : Nat)
    (environs : Environs F) (skybox : Skybox F) (r : Ray F) (rng : CompileTimeRandom)
    (recs : Nat → HitRecord F) (scs : Nat → ScatterResult F) (rays : Nat → Ray F)
    (rngs : Nat → CompileTimeRandom) (hr : rays 0 = r) (hg : rngs 0 = rng)
    (hstep : ∀ j, j < 50 →
      HitEnvirons sqrt environs (rays j) GetColour.SHADOW_ACHE GetColour.HUGE_T =
        some (recs j) ∧
      Scatter sqrt fuel (rays j) (recs j) (rngs j) ⟨0, 0, 0⟩ ⟨Point.zero, Point.zero⟩ =
        some (scs j) ∧
      (scs j).continues = true ∧ rays (j + 1) = (scs j).rscattered ∧
      rngs (j + 1) = (scs j).rng) :
    (GetColour.MAX_DEPTH = 50 ∧ MAX_DEPTH = 10) ∧
    (∀ (fuel1 : Nat) (environs1 : Environs F) (skybox1 : Skybox F) (r1 : Ray F)
        (rng1 : CompileTimeRandom),
      (∀ k, GetColour.queries sqrt m fuel1 environs1 skybox1 r1 GetColour.MAX_DEPTH
          (GetColour.init r1 rng1) = some k → k ≤ 50) ∧
      (∀ res, GetColour sqrt m fuel1 environs1 skybox1 r1 rng1 = some res →
        ∃ k, GetColour.queries sqrt m fuel1 environs1 skybox1 r1 GetColour.MAX_DEPTH
          (GetColour.init r1 rng1) = some k)) ∧
    GetColour.queries sqrt m fuel environs skybox r GetColour.MAX_DEPTH
      (GetColour.init r rng) = some 50 ∧
    GetColour sqrt m fuel environs skybox r rng =
      some (GetColour.emitted (fun i => (scs i).attenuation) (fun i => Emit (recs i).mat) 50,
        rngs 50) := by
  refine ⟨⟨rfl, rfl⟩, ?_, ?_⟩
  · intro fuel1 environs1 skybox1 r1 rng1
    obtain ⟨h1, h2⟩ := GetColour.queries_le sqrt m fuel1 environs1 skybox1 r1
      GetColour.MAX_DEPTH (GetColour.init r1 rng1)
    refine ⟨h1, ?_⟩
    intro res hres
    cases hl : GetColour.loop sqrt m fuel1 environs1 skybox1 r1 GetColour.MAX_DEPTH
        (GetColour.init r1 rng1) with
    | none =>
      rw [GetColour, hl] at hres
      exact Option.noConfusion hres
    | some st => exact h2 st hl
  · obtain ⟨h1, h2⟩ := GetColour.loop_all_continue sqrt m fuel environs skybox r recs scs rays
      rngs 50 0 (fun j _ hj => hstep j (by omega))
    have hinit : GetColour.init r rng =
        { attenuation := GetColour.throughput (fun i => (scs i).attenuation) 0,
          final_colour := GetColour.emitted (fun i => (scs i).attenuation)
            (fun i => Emit (recs i).mat) 0,
          lray := rays 0, rng := rngs 0 } := by
      rw [hr, hg]
      rfl
    constructor
    · rw [hinit]
      exact h2
    · rw [GetColour, hinit]
      show (GetColour.loop sqrt m fuel environs skybox r 50 _).map _ = _
      rw [h1]
      rfl

/-! ## The integrator: fifty bounces between two facing squares -/

theorem CompileTimeRandom.next_lt (rng : CompileTimeRandom) (h : rng.state < 2 ^ 64) :
    rng.next.state < 2 ^ 64 := by
  unfold CompileTimeRandom.next
  simp only
  have h1 : rng.state ^^^ (rng.state <<< 13 % 2 ^ 64) < 2 ^ 64 :=
    Nat.xor_lt_two_pow h (Nat.mod_lt _ (by norm_num))
  have h2 : (rng.state ^^^ (rng.state <<< 13 % 2 ^ 64)) ^^^
      ((rng.state ^^^ (rng.state <<< 13 % 2 ^ 64)) >>> 7) < 2 ^ 64 := by
    apply Nat.xor_lt_two_pow h1
    rw [Nat.shiftRight_eq_div_pow]
    exact lt_of_le_of_lt (Nat.div_le_self _ _) h1
  exact Nat.xor_lt_two_pow h2 (Nat.mod_lt _ (by norm_num))

/-- The value `random_float` returns is at most 1 once the state fits in 64 bits. -/
theorem CompileTimeRandom.random_float_le_one (rng : CompileTimeRandom)
    (h : rng.state < 2 ^ 64) : (rng.next.state : F) / (UINT64_MAX : F) ≤ 1 := by
  have h1 := CompileTimeRandom.next_lt rng h
  have h2 : rng.next.state ≤ UINT64_MAX := by
    unfold UINT64_MAX
    omega
  have h3 : (0 : F) < (UINT64_MAX : F) := by
    have : 0 < UINT64_MAX := by
      unfold UINT64_MAX
      norm_num
    exact_mod_cast this
  rw [div_le_one h3]
  exact_mod_cast h2

theorem hallRng_succ (k : Nat) : hallRng (k + 1) = (hallRng k).next := by
  unfold hallRng
  rw [Function.iterate_succ_apply']

theorem hallRng_lt (k : Nat) : (hallRng k).state < 2 ^ 64 := by
  induction k with
  | zero =>
    show sampleSeed.state < 2 ^ 64
    unfold sampleSeed
    norm_num
  | succ k ih =>
    rw [hallRng_succ]
    exact CompileTimeRandom.next_lt _ ih

theorem CreateRectangle_unit_xy (mat : MaterialT ℝ) (o : Point ℝ) :
    CreateRectangle Real.sqrt mat o ⟨1, 0, 0⟩ ⟨0, 1, 0⟩ =
      { mat := mat, origin := o, u := ⟨1, 0, 0⟩, v := ⟨0, 1, 0⟩, normal := ⟨0, 0, 1⟩,
        u_len_sq := 1, v_len_sq := 1 } := by
  simp [CreateRectangle, Normalize, CrossProduct, Length, LengthSquared, Point.ext_iff]

/-- A horizontal unit square centred on the axis, seen from a point of the axis at
height `a` along `(0,0,s)` with `s = 1` or `s = -1`: the plane is met at
`t = (z - a) / s`. -/
theorem HitRectangle_axis_t (mat : MaterialT ℝ) (z a s : ℝ) :
    HitRectangle.t
      ({ mat := mat, origin := ⟨-1/2, -1/2, z⟩, u := ⟨1, 0, 0⟩, v := ⟨0, 1, 0⟩,
         normal := ⟨0, 0, 1⟩, u_len_sq := 1, v_len_sq := 1 } : Rectangle ℝ)
      ⟨⟨0, 0, a⟩, ⟨0, 0, s⟩⟩ = (z - a) / s := by
  simp [HitRectangle.t, DotProduct]

theorem HitRectangle_axis_none (mat : MaterialT ℝ) (z a s tmin tmax : ℝ)
    (h : (z - a) / s < tmin) :
    HitRectangle
      ({ mat := mat, origin := ⟨-1/2, -1/2, z⟩, u := ⟨1, 0, 0⟩, v := ⟨0, 1, 0⟩,
         normal := ⟨0, 0, 1⟩, u_len_sq := 1, v_len_sq := 1 } : Rectangle ℝ)
      ⟨⟨0, 0, a⟩, ⟨0, 0, s⟩⟩ tmin tmax = none := by
  cases hh : HitRectangle
      ({ mat := mat, origin := ⟨-1/2, -1/2, z⟩, u := ⟨1, 0, 0⟩, v := ⟨0, 1, 0⟩,
         normal := ⟨0, 0, 1⟩, u_len_sq := 1, v_len_sq := 1 } : Rectangle ℝ)
      ⟨⟨0, 0, a⟩, ⟨0, 0, s⟩⟩ tmin tmax with
  | none => rfl
  | some rec =>
    rw [HitRectangle_eq_some_iff, HitRectangle_axis_t] at hh
    exact absurd hh.2.1 (not_le.2 h)

theorem HitRectangle_axis_some (mat : MaterialT ℝ) (z a s tmin tmax : ℝ)
    (hs : s = 1 ∨ s = -1) (h1 : tmin ≤ (z - a) / s) (h2 : (z - a) / s ≤ tmax) :
    HitRectangle
      ({ mat := mat, origin := ⟨-1/2, -1/2, z⟩, u := ⟨1, 0, 0⟩, v := ⟨0, 1, 0⟩,
         normal := ⟨0, 0, 1⟩, u_len_sq := 1, v_len_sq := 1 } : Rectangle ℝ)
      ⟨⟨0, 0, a⟩, ⟨0, 0, s⟩⟩ tmin tmax =
      some { mat := mat, point := ⟨0, 0, z⟩, normal := ⟨0, 0, -s⟩, t := (z - a) / s } := by
  rw [HitRectangle_eq_some_iff, HitRectangle.inside, HitRectangle_axis_t]
  refine ⟨?_, h1, h2, ?_, ?_⟩
  · rcases hs with rfl | rfl <;> norm_num [DotProduct]
  · rcases hs with rfl | rfl <;> norm_num [DotProduct]
  · rcases hs with rfl | rfl
    · have hn : ¬ ((1 : ℝ) < 0) := by norm_num
      simp [HitRectangle.record, HitRectangle_axis_t, DotProduct, Point.ext_iff, hn,
        Point.zero]
    · have hn : ((-1 : ℝ) < 0) := by norm_num
      simp [HitRectangle.record, HitRectangle_axis_t, DotProduct, Point.ext_iff, hn]
      ring
theorem hall_eq :
    hall Real.sqrt =
      ⟨[ObjectT.rectangle
          { mat := MaterialT.dielectric ⟨-3⟩, origin := ⟨-1/2, -1/2, -1⟩, u := ⟨1, 0, 0⟩,
            v := ⟨0, 1, 0⟩, normal := ⟨0, 0, 1⟩, u_len_sq := 1, v_len_sq := 1 },
        ObjectT.rectangle
          { mat := MaterialT.dielectric ⟨-3⟩, origin := ⟨-1/2, -1/2, 1⟩, u := ⟨1, 0, 0⟩,
            v := ⟨0, 1, 0⟩, normal := ⟨0, 0, 1⟩, u_len_sq := 1, v_len_sq := 1 }]⟩ := by
  simp only [hall, hallFloor, hallCeiling, CreateRectangle_unit_xy]

theorem HUGE_T_ge_two : (2 : ℝ) ≤ GetColour.HUGE_T := by
  unfold GetColour.HUGE_T
  norm_num

/-- Going down from the upper square the ray meets the lower square at `t = 2`. -/
theorem hall_hit_down :
    HitEnvirons Real.sqrt (hall Real.sqrt) ⟨⟨0, 0, 1⟩, ⟨0, 0, -1⟩⟩ GetColour.SHADOW_ACHE
        GetColour.HUGE_T =
      some { mat := MaterialT.dielectric ⟨-3⟩, point := ⟨0, 0, -1⟩, normal := ⟨0, 0, 1⟩,
             t := 2 } := by
  have h1 : HitEnvirons.visit Real.sqrt ⟨⟨0, 0, 1⟩, ⟨0, 0, -1⟩⟩ GetColour.SHADOW_ACHE
      GetColour.HUGE_T
      (ObjectT.rectangle
        { mat := MaterialT.dielectric ⟨-3⟩, origin := ⟨-1/2, -1/2, -1⟩, u := ⟨1, 0, 0⟩,
          v := ⟨0, 1, 0⟩, normal := ⟨0, 0, 1⟩, u_len_sq := 1, v_len_sq := 1 }) =
      some { mat := MaterialT.dielectric ⟨-3⟩, point := ⟨0, 0, -1⟩, normal := ⟨0, 0, 1⟩,
             t := 2 } := by
    show HitRectangle _ _ _ _ = _
    rw [HitRectangle_axis_some (MaterialT.dielectric ⟨-3⟩) (-1) 1 (-1)
      GetColour.SHADOW_ACHE GetColour.HUGE_T (Or.inr rfl)
      (by unfold GetColour.SHADOW_ACHE; norm_num)
      (by have := HUGE_T_ge_two; norm_num; exact this)]
    norm_num
  have h2 : HitEnvirons.visit Real.sqrt ⟨⟨0, 0, 1⟩, ⟨0, 0, -1⟩⟩ GetColour.SHADOW_ACHE (2 : ℝ)
      (ObjectT.rectangle
        { mat := MaterialT.dielectric ⟨-3⟩, origin := ⟨-1/2, -1/2, 1⟩, u := ⟨1, 0, 0⟩,
          v := ⟨0, 1, 0⟩, normal := ⟨0, 0, 1⟩, u_len_sq := 1, v_len_sq := 1 }) = none :=
    HitRectangle_axis_none (MaterialT.dielectric ⟨-3⟩) 1 1 (-1) GetColour.SHADOW_ACHE 2
      (by unfold GetColour.SHADOW_ACHE; norm_num)
  rw [hall_eq]
  show HitEnvirons.loop Real.sqrt _ _ _ GetColour.HUGE_T none = _
  rw [HitEnvirons.loop_cons_some _ _ h1]
  show HitEnvirons.loop Real.sqrt _ _ _ (2 : ℝ) _ = _
  rw [HitEnvirons.loop_cons_none _ _ h2]
  rfl

/-- Going up from the lower square the ray meets the upper square at `t = 2`. -/
theorem hall_hit_up :
    HitEnvirons Real.sqrt (hall Real.sqrt) ⟨⟨0, 0, -1⟩, ⟨0, 0, 1⟩⟩ GetColour.SHADOW_ACHE
        GetColour.HUGE_T =
      some { mat := MaterialT.dielectric ⟨-3⟩, point := ⟨0, 0, 1⟩, normal := ⟨0, 0, -1⟩,
             t := 2 } := by
  have h1 : HitEnvirons.visit Real.sqrt ⟨⟨0, 0, -1⟩, ⟨0, 0, 1⟩⟩ GetColour.SHADOW_ACHE
      GetColour.HUGE_T
      (ObjectT.rectangle
        { mat := MaterialT.dielectric ⟨-3⟩, origin := ⟨-1/2, -1/2, -1⟩, u := ⟨1, 0, 0⟩,
          v := ⟨0, 1, 0⟩, normal := ⟨0, 0, 1⟩, u_len_sq := 1, v_len_sq := 1 }) = none :=
    HitRectangle_axis_none (MaterialT.dielectric ⟨-3⟩) (-1) (-1) 1 GetColour.SHADOW_ACHE
      GetColour.HUGE_T (by unfold GetColour.SHADOW_ACHE; norm_num)
  have h2 : HitEnvirons.visit Real.sqrt ⟨⟨0, 0, -1⟩, ⟨0, 0, 1⟩⟩ GetColour.SHADOW_ACHE
      GetColour.HUGE_T
      (ObjectT.rectangle
        { mat := MaterialT.dielectric ⟨-3⟩, origin := ⟨-1/2, -1/2, 1⟩, u := ⟨1, 0, 0⟩,
          v := ⟨0, 1, 0⟩, normal := ⟨0, 0, 1⟩, u_len_sq := 1, v_len_sq := 1 }) =
      some { mat := MaterialT.dielectric ⟨-3⟩, point := ⟨0, 0, 1⟩, normal := ⟨0, 0, -1⟩,
             t := 2 } := by
    show HitRectangle _ _ _ _ = _
    rw [HitRectangle_axis_some (MaterialT.dielectric ⟨-3⟩) 1 (-1) 1
      GetColour.SHADOW_ACHE GetColour.HUGE_T (Or.inl rfl)
      (by unfold GetColour.SHADOW_ACHE; norm_num)
      (by have := HUGE_T_ge_two; norm_num; exact this)]
    norm_num
  rw [hall_eq]
  show HitEnvirons.loop Real.sqrt _ _ _ GetColour.HUGE_T none = _
  rw [HitEnvirons.loop_cons_none _ _ h1, HitEnvirons.loop_cons_some _ _ h2]
  rfl

/-- At normal incidence on the Dielectric of index `-3` the reflect probability is 4. -/
theorem hall_reflect_prob (a z s t : ℝ) (hs : s = 1 ∨ s = -1) :
    (Scatter.dielectric_refract Real.sqrt (⟨⟨0, 0, a⟩, ⟨0, 0, s⟩⟩ : Ray ℝ)
      ⟨MaterialT.dielectric ⟨-3⟩, ⟨0, 0, z⟩, ⟨0, 0, -s⟩, t⟩ ⟨-3⟩).2 = 4 := by
  have hss : s * s = 1 := by rcases hs with rfl | rfl <;> norm_num
  have hdot : DotProduct (⟨0, 0, s⟩ : Point ℝ) ⟨0, 0, -s⟩ = -1 := by
    simp only [DotProduct]
    linarith
  have hL : Length Real.sqrt (⟨0, 0, s⟩ : Point ℝ) = 1 := by
    apply isSqrt_real.eq_of_mul_self zero_le_one
    simp only [LengthSquared]
    linarith
  have hsetup : Scatter.dielectric_setup Real.sqrt (⟨⟨0, 0, a⟩, ⟨0, 0, s⟩⟩ : Ray ℝ)
      ⟨MaterialT.dielectric ⟨-3⟩, ⟨0, 0, z⟩, ⟨0, 0, -s⟩, t⟩ ⟨-3⟩ =
      (⟨0, 0, -s⟩, 1 / -3, - -1 / 1) := by
    simp only [Scatter.dielectric_setup, hdot, hL]
    rw [if_neg (by norm_num)]
  rw [Scatter.dielectric_refract, hsetup, Refract_eq]
  simp only [hdot]
  rw [if_pos (by norm_num)]
  simp only [Schlick_eq]
  norm_num

/-- One bounce in `hall`: whatever the generator draws, the ray is reflected back along
the axis. -/
theorem hall_scatter (fuel : Nat) (a z s t : ℝ) (hs : s = 1 ∨ s = -1)
    (rng : CompileTimeRandom) (h : rng.state < 2 ^ 64) :
    Scatter Real.sqrt fuel (⟨⟨0, 0, a⟩, ⟨0, 0, s⟩⟩ : Ray ℝ)
        ⟨MaterialT.dielectric ⟨-3⟩, ⟨0, 0, z⟩, ⟨0, 0, -s⟩, t⟩ rng ⟨0, 0, 0⟩
        ⟨Point.zero, Point.zero⟩ =
      some { continues := true, rng := rng.next, attenuation := ⟨1, 1, 1⟩,
             rscattered := ⟨⟨0, 0, z⟩, ⟨0, 0, -s⟩⟩ } := by
  have hss : s * s = 1 := by rcases hs with rfl | rfl <;> norm_num
  rw [Scatter_dielectric_eq, hall_reflect_prob a z s t hs]
  have hle : (rng.next.state : ℝ) / (UINT64_MAX : ℝ) < 4 :=
    lt_of_le_of_lt (CompileTimeRandom.random_float_le_one rng h) (by norm_num)
  rw [if_pos hle]
  have hrefl : Reflect (⟨⟨0, 0, a⟩, ⟨0, 0, s⟩⟩ : Ray ℝ) ⟨0, 0, -s⟩ = ⟨0, 0, -s⟩ := by
    simp only [Reflect, DotProduct, Point.ext_iff, Point.sub_x, Point.sub_y, Point.sub_z,
      Point.scalar_mul_x, Point.scalar_mul_y, Point.scalar_mul_z]
    refine ⟨by ring, by ring, ?_⟩
    linear_combination (-2 * s) * hss
  have hL : Length Real.sqrt (⟨0, 0, -s⟩ : Point ℝ) = 1 := by
    apply isSqrt_real.eq_of_mul_self zero_le_one
    simp only [LengthSquared]
    linarith
  have hray : Ray.new Real.sqrt ⟨0, 0, z⟩ (⟨0, 0, -s⟩ : Point ℝ) = ⟨⟨0, 0, z⟩, ⟨0, 0, -s⟩⟩ := by
    simp [Ray.new, Normalize, hL, Point.ext_iff]
  rw [hrefl, hray]
theorem hall_step (fuel : Nat) (j : Nat) :
    HitEnvirons Real.sqrt (hall Real.sqrt) (hallRay j) GetColour.SHADOW_ACHE GetColour.HUGE_T =
      some (hallRecord j) ∧
    Scatter Real.sqrt fuel (hallRay j) (hallRecord j) (hallRng j) ⟨0, 0, 0⟩
        ⟨Point.zero, Point.zero⟩ = some (hallScatter j) ∧
    (hallScatter j : ScatterResult ℝ).continues = true ∧
    hallRay (j + 1) = (hallScatter j : ScatterResult ℝ).rscattered ∧
    hallRng (j + 1) = (hallScatter j : ScatterResult ℝ).rng := by
  refine ⟨?_, ?_, rfl, rfl, rfl⟩
  · by_cases hj : j % 2 = 0
    · simp only [hallRay, hallRecord, hj, if_true]
      exact hall_hit_down
    · simp only [hallRay, hallRecord, hj, if_false]
      exact hall_hit_up
  · by_cases hj : j % 2 = 0
    · have hj1 : ¬ (j + 1) % 2 = 0 := by omega
      have h := hall_scatter fuel 1 (-1) (-1) 2 (Or.inr rfl) (hallRng j) (hallRng_lt j)
      simp only [neg_neg] at h
      simp only [hallRay, hallRecord, hallScatter, hj, hj1, if_true, if_false, hallRng_succ]
      exact h
    · have hj1 : (j + 1) % 2 = 0 := by omega
      have h := hall_scatter fuel (-1) 1 1 2 (Or.inl rfl) (hallRng j) (hallRng_lt j)
      simp only [hallRay, hallRecord, hallScatter, hj, hj1, if_true, if_false, hallRng_succ]
      exact h

theorem GetColour.emitted_of_no_emission (a e : Nat → Colour F)
    (h : ∀ k, e k = ⟨0, 0, 0⟩) : ∀ n, GetColour.emitted a e n = ⟨0, 0, 0⟩ := by
  intro n
  induction n with
  | zero => rfl
  | succ n ih =>
    rw [GetColour.emitted, ih, h n]
    ext <;> simp

/-- C16 in `hall`, over the reals: the ray bounces fifty times between the two squares,
`GetColour` makes fifty queries and returns black, the squares emitting nothing, without
reading the skybox; the generator has advanced by fifty draws. -/
theorem GetColour_depth_exhausted_witness :
    GetColour.queries Real.sqrt
        ⟨fun z x => Complex.arg ⟨x, z⟩, Real.arcsin, Real.pi,
          fun x => if 0 ≤ x then ⌊x⌋ else ⌈x⌉⟩
        0 (hall Real.sqrt) gridSky (hallRay 0) GetColour.MAX_DEPTH
        (GetColour.init (hallRay 0) sampleSeed) = some 50 ∧
    GetColour Real.sqrt
        ⟨fun z x => Complex.arg ⟨x, z⟩, Real.arcsin, Real.pi,
          fun x => if 0 ≤ x then ⌊x⌋ else ⌈x⌉⟩
        0 (hall Real.sqrt) gridSky (hallRay 0) sampleSeed =
      some (⟨0, 0, 0⟩, hallRng 50) := by
  have T := (GetColour_depth_exhausted Real.sqrt
    ⟨fun z x => Complex.arg ⟨x, z⟩, Real.arcsin, Real.pi,
      fun x => if 0 ≤ x then ⌊x⌋ else ⌈x⌉⟩
    0 (hall Real.sqrt) gridSky (hallRay 0) sampleSeed hallRecord hallScatter hallRay hallRng
    rfl rfl (fun j _ => hall_step 0 j)).2.2
  refine ⟨T.1, ?_⟩
  rw [T.2, GetColour.emitted_of_no_emission]
  intro k
  by_cases hk : k % 2 = 0 <;> simp [hallRecord, hk, Emit]

/-! ## The integrator: the background after a bounce -/

theorem mirrorScene_eq :
    mirrorScene Real.sqrt =
      ⟨[ObjectT.rectangle
          { mat := MaterialT.metal ⟨⟨4/5, 17/20, 22/25⟩, 0⟩, origin := ⟨-1/2, -1/2, -1⟩,
            u := ⟨1, 0, 0⟩, v := ⟨0, 1, 0⟩, normal := ⟨0, 0, 1⟩, u_len_sq := 1,
            v_len_sq := 1 }]⟩ := by
  simp only [mirrorScene, mirror, CreateRectangle_unit_xy]

/-- The starting ray meets the mirror at `t = 1`. -/
theorem mirror_hit :
    HitEnvirons Real.sqrt (mirrorScene Real.sqrt) cameraRay GetColour.SHADOW_ACHE
        GetColour.HUGE_T =
      some { mat := MaterialT.metal ⟨⟨4/5, 17/20, 22/25⟩, 0⟩, point := ⟨0, 0, -1⟩,
             normal := ⟨0, 0, 1⟩, t := 1 } := by
  have h1 : HitEnvirons.visit Real.sqrt ⟨⟨0, 0, 0⟩, ⟨0, 0, -1⟩⟩ GetColour.SHADOW_ACHE
      GetColour.HUGE_T
      (ObjectT.rectangle
        { mat := MaterialT.metal ⟨⟨4/5, 17/20, 22/25⟩, 0⟩, origin := ⟨-1/2, -1/2, -1⟩,
          u := ⟨1, 0, 0⟩, v := ⟨0, 1, 0⟩, normal := ⟨0, 0, 1⟩, u_len_sq := 1,
          v_len_sq := 1 }) =
      some { mat := MaterialT.metal ⟨⟨4/5, 17/20, 22/25⟩, 0⟩, point := ⟨0, 0, -1⟩,
             normal := ⟨0, 0, 1⟩, t := 1 } := by
    show HitRectangle _ _ _ _ = _
    rw [HitRectangle_axis_some (MaterialT.metal ⟨⟨4/5, 17/20, 22/25⟩, 0⟩) (-1) 0 (-1)
      GetColour.SHADOW_ACHE GetColour.HUGE_T (Or.inr rfl)
      (by unfold GetColour.SHADOW_ACHE; norm_num)
      (by have := HUGE_T_ge_two; norm_num; linarith)]
    norm_num
  rw [mirrorScene_eq]
  show HitEnvirons.loop Real.sqrt (⟨⟨0, 0, 0⟩, ⟨0, 0, -1⟩⟩ : Ray ℝ) _ _ GetColour.HUGE_T none = _
  rw [HitEnvirons.loop_cons_some _ _ h1]
  rfl

/-- The ray the mirror sends back misses the scene: it meets the plane of the mirror at
`t = 0`, below `SHADOW_ACHE`. -/
theorem mirror_miss :
    HitEnvirons Real.sqrt (mirrorScene Real.sqrt) mirroredRay GetColour.SHADOW_ACHE
        GetColour.HUGE_T = none := by
  have h1 : HitEnvirons.visit Real.sqrt ⟨⟨0, 0, -1⟩, ⟨0, 0, 1⟩⟩ GetColour.SHADOW_ACHE
      GetColour.HUGE_T
      (ObjectT.rectangle
        { mat := MaterialT.metal ⟨⟨4/5, 17/20, 22/25⟩, 0⟩, origin := ⟨-1/2, -1/2, -1⟩,
          u := ⟨1, 0, 0⟩, v := ⟨0, 1, 0⟩, normal := ⟨0, 0, 1⟩, u_len_sq := 1,
          v_len_sq := 1 }) = none :=
    HitRectangle_axis_none (MaterialT.metal ⟨⟨4/5, 17/20, 22/25⟩, 0⟩) (-1) (-1) 1
      GetColour.SHADOW_ACHE GetColour.HUGE_T (by unfold GetColour.SHADOW_ACHE; norm_num)
  rw [mirrorScene_eq]
  show HitEnvirons.loop Real.sqrt (⟨⟨0, 0, -1⟩, ⟨0, 0, 1⟩⟩ : Ray ℝ) _ _ GetColour.HUGE_T none = _
  rw [HitEnvirons.loop_cons_none _ _ h1]
  rfl

/-- With the generator at `sampleSeed` the mirror sends the starting ray back as
`mirroredRay` and `Scatter` continues. -/
theorem mirror_scatter :
    Scatter Real.sqrt 1 (cameraRay : Ray ℝ)
        { mat := MaterialT.metal ⟨⟨4/5, 17/20, 22/25⟩, 0⟩, point := ⟨0, 0, -1⟩,
          normal := ⟨0, 0, 1⟩, t := 1 } sampleSeed ⟨0, 0, 0⟩ ⟨Point.zero, Point.zero⟩ =
      some { continues := true, rng := sampleNext, attenuation := ⟨4/5, 17/20, 22/25⟩,
             rscattered := mirroredRay } := by
  have hn : Normalize Real.sqrt (⟨0, 0, 1⟩ : Point ℝ) = ⟨0, 0, 1⟩ := by
    simp [Normalize, Length, LengthSquared, Point.ext_iff]
  have hdir : Reflect (cameraRay : Ray ℝ) ⟨0, 0, 1⟩ + (0 : ℝ) * (samplePoint : Point ℝ) =
      ⟨0, 0, 1⟩ := by
    simp [Reflect, DotProduct, cameraRay, Point.ext_iff]
    norm_num
  have hray : Ray.new Real.sqrt ⟨0, 0, -1⟩ (⟨0, 0, 1⟩ : Point ℝ) = mirroredRay := by
    simp [Ray.new, hn, mirroredRay]
  rw [Scatter_metal_eq Real.sqrt 1 cameraRay ⟨⟨4/5, 17/20, 22/25⟩, 0⟩ ⟨0, 0, -1⟩ ⟨0, 0, 1⟩ 1
    sampleSeed ⟨0, 0, 0⟩ ⟨Point.zero, Point.zero⟩ samplePoint sampleNext
    RandomPointInUnitSphere_sampleSeed]
  simp only [hn, hdir, hray]
  simp [mirroredRay, DotProduct]

/-- In `mirrorScene` from `cameraRay` with the generator at `sampleSeed`, for every
library and skybox: `GetColour` returns the albedo of the mirror times the texel read for
`cameraRay`, the starting ray, although the ray that missed is `mirroredRay`. -/
theorem GetColour_mirror (m : Libm ℝ) (skybox : Skybox ℝ) :
    GetColour Real.sqrt m 1 (mirrorScene Real.sqrt) skybox cameraRay sampleSeed =
      some (⟨4/5, 17/20, 22/25⟩ * GetColour.texel Real.sqrt m skybox cameraRay,
        sampleNext) := by
  have hb1 := GetColour.body_hit_continue Real.sqrt m 1 (mirrorScene Real.sqrt) skybox
    cameraRay (GetColour.init cameraRay sampleSeed) _ _ mirror_hit mirror_scatter rfl
  have hb2 := GetColour.body_miss Real.sqrt m 1 (mirrorScene Real.sqrt) skybox cameraRay
    { attenuation := (⟨4/5, 17/20, 22/25⟩ : Colour ℝ) *
        (GetColour.init (cameraRay : Ray ℝ) sampleSeed).attenuation,
      final_colour := (GetColour.init (cameraRay : Ray ℝ) sampleSeed).final_colour +
        (GetColour.init (cameraRay : Ray ℝ) sampleSeed).attenuation *
          Emit (MaterialT.metal ⟨⟨4/5, 17/20, 22/25⟩, 0⟩),
      lray := mirroredRay, rng := sampleNext } mirror_miss
  show (GetColour.loop Real.sqrt m 1 (mirrorScene Real.sqrt) skybox cameraRay (48 + 1 + 1)
    (GetColour.init cameraRay sampleSeed)).map _ = _
  rw [GetColour.loop_continue Real.sqrt m 1 _ skybox cameraRay (48 + 1) _ _ hb1,
    GetColour.loop_break Real.sqrt m 1 _ skybox cameraRay 48 _ _ hb2]
  simp only [Option.map_some', GetColour.init, Emit]
  congr 1
  congr 1
  ext <;> simp
theorem toInt_eq_of_bounds {toInt : F → Int} (ht : IsTrunc toInt) {x : F} {k : Int}
    (h0 : 0 ≤ x) (h1 : (k : F) ≤ x) (h2 : x < (k : F) + 1) : toInt x = k := by
  obtain ⟨h3, h4⟩ := (ht x).1 h0
  have h5 : ((toInt x : Int) : F) < ((k + 1 : Int) : F) := by
    push_cast
    linarith
  have h6 : ((k : Int) : F) < ((toInt x + 1 : Int) : F) := by
    push_cast
    linarith
  have h7 := Int.cast_lt.1 h5
  have h8 := Int.cast_lt.1 h6
  omega

theorem arg_down : Complex.arg ⟨0, -1⟩ = -(Real.pi / 2) := by
  have h : (⟨0, -1⟩ : ℂ) = -Complex.I := by
    apply Complex.ext <;> simp
  rw [h, Complex.arg_neg_I]

theorem arg_up : Complex.arg ⟨0, 1⟩ = Real.pi / 2 := by
  have h : (⟨0, 1⟩ : ℂ) = Complex.I := by
    apply Complex.ext <;> simp
  rw [h, Complex.arg_I]

/-- Over the reals, on the 100x50 grid: the direction `(0,0,-1)` of `cameraRay` addresses
column 24 and the direction `(0,0,1)` of `mirroredRay` column 74, both in row 24. -/
theorem texel_camera_and_mirrored :
    GetColour.texel Real.sqrt
        ⟨fun z x => Complex.arg ⟨x, z⟩, Real.arcsin, Real.pi,
          fun x => if 0 ≤ x then ⌊x⌋ else ⌈x⌉⟩ gridSky cameraRay = ⟨24, 24, 0⟩ ∧
    GetColour.texel Real.sqrt
        ⟨fun z x => Complex.arg ⟨x, z⟩, Real.arcsin, Real.pi,
          fun x => if 0 ≤ x then ⌊x⌋ else ⌈x⌉⟩ gridSky mirroredRay = ⟨74, 24, 0⟩ := by
  have hpi := Real.pi_ne_zero
  have hW : GetColour.extentMinusOne (gridSky : Skybox ℝ).width = 99 := by
    norm_num [GetColour.extentMinusOne, gridSky]
  have hH : GetColour.extentMinusOne (gridSky : Skybox ℝ).height = 49 := by
    norm_num [GetColour.extentMinusOne, gridSky]
  have hdown : Normalize Real.sqrt (cameraRay : Ray ℝ).direction = ⟨0, 0, -1⟩ := by
    simp [cameraRay, Normalize, Length, LengthSquared, Point.ext_iff]
  have hup : Normalize Real.sqrt (mirroredRay : Ray ℝ).direction = ⟨0, 0, 1⟩ := by
    simp [mirroredRay, Normalize, Length, LengthSquared, Point.ext_iff]
  have hrow : (fun x : ℝ => if 0 ≤ x then ⌊x⌋ else ⌈x⌉) ((1 / 2 - Real.arcsin 0 / Real.pi) *
      ((49 : Nat) : ℝ)) = 24 := by
    apply toInt_eq_of_bounds isTrunc_real <;> norm_num
  have hcol1 : (fun x : ℝ => if 0 ≤ x then ⌊x⌋ else ⌈x⌉)
      ((1 / 2 + -(Real.pi / 2) / (2 * Real.pi)) * ((99 : Nat) : ℝ)) = 24 := by
    have e : (1 / 2 + -(Real.pi / 2) / (2 * Real.pi)) * ((99 : Nat) : ℝ) = 99 / 4 := by
      field_simp
      ring
    rw [e]
    apply toInt_eq_of_bounds isTrunc_real <;> norm_num
  have hcol2 : (fun x : ℝ => if 0 ≤ x then ⌊x⌋ else ⌈x⌉)
      ((1 / 2 + Real.pi / 2 / (2 * Real.pi)) * ((99 : Nat) : ℝ)) = 74 := by
    have e : (1 / 2 + Real.pi / 2 / (2 * Real.pi)) * ((99 : Nat) : ℝ) = 297 / 4 := by
      field_simp
      ring
    rw [e]
    apply toInt_eq_of_bounds isTrunc_real <;> norm_num
  beta_reduce at hrow hcol1 hcol2
  constructor
  · rw [GetColour.texel_eq, GetColour.u, GetColour.v, hdown, hW, hH]
    simp only [arg_down]
    rw [hrow, hcol1]
    simp [gridSky]
  · rw [GetColour.texel_eq, GetColour.u, GetColour.v, hup, hW, hH]
    simp only [arg_up]
    rw [hrow, hcol2]
    simp [gridSky]

/-- C17 fails on the code: in `mirrorScene` on the 100x50 grid, over the reals and with
the generator at `sampleSeed`, the starting ray `cameraRay` hits the mirror, `Scatter`
continues with `mirroredRay`, and `mirroredRay` misses the scene.  Its direction `(0,0,1)`
addresses the texel `(74, 24, 0)`, yet `GetColour` adds the albedo times the texel
`(24, 24, 0)`, the one addressed by the direction `(0,0,-1)` of the starting ray. -/
theorem GetColour_background_addressed_by_starting_ray :
    HitEnvirons Real.sqrt (mirrorScene Real.sqrt) cameraRay GetColour.SHADOW_ACHE
        GetColour.HUGE_T =
      some { mat := MaterialT.metal ⟨⟨4/5, 17/20, 22/25⟩, 0⟩, point := ⟨0, 0, -1⟩,
             normal := ⟨0, 0, 1⟩, t := 1 } ∧
    Scatter Real.sqrt 1 (cameraRay : Ray ℝ)
        { mat := MaterialT.metal ⟨⟨4/5, 17/20, 22/25⟩, 0⟩, point := ⟨0, 0, -1⟩,
          normal := ⟨0, 0, 1⟩, t := 1 } sampleSeed ⟨0, 0, 0⟩ ⟨Point.zero, Point.zero⟩ =
      some { continues := true, rng := sampleNext, attenuation := ⟨4/5, 17/20, 22/25⟩,
             rscattered := mirroredRay } ∧
    HitEnvirons Real.sqrt (mirrorScene Real.sqrt) mirroredRay GetColour.SHADOW_ACHE
        GetColour.HUGE_T = none ∧
    GetColour.texel Real.sqrt
        ⟨fun z x => Complex.arg ⟨x, z⟩, Real.arcsin, Real.pi,
          fun x => if 0 ≤ x then ⌊x⌋ else ⌈x⌉⟩ gridSky mirroredRay = ⟨74, 24, 0⟩ ∧
    GetColour Real.sqrt
        ⟨fun z x => Complex.arg ⟨x, z⟩, Real.arcsin, Real.pi,
          fun x => if 0 ≤ x then ⌊x⌋ else ⌈x⌉⟩
        1 (mirrorScene Real.sqrt) gridSky cameraRay sampleSeed =
      some (⟨4/5, 17/20, 22/25⟩ * ⟨24, 24, 0⟩, sampleNext) ∧
    (⟨4/5, 17/20, 22/25⟩ * ⟨24, 24, 0⟩ : Colour ℝ) ≠ ⟨4/5, 17/20, 22/25⟩ * ⟨74, 24, 0⟩ := by
  refine ⟨mirror_hit, mirror_scatter, mirror_miss, texel_camera_and_mirrored.2, ?_, ?_⟩
  · rw [GetColour_mirror, texel_camera_and_mirrored.1]
  · intro h
    have hr := congrArg Colour.r h
    simp only [Colour.mul_r] at hr
    norm_num at hr

/-! ## The generator: the zero state -/

theorem xorshift_left_13_eq_zero {x : Nat} (h : x ^^^ ((x <<< 13) % 2 ^ 64) = 0) : x = 0 := by
  rw [Nat.xor_eq_zero, Nat.shiftLeft_eq] at h
  norm_num at h
  omega

theorem xorshift_left_17_eq_zero {x : Nat} (h : x ^^^ ((x <<< 17) % 2 ^ 64) = 0) : x = 0 := by
  rw [Nat.xor_eq_zero, Nat.shiftLeft_eq] at h
  norm_num at h
  omega

theorem xorshift_right_7_eq_zero {x : Nat} (h : x ^^^ (x >>> 7) = 0) : x = 0 := by
  rw [Nat.xor_eq_zero, Nat.shiftRight_eq_div_pow] at h
  norm_num at h
  omega

theorem CompileTimeRandom.next_zero : CompileTimeRandom.next ⟨0⟩ = ⟨0⟩ := rfl

theorem CompileTimeRandom.next_state_eq_zero_iff (rng : CompileTimeRandom) :
    rng.next.state = 0 ↔ rng.state = 0 := by
  constructor
  · intro h
    unfold CompileTimeRandom.next at h
    simp only at h
    exact xorshift_left_13_eq_zero (xorshift_right_7_eq_zero (xorshift_left_17_eq_zero h))
  · intro h
    have : rng = ⟨0⟩ := by
      cases rng
      simp only at h
      rw [h]
    rw [this]
    rfl

theorem CompileTimeRandom.iterate_next_state_eq_zero_iff (rng : CompileTimeRandom) (k : Nat) :
    (CompileTimeRandom.next^[k] rng).state = 0 ↔ rng.state = 0 := by
  induction k with
  | zero => rfl
  | succ k ih =>
    rw [Function.iterate_succ_apply', CompileTimeRandom.next_state_eq_zero_iff, ih]

theorem CompileTimeRandom.iterate_next_zero (k : Nat) :
    CompileTimeRandom.next^[k] ⟨0⟩ = ⟨0⟩ := by
  induction k with
  | zero => rfl
  | succ k ih => rw [Function.iterate_succ_apply', ih, CompileTimeRandom.next_zero]

/-- One round of `RandomPointInUnitSphere` in terms of its candidate. -/
theorem RandomPointInUnitSphere_round (fuel : Nat) (rng : CompileTimeRandom) :
    (RandomPointInUnitSphere (fuel + 1) rng : Option (Point F × CompileTimeRandom)) =
      if LengthSquared (RandomPointInUnitSphere.candidate rng : Point F) ≥ 1 then
        RandomPointInUnitSphere fuel rng.next.next.next
      else some (RandomPointInUnitSphere.candidate rng, rng.next.next.next) := rfl

theorem candidate_zero :
    (RandomPointInUnitSphere.candidate ⟨0⟩ : Point F) = ⟨-1, -1, -1⟩ := by
  simp [RandomPointInUnitSphere.candidate, CompileTimeRandom.next_zero]

theorem RandomPointInUnitSphere_zero (fuel : Nat) :
    (RandomPointInUnitSphere fuel ⟨0⟩ : Option (Point F × CompileTimeRandom)) = none := by
  induction fuel with
  | zero => rfl
  | succ fuel ih =>
    rw [RandomPointInUnitSphere_round, candidate_zero, if_pos]
    · simp only [CompileTimeRandom.next_zero]
      exact ih
    · simp only [LengthSquared]
      norm_num

/-- C21: one draw of `CompileTimeRandom` yields the new state 0 if and only if the state
was 0, so a non-zero state stays non-zero after any number of draws, and a generator
seeded with 0 (the seed `CreateSeed` gives for the time `00:00:00`) stays at 0 on every
draw; `random_float` is then always 0, every round of `RandomPointInUnitSphere` builds the
candidate `(-1,-1,-1)` of squared length 3, which the loop rejects, and with no bound on
the rounds does the loop return a point. -/
theorem CompileTimeRandom_zero_state :
    (∀ rng : CompileTimeRandom, rng.next.state = 0 ↔ rng.state = 0) ∧
    (∀ (rng : CompileTimeRandom) (k : Nat),
      (CompileTimeRandom.next^[k] rng).state = 0 ↔ rng.state = 0) ∧
    CreateSeed ['0', '0', ':', '0', '0', ':', '0', '0'] = 0 ∧
    (∀ k : Nat, CompileTimeRandom.next^[k] ⟨0⟩ = ⟨0⟩) ∧
    (∀ k : Nat,
      ((CompileTimeRandom.next^[k] ⟨0⟩).random_float : F × CompileTimeRandom) = (0, ⟨0⟩)) ∧
    (∀ k : Nat,
      (RandomPointInUnitSphere.candidate (CompileTimeRandom.next^[k] ⟨0⟩) : Point F) =
        ⟨-1, -1, -1⟩) ∧
    LengthSquared (⟨-1, -1, -1⟩ : Point F) = 3 ∧
    (∀ fuel : Nat,
      (RandomPointInUnitSphere fuel ⟨0⟩ : Option (Point F × CompileTimeRandom)) = none) := by
  refine ⟨CompileTimeRandom.next_state_eq_zero_iff,
    CompileTimeRandom.iterate_next_state_eq_zero_iff, ?_,
    CompileTimeRandom.iterate_next_zero, ?_, ?_, ?_, RandomPointInUnitSphere_zero⟩
  · decide
  · intro k
    rw [CompileTimeRandom.iterate_next_zero]
    simp [CompileTimeRandom.random_float, CompileTimeRandom.next_zero]
  · intro k
    rw [CompileTimeRandom.iterate_next_zero, candidate_zero]
  · simp only [LengthSquared]
    norm_num

end Raytracer
